import Mathlib

/-!
# comparative_projection_vs_real_2022_2023

A shallow embedding of `src/comparative_projection_vs_real_2022_2023.js` and of the
field registry of `src/env.js`, with the properties of the pipeline proved over it.

JavaScript strings are sequences of Unicode code points (`List Char`); where the
source counts UTF-16 code units (`length`, `padStart`, `substring`) the embedding counts
them too. Exceptions are values of `Except`, the payload being the `message` of the
error. Numbers are the rationals that binary64 represents, with `NaN` and the infinities
apart. What lies outside the program (the CSV stream, the enrichment source, the workbook
and the upload) is a parameter of the run, and so are the Unicode tables of the engine
for code points outside ASCII.
-/

set_option autoImplicit false

namespace Proyeccion

/-! ## JavaScript values and strings -/

deriving instance DecidableEq for Except

/-- A JavaScript string, as its sequence of code points. -/
abbrev JSString := List Char

/-- A JavaScript Number: `NaN`, the two infinities, or a finite value. -/
inductive JSNumber where
  | nan
  | posInf
  | negInf
  | finite (x : ℚ)
deriving DecidableEq

/-- The values a field of a record can hold. `builtin name` is the member `name`
that every plain object inherits from `Object.prototype`. -/
inductive Value where
  | str (s : JSString)
  | num (x : JSNumber)
  | null
  | undefined
  | builtin (name : JSString)
deriving DecidableEq

/-- The tables of the JavaScript engine that the source reaches through built-ins and
that are not reproduced here. ASCII code points never go through them. -/
structure Engine where
  /-- Lower-case mapping of a code point outside ASCII, given the code points before
  and after it (`String.prototype.toLowerCase`). -/
  lowerOther : JSString → Char → JSString → JSString
  /-- Upper-case mapping of a code point outside ASCII (`String.prototype.toUpperCase`). -/
  upperOther : Char → JSString
  /-- Canonical decomposition of a run of code points outside ASCII
  (`String.prototype.normalize("NFD")`). -/
  nfdOther : JSString → JSString
  /-- The conversion `ToString` of a Number (`isNumber = true`) or of an inherited
  member of `Object.prototype`, named by its key (`isNumber = false`). -/
  toStringOther : JSNumber ⊕ JSString → JSString

/-- ASCII decimal digit, the class `\d` of a regular expression without flags. -/
def isDecimalDigit (c : Char) : Bool := decide (48 ≤ c.toNat ∧ c.toNat ≤ 57)

/-- The value of a decimal digit. -/
def digitValue (c : Char) : Nat := c.toNat - 48

/-- White space and line terminators: the class `\s`, which is also what
`parseInt`, `parseFloat` and `Number` strip. -/
def isWhiteSpace (c : Char) : Bool :=
  let n := c.toNat
  decide (n = 0x09 ∨ n = 0x0A ∨ n = 0x0B ∨ n = 0x0C ∨ n = 0x0D ∨ n = 0x20 ∨ n = 0xA0 ∨
    n = 0x1680 ∨ (0x2000 ≤ n ∧ n ≤ 0x200A) ∨ n = 0x2028 ∨ n = 0x2029 ∨ n = 0x202F ∨
    n = 0x205F ∨ n = 0x3000 ∨ n = 0xFEFF)

/-- Number of UTF-16 code units of a code point. -/
def codeUnits (c : Char) : Nat := if c.toNat < 0x10000 then 1 else 2

/-- The `length` property of a string: its number of UTF-16 code units. -/
def jsLength (s : JSString) : Nat := (s.map codeUnits).sum

/-- The method `padStart(targetLength, fill)` for a one-unit fill string. -/
def padStart (s : JSString) (targetLength : Nat) (fill : Char) : JSString :=
  List.replicate (targetLength - jsLength s) fill ++ s

/-- The method `split(sep)` for a one-character separator. -/
def split (sep : Char) : JSString → List JSString
  | [] => [[]]
  | c :: cs =>
    if c = sep then [] :: split sep cs
    else
      match split sep cs with
      | [] => [[c]]
      | p :: ps => (c :: p) :: ps

/-- The method `includes(needle)`. -/
def includes (haystack needle : JSString) : Bool :=
  haystack.tails.any (fun t => needle.isPrefixOf t)

/-- Lower-case mapping of an ASCII code point. -/
def asciiLower (c : Char) : Char :=
  if 65 ≤ c.toNat ∧ c.toNat ≤ 90 then Char.ofNat (c.toNat + 32) else c

/-- Upper-case mapping of an ASCII code point. -/
def asciiUpper (c : Char) : Char :=
  if 97 ≤ c.toNat ∧ c.toNat ≤ 122 then Char.ofNat (c.toNat - 32) else c

/-- Worker of `toLowerCase`: `before` holds the code points already passed. -/
def toLowerCaseFrom (E : Engine) (before : JSString) : JSString → JSString
  | [] => []
  | c :: rest =>
    (if c.toNat < 128 then [asciiLower c] else E.lowerOther before c rest) ++
      toLowerCaseFrom E (before ++ [c]) rest

/-- The method `toLowerCase()`. -/
def toLowerCase (E : Engine) (s : JSString) : JSString := toLowerCaseFrom E [] s

/-- The method `toUpperCase()`. -/
def toUpperCase (E : Engine) (s : JSString) : JSString :=
  s.flatMap (fun c => if c.toNat < 128 then [asciiUpper c] else E.upperOther c)

/-! ## Numbers -/

/-- Number of binary digits of a natural number (`0` for `0`). -/
def bitLength (n : ℕ) : ℕ := if n = 0 then 0 else (Nat.toDigits 2 n).length

/-- For `n, d > 0`, the integer `e` with `2 ^ e ≤ n / d < 2 ^ (e + 1)`. -/
def floorLog2 (n d : ℕ) : ℤ :=
  let e0 : ℤ := (bitLength n : ℤ) - (bitLength d : ℤ)
  let below : Bool :=
    if 0 ≤ e0 then decide (n < d * 2 ^ e0.toNat) else decide (n * 2 ^ (-e0).toNat < d)
  if below then e0 - 1 else e0

/-- The quotient `n / d` rounded to the nearest integer, ties to the even one. -/
def roundHalfEven (n d : ℕ) : ℕ :=
  let f := n / d
  let r := n % d
  if 2 * r < d then f
  else if d < 2 * r then f + 1
  else if f % 2 = 0 then f else f + 1

/-- The magnitude `n / d` rounded to the nearest binary64 magnitude (ties to even):
`none` when the result overflows, else the value. -/
def roundMagnitude (n d : ℕ) : Option ℚ :=
  let e := max (floorLog2 n d) (-1022)
  let k := e - 52
  if 0 ≤ k then
    let m := roundHalfEven n (d * 2 ^ k.toNat) * 2 ^ k.toNat
    if 2 ^ 1024 ≤ m then none else some ((m : ℕ) : ℚ)
  else
    some (mkRat (roundHalfEven (n * 2 ^ (-k).toNat) d) (2 ^ (-k).toNat))

/-- The Number nearest to the quotient `n / d` of an integer by a positive natural
number: round to nearest binary64, ties to even, overflow to an infinity. The two zeros
are not told apart. -/
def roundToDouble (n : ℤ) (d : ℕ) : JSNumber :=
  if n = 0 ∨ d = 0 then .finite 0
  else
    match roundMagnitude n.natAbs d with
    | none => if n < 0 then .negInf else .posInf
    | some r => .finite (if n < 0 then -r else r)

/-- Value of a code point as a digit in the given radix, if it is one. -/
def radixDigit (radix : Nat) (c : Char) : Option Nat :=
  let n := c.toNat
  let v : Option Nat :=
    if 48 ≤ n ∧ n ≤ 57 then some (n - 48)
    else if 97 ≤ n ∧ n ≤ 122 then some (n - 87)
    else if 65 ≤ n ∧ n ≤ 90 then some (n - 55)
    else none
  v.filter (fun d => decide (d < radix))

/-- The global `parseInt(string)` called without a radix. -/
def parseInt (s : JSString) : JSNumber :=
  let t := s.dropWhile isWhiteSpace
  let neg : Bool := t.head? == some '-'
  let u := match t with
    | '+' :: r => r
    | '-' :: r => r
    | _ => t
  let rv : Nat × JSString := match u with
    | '0' :: 'x' :: r => (16, r)
    | '0' :: 'X' :: r => (16, r)
    | _ => (10, u)
  let ds := (rv.2.takeWhile (fun c => (radixDigit rv.1 c).isSome)).filterMap (radixDigit rv.1)
  if ds = [] then .nan
  else
    let n : ℕ := ds.foldl (fun acc d => acc * rv.1 + d) 0
    roundToDouble (if neg then -(n : ℤ) else (n : ℤ)) 1

/-- Whether `s` is empty or one complete `ExponentPart`. -/
def isOptExponentPart (s : JSString) : Bool :=
  match s with
  | [] => true
  | e :: r =>
    (e == 'e' || e == 'E') &&
      (let ds := match r with
        | '+' :: t => t
        | '-' :: t => t
        | _ => r
       !ds.isEmpty && ds.all isDecimalDigit)

/-- The production `StrUnsignedDecimalLiteral`. -/
def isStrUnsignedDecimalLiteral (s : JSString) : Bool :=
  s == "Infinity".toList ||
    (let ds := s.takeWhile isDecimalDigit
     match s.dropWhile isDecimalDigit with
     | '.' :: t =>
       (!ds.isEmpty || !(t.takeWhile isDecimalDigit).isEmpty) &&
         isOptExponentPart (t.dropWhile isDecimalDigit)
     | r => !ds.isEmpty && isOptExponentPart r)

/-- The production `StrNumericLiteral`: a signed decimal literal, or an unsigned
binary, octal or hexadecimal integer literal. -/
def isStrNumericLiteral (s : JSString) : Bool :=
  match s with
  | '0' :: p :: r =>
    if p == 'x' || p == 'X' then !r.isEmpty && r.all (fun c => (radixDigit 16 c).isSome)
    else if p == 'o' || p == 'O' then !r.isEmpty && r.all (fun c => (radixDigit 8 c).isSome)
    else if p == 'b' || p == 'B' then !r.isEmpty && r.all (fun c => (radixDigit 2 c).isSome)
    else isStrUnsignedDecimalLiteral s
  | '+' :: r => isStrUnsignedDecimalLiteral r
  | '-' :: r => isStrUnsignedDecimalLiteral r
  | _ => isStrUnsignedDecimalLiteral s

/-- A string without its leading and trailing white space. -/
def trim (s : JSString) : JSString :=
  ((s.dropWhile isWhiteSpace).reverse.dropWhile isWhiteSpace).reverse

/-- Value of an optional `ExponentPart` at the head of `s`: `0` when there is none. -/
def exponentValue (s : JSString) : ℤ :=
  match s with
  | [] => 0
  | e :: r =>
    if e == 'e' || e == 'E' then
      let neg : Bool := r.head? == some '-'
      let t := match r with
        | '+' :: t => t
        | '-' :: t => t
        | _ => r
      let ds := t.takeWhile isDecimalDigit
      let n : ℕ := ds.foldl (fun acc c => acc * 10 + digitValue c) 0
      if ds.isEmpty then 0 else if neg then -(n : ℤ) else (n : ℤ)
    else 0

/-- The global `parseFloat(string)`: the Number of the longest prefix of the trimmed
string that is a `StrDecimalLiteral`, `NaN` when there is none. -/
def parseFloat (s : JSString) : JSNumber :=
  let t := s.dropWhile isWhiteSpace
  let neg : Bool := t.head? == some '-'
  let u := match t with
    | '+' :: r => r
    | '-' :: r => r
    | _ => t
  if "Infinity".toList.isPrefixOf u then (if neg then .negInf else .posInf)
  else
    let ip := u.takeWhile isDecimalDigit
    let r1 := u.dropWhile isDecimalDigit
    let fp := match r1 with
      | '.' :: r => r.takeWhile isDecimalDigit
      | _ => []
    let r2 := match r1 with
      | '.' :: r => r.dropWhile isDecimalDigit
      | _ => r1
    if ip.isEmpty && fp.isEmpty then .nan
    else
      let n : ℕ := (ip ++ fp).foldl (fun acc c => acc * 10 + digitValue c) 0
      let e10 : ℤ := exponentValue r2 - (fp.length : ℤ)
      let sn : ℤ := if neg then -(n : ℤ) else (n : ℤ)
      if 0 ≤ e10 then roundToDouble (sn * 10 ^ e10.toNat) 1
      else roundToDouble sn (10 ^ (-e10).toNat)

/-- The conversion `Number(v)` of a string or of `undefined` (`none`): `NaN` for
`undefined` and for every string that, once trimmed, is neither empty nor a numeric
literal. -/
def toNumber (v : Option JSString) : JSNumber :=
  match v with
  | none => .nan
  | some s =>
    let t := trim s
    if t.isEmpty then .finite 0
    else if !isStrNumericLiteral t then .nan
    else
      match t with
      | '0' :: p :: r =>
        let radix : ℕ :=
          if p == 'x' || p == 'X' then 16
          else if p == 'o' || p == 'O' then 8
          else if p == 'b' || p == 'B' then 2
          else 10
        if radix = 10 then parseFloat t
        else roundToDouble ((r.filterMap (radixDigit radix)).foldl
          (fun acc d => acc * radix + d) 0 : ℕ) 1
      | _ => parseFloat t

/-- The global `isNaN` on a Number. -/
def isNaN (x : JSNumber) : Bool := x == .nan

/-- The global `isFinite` on a Number. -/
def isFinite (x : JSNumber) : Bool :=
  match x with
  | .finite _ => true
  | _ => false

/-- The method `replace(a, b)` for one-character strings: only the first occurrence
is replaced. -/
def replaceFirst (a b : Char) : JSString → JSString
  | [] => []
  | c :: cs => if c = a then b :: cs else c :: replaceFirst a b cs

/-- Worker of `nfd`: `run` is the pending run of code points outside ASCII. -/
def nfdFrom (E : Engine) (run : JSString) : JSString → JSString
  | [] => if run.isEmpty then [] else E.nfdOther run
  | c :: cs =>
    if c.toNat < 128 then (if run.isEmpty then [] else E.nfdOther run) ++ c :: nfdFrom E [] cs
    else nfdFrom E (run ++ [c]) cs

/-- The method `normalize("NFD")`: ASCII code points decompose to themselves and
separate the runs that the engine decomposes. -/
def nfd (E : Engine) (s : JSString) : JSString := nfdFrom E [] s

/-- Worker of `replaceSpaceRuns`: `inRun` tells whether the code point before was
white space. -/
def replaceSpaceRunsFrom (inRun : Bool) : JSString → JSString
  | [] => []
  | c :: cs =>
    if isWhiteSpace c then
      (if inRun then [] else ['_']) ++ replaceSpaceRunsFrom true cs
    else c :: replaceSpaceRunsFrom false cs

/-- The replacement `replace(/\s+/g, "_")`: every maximal run of white space becomes
one underscore. -/
def replaceSpaceRuns (s : JSString) : JSString := replaceSpaceRunsFrom false s

/-! ## Field transformers -/

/-- The test `/^\d{4}-\d{2}-\d{2}$/.test(s)`. -/
def matchesIsoDate (s : JSString) : Bool :=
  match s with
  | [y1, y2, y3, y4, h1, m1, m2, h2, d1, d2] =>
    isDecimalDigit y1 && isDecimalDigit y2 && isDecimalDigit y3 && isDecimalDigit y4 &&
      h1 == '-' && isDecimalDigit m1 && isDecimalDigit m2 && h2 == '-' &&
      isDecimalDigit d1 && isDecimalDigit d2
  | _ => false

/-- Message of the error thrown by `transformDateFormat`. -/
def invalidDateMessage : JSString := "Formato de fecha inválido. Debe ser dd/mm/yyyy.".toList

/-- The function `transformDateFormat(inputDate)`. -/
def transformDateFormat (inputDate : JSString) : Except JSString JSString :=
  if matchesIsoDate inputDate then .ok inputDate
  else
    let parts := split '/' inputDate
    if parts.length ≠ 3 then .error invalidDateMessage
    else
      let day := parts.getD 0 []
      let month := parts.getD 1 []
      let year := parts.getD 2 []
      .ok (year ++ "-".toList ++ padStart month 2 '0' ++ "-".toList ++ padStart day 2 '0')

/-- The table `months` of `separate_month_and_year`. -/
def months : List (JSString × Nat) :=
  [("ene".toList, 1), ("feb".toList, 2), ("mar".toList, 3), ("abr".toList, 4),
   ("may".toList, 5), ("jun".toList, 6), ("jul".toList, 7), ("ago".toList, 8),
   ("sep".toList, 9), ("oct".toList, 10), ("nov".toList, 11), ("dic".toList, 12)]

/-- Names of the members a plain object inherits from `Object.prototype`. -/
def objectPrototypeNames : List JSString :=
  ["constructor".toList, "__defineGetter__".toList, "__defineSetter__".toList,
   "hasOwnProperty".toList, "__lookupGetter__".toList, "__lookupSetter__".toList,
   "isPrototypeOf".toList, "propertyIsEnumerable".toList, "toString".toList,
   "valueOf".toList, "__proto__".toList, "toLocaleString".toList]

/-- The property read `months[key]`: an own entry, else an inherited member, else
`undefined`. -/
def monthsGet (key : JSString) : Value :=
  match months.lookup key with
  | some n => .num (.finite n)
  | none => if key ∈ objectPrototypeNames then .builtin key else .undefined

/-- The conversion `ToBoolean`. -/
def truthy : Value → Bool
  | .str s => !s.isEmpty
  | .num (.finite x) => decide (x ≠ 0)
  | .num .nan => false
  | .num _ => true
  | .null => false
  | .undefined => false
  | .builtin _ => true

/-- Result object of `separate_month_and_year`. -/
structure MonthAndYear where
  month : Value
  year : Value
deriving DecidableEq

/-- Message of the error thrown by `separate_month_and_year`. -/
def invalidMonthMessage : JSString := "Invalid date format. Expected format: \"mon-yy\".".toList

/-- The function `separate_month_and_year(dateString)`. -/
def separate_month_and_year (E : Engine) (dateString : JSString) :
    Except JSString MonthAndYear :=
  let parts := split '-' (toLowerCase E dateString)
  let monthStr : JSString := parts.getD 0 []
  let yearStr : Option JSString := parts.get? 1
  if !truthy (monthsGet monthStr) || isNaN (toNumber yearStr) ||
      decide ((yearStr.map jsLength) ≠ some 2) then
    .error invalidMonthMessage
  else
    let month := monthsGet monthStr
    let year := parseInt ("20".toList ++ yearStr.getD [])
    .ok { month := month, year := .num year }

/-- The function `normalizeAndSanitize(text, replaceSpaces, replaceDots)`; an argument
that is `undefined` (`none`) takes its default, `false` and `true`. -/
def normalizeAndSanitize (E : Engine) (text : JSString) (replaceSpaces replaceDots : Option Bool) :
    JSString :=
  let result := nfd E text
  let result := if replaceDots.getD true then result.filter (fun c => !(c == '.' || c == ','))
    else result
  let result := toUpperCase E result
  let result := if replaceSpaces.getD false then replaceSpaceRuns result else result
  let result := result.filter (fun c => !decide (0x300 ≤ c.toNat ∧ c.toNat ≤ 0x36F))
  result.filter (fun c => !(c == '\n' || c == '\r'))

/-- The function `transformAndValidateDecimal(value)`. -/
def transformAndValidateDecimal (value : JSString) : Value :=
  let sanitizedValue := replaceFirst ',' '.' value
  let parsedValue := parseFloat sanitizedValue
  if !isNaN parsedValue && isFinite parsedValue then .num parsedValue else .null

/-! ## Field registry (`env.js`) -/

/-- The optional `params` of a registry entry. -/
structure Params where
  replaceSpaces : Option Bool
  replaceDots : Option Bool

/-- An entry of `HEADERS`. -/
structure Header where
  name : String
  required : Bool
  process : String
  params : Option Params

/-- The registry `HEADERS` of `env.js`; no entry has `params`. -/
def HEADERS : List Header :=
  [⟨"Temporada", true, "none", none⟩,
   ⟨"Fruta", true, "sanitize", none⟩,
   ⟨"Centro_acopio", true, "sanitize", none⟩,
   ⟨"Estado", true, "sanitize", none⟩,
   ⟨"PR_Productor", true, "sanitize", none⟩,
   ⟨"Nombre_Productor", true, "sanitize", none⟩,
   ⟨"Nombre_Huerto", true, "sanitize", none⟩,
   ⟨"Codigo_Huerto", true, "decimal", none⟩,
   ⟨"Hectareas", true, "decimal", none⟩,
   ⟨"Mes", true, "month", none⟩,
   ⟨"Semana", true, "none", none⟩,
   ⟨"Cajas_proyectadas", true, "decimal", none⟩,
   ⟨"Variedad", true, "sanitize", none⟩,
   ⟨"Fecha_Update", true, "transformDateFormat", none⟩]

/-! ## Record builder (`readCsvFile`) -/

/-- A row delivered by the CSV parser: the raw text of each column, by column name. -/
abbrev Row := List (String × JSString)

/-- A record: its own properties in creation order, which is the order `Object.keys`
and `Object.values` follow for property names that are not array indices. -/
abbrev Record := List (String × Value)

/-- The property read `record[key]`: `undefined` when the record has no such property. -/
def Record.get (r : Record) (key : String) : Value := (r.lookup key).getD .undefined

/-- The assignment `record[key] = v`: an existing property keeps its place, a new one
goes last. -/
def Record.set : Record → String → Value → Record
  | [], key, v => [(key, v)]
  | (k, w) :: rest, key, v =>
    if k = key then (k, v) :: rest else (k, w) :: Record.set rest key v

/-- The branch of the listener taken when `data[key]` is truthy: the transform named by
`header.process` stores its result in `processedData`, or throws. -/
def processField (E : Engine) (header : Header) (raw : JSString) (processedData : Record) :
    Except JSString Record :=
  let key := header.name
  let params : Params := header.params.getD ⟨none, none⟩
  if header.process = "sanitize" then
    .ok (processedData.set key
      (if header.required then
        .str (normalizeAndSanitize E raw params.replaceSpaces params.replaceDots)
       else .str raw))
  else if header.process = "transformDateFormat" then
    match transformDateFormat raw with
    | .ok v => .ok (processedData.set key (.str v))
    | .error e => .error e
  else if header.process = "decimal" then
    .ok (processedData.set key (transformAndValidateDecimal raw))
  else if header.process = "month" then
    match separate_month_and_year E raw with
    | .ok month_and_year =>
      .ok ((processedData.set key month_and_year.month).set "Anio" month_and_year.year)
    | .error e => .error e
  else if header.process = "none" then
    .ok (processedData.set key (.str raw))
  else .ok processedData

/-- The loop `for (const header of env.HEADERS)` of the listener, from the entries still
to visit and the `processedData` built so far. The result is `some processedData` when
`rowIsValid` stays `true`, `none` when the loop breaks with `rowIsValid = false`, and an
error when a transform throws. -/
def processRow (E : Engine) (data : Row) : List Header → Record → Except JSString (Option Record)
  | [], processedData => .ok (some processedData)
  | header :: rest, processedData =>
    match data.lookup header.name with
    | some (c :: cs) =>
      match processField E header (c :: cs) processedData with
      | .ok processedData => processRow E data rest processedData
      | .error e => .error e
    | _ => if header.required then .ok none else processRow E data rest processedData

/-- The `'data'` listener of `readCsvFile`: the new `dataArray`, or the exception the
listener lets escape. -/
def onData (E : Engine) (data : Row) (dataArray : List Record) : Except JSString (List Record) :=
  match processRow E data HEADERS [] with
  | .ok (some processedData) => .ok (dataArray ++ [processedData])
  | .ok none => .ok dataArray
  | .error e => .error e

/-- An `'error'` event met while the file is read, with its message. `readCsvFile` pipes
the file stream into the CSV parser and listens on what `pipe` returns, the parser: an
error of the `parser` reaches the listener, an error of the `file` stream (the file
cannot be opened or read) has no listener, and `pipe` does not forward it. -/
inductive StreamError where
  | parser (message : JSString)
  | file (message : JSString)
deriving DecidableEq

/-- What the CSV stream delivers: its rows, then `'end'`, or an `'error'` event after the
rows. -/
structure CsvStream where
  rows : List Row
  error : Option StreamError

/-- How a call of `readCsvFile` ends. The listener is called by the stream, outside the
promise: an exception it throws is caught by nothing in the program, and neither is an
`'error'` event of a stream that has no listener for it. -/
inductive ReadResult where
  | resolved (dataArray : List Record)
  | rejected (error : JSString)
  | uncaught (error : JSString)
deriving DecidableEq

/-- Worker of `readCsvFile`: the events still to come and the `dataArray` so far. -/
def readRows (E : Engine) (error : Option StreamError) : List Row → List Record → ReadResult
  | [], dataArray =>
    match error with
    | none => .resolved dataArray
    | some (.parser e) => .rejected e
    | some (.file e) => .uncaught e
  | data :: rest, dataArray =>
    match onData E data dataArray with
    | .ok dataArray => readRows E error rest dataArray
    | .error e => .uncaught e

/-- The function `readCsvFile(filePath)` on the stream that the file gives. -/
def readCsvFile (E : Engine) (stream : CsvStream) : ReadResult :=
  readRows E stream.error stream.rows []

/-! ## Report (`generateExcel`) -/

/-- The conversion of a field value to a property key. -/
def propertyKey (E : Engine) : Value → JSString
  | .str s => s
  | .null => "null".toList
  | .undefined => "undefined".toList
  | .num x => E.toStringOther (.inl x)
  | .builtin name => E.toStringOther (.inr name)

/-- The object `groupedData`: its own properties in creation order, each an array of
records. -/
abbrev Grouped := List (JSString × List Record)

/-- Message of the `TypeError` raised by `groupedData[key].push(data)` when
`groupedData[key]` is a member inherited from `Object.prototype`. -/
def pushTypeErrorMessage : JSString :=
  "groupedData[data.Nombre_Productor].push is not a function".toList

/-- The array `groupedData[key]` with `data` pushed at its end. -/
def pushInto (key : JSString) (data : Record) : Grouped → Grouped
  | [] => []
  | (k, arr) :: rest =>
    if k = key then (k, arr ++ [data]) :: rest else (k, arr) :: pushInto key data rest

/-- One call of the `forEach` callback of `generateExcel`. An own property is an array
and is pushed to; a key that names an inherited member is truthy without being an array,
so `push` throws; any other key gets a fresh array first. -/
def groupStep (E : Engine) (groupedData : Grouped) (data : Record) : Except JSString Grouped :=
  let key := propertyKey E (data.get "Nombre_Productor")
  match groupedData.lookup key with
  | some _ => .ok (pushInto key data groupedData)
  | none =>
    if key ∈ objectPrototypeNames then .error pushTypeErrorMessage
    else .ok (groupedData ++ [(key, [data])])

/-- The loop `dataArray.forEach(...)` of `generateExcel`. -/
def groupFrom (E : Engine) : List Record → Grouped → Except JSString Grouped
  | [], groupedData => .ok groupedData
  | data :: rest, groupedData =>
    match groupStep E groupedData data with
    | .ok groupedData => groupFrom E rest groupedData
    | .error e => .error e

/-- The array index a property key denotes, if any: a canonical decimal numeral below
`2 ^ 32 - 1`. -/
def arrayIndex (key : JSString) : Option ℕ :=
  let n : ℕ := key.foldl (fun acc c => acc * 10 + digitValue c) 0
  if !key.isEmpty && key.all isDecimalDigit && (key.head? != some '0' || key.length == 1) &&
      decide (n < 2 ^ 32 - 1) then some n
  else none

/-- The order in which `for (const nombreProductor in groupedData)` visits the own
properties: array indices in ascending numeric order, then the other keys in creation
order. -/
def forIn (groupedData : Grouped) : Grouped :=
  (groupedData.filter (fun g => (arrayIndex g.1).isSome)).insertionSort
      (fun a b => (arrayIndex a.1).getD 0 ≤ (arrayIndex b.1).getD 0) ++
    groupedData.filter (fun g => (arrayIndex g.1).isNone)

/-- The UTF-16 code units of a string. -/
def utf16 (s : JSString) : List ℕ :=
  s.flatMap (fun c =>
    if c.toNat < 0x10000 then [c.toNat]
    else [0xD800 + (c.toNat - 0x10000) / 0x400, 0xDC00 + (c.toNat - 0x10000) % 0x400])

/-- The method `substring(start, stop)`, as code units. -/
def substring (s : JSString) (start stop : ℕ) : List ℕ :=
  ((utf16 s).take stop).drop start

/-- A sheet as the workbook receives it: its name (code units), the row written at
`A1` and the rows written from `A2`. -/
structure Sheet where
  name : List ℕ
  headers : List String
  rows : List (List Value)
deriving DecidableEq

/-- The body of the loop over `groupedData`: the sheet made for one producer. -/
def sheetOf (group : JSString × List Record) : Sheet :=
  { name := substring group.1 0 31
    headers := (group.2.headD []).map Prod.fst
    rows := group.2.map (fun data => data.map Prod.snd) }

/-- How the `try` block of `generateExcel` ends: the workbook was saved and uploaded, or
an exception was caught and logged. -/
inductive ExcelResult where
  | uploaded (sheets : List Sheet)
  | logged (error : JSString)
deriving DecidableEq

/-- The function `generateExcel(dataArray)`. `writer` stands for the workbook library,
the file system and the upload: it answers the sheets it is given with `none`, or with
the message of the exception one of them throws. An error result is an exception that
leaves `generateExcel`: the grouping is outside its `try`. -/
def generateExcel (E : Engine) (writer : List Sheet → Option JSString) (dataArray : List Record) :
    Except JSString ExcelResult :=
  match groupFrom E dataArray [] with
  | .error e => .error e
  | .ok groupedData =>
    let sheets := (forIn groupedData).map sheetOf
    match writer sheets with
    | none => .ok (.uploaded sheets)
    | some e => .ok (.logged e)

/-! ## Orchestrator (`comparative_projection_vs_real_2022_2023`) -/

/-- The row `result.recordset[0]` of the enrichment query. -/
structure Receptions where
  ReceptionTotal : Value
  ReceptionAceptada : Value

/-- The enrichment source behind `pool`, with its state `σ`: a query is answered with a
record set or throws, and changes the state; `close` may throw. -/
structure Pool (σ : Type) where
  query : σ → Value → Value → Value → Except JSString (List Receptions) × σ
  close : σ → Option JSString

/-- Message of the `TypeError` raised by `receptions.ReceptionTotal` when the record set
is empty. -/
def emptyRecordsetMessage : JSString :=
  "Cannot read properties of undefined (reading \x27ReceptionTotal\x27)".toList

/-- The `try` block of the loop for one entry: the query on `Semana`, `Anio` and
`Codigo_Huerto`, then the two assignments. -/
def enrichEntry {σ : Type} (pool : Pool σ) (db : σ) (data : Record) : Except JSString Record × σ :=
  let answer := pool.query db (data.get "Semana") (data.get "Anio") (data.get "Codigo_Huerto")
  match answer.1 with
  | .error e => (.error e, answer.2)
  | .ok recordset =>
    match recordset.head? with
    | none => (.error emptyRecordsetMessage, answer.2)
    | some receptions =>
      (.ok ((data.set "ReceptionTotal" receptions.ReceptionTotal).set
        "ReceptionAceptada" receptions.ReceptionAceptada), answer.2)

/-- The entry the `catch` block of the loop pushes for the failure at index `i`. -/
def entryError (i : ℕ) (message : JSString) : JSString :=
  if includes message "Date record already exists".toList then
    "Entry ".toList ++ (toString (i + 1)).toList ++ ": ".toList ++ message
  else
    "Error processing entry ".toList ++ (toString (i + 1)).toList ++ ": ".toList ++ message

/-- State of the loop: the entries already visited (as they now stand in `dataArray`),
`errorMessages`, and the state of the enrichment source. -/
structure LoopState (σ : Type) where
  dataArray : List Record
  errorMessages : List JSString
  db : σ

/-- The loop `for (let i = 0; i < dataArray.length; i++)`, from index `i` over the
entries still to visit. -/
def enrichFrom {σ : Type} (pool : Pool σ) : ℕ → List Record → LoopState σ → LoopState σ
  | _, [], st => st
  | i, data :: rest, st =>
    match enrichEntry pool st.db data with
    | (.ok data, db) =>
      enrichFrom pool (i + 1) rest
        { dataArray := st.dataArray ++ [data], errorMessages := st.errorMessages, db := db }
    | (.error message, db) =>
      enrichFrom pool (i + 1) rest
        { dataArray := st.dataArray ++ [data]
          errorMessages := st.errorMessages ++ [entryError i message]
          db := db }

/-- Everything outside the program that a run meets. -/
structure World (σ : Type) where
  csv : CsvStream
  connect : Except JSString σ
  pool : Pool σ
  writer : List Sheet → Option JSString

/-- What a run that reaches the end of the function leaves behind. -/
structure Outcome (σ : Type) where
  /-- The final `errorMessages`. -/
  errorMessages : List JSString
  /-- The argument of the call `generateExcel(dataArray)`, if the call was made. -/
  reportInput : Option (List Record)
  /-- The result of `generateExcel`, if it returned. -/
  excel : Option ExcelResult
  /-- The state of the enrichment source, if the connection was made. -/
  db : Option σ

/-- How a run ends: the function completes, or an error that nothing in the program
catches (an exception thrown by the `'data'` listener, an `'error'` event of the file
stream) ends the process. -/
inductive RunResult (σ : Type) where
  | completed (outcome : Outcome σ)
  | crashed (error : JSString)

/-- The entry pushed by the outer `catch`. -/
def generalError (message : JSString) : JSString :=
  "General processing error: ".toList ++ message

/-- The function `comparative_projection_vs_real_2022_2023()`. -/
def comparative_projection_vs_real_2022_2023 {σ : Type} (E : Engine) (W : World σ) :
    RunResult σ :=
  match readCsvFile E W.csv with
  | .uncaught e => .crashed e
  | .rejected e => .completed ⟨[generalError e], none, none, none⟩
  | .resolved dataArray =>
    match W.connect with
    | .error e => .completed ⟨[generalError e], none, none, none⟩
    | .ok db =>
      let st := enrichFrom W.pool 0 dataArray ⟨[], [], db⟩
      match generateExcel E W.writer st.dataArray with
      | .error e =>
        .completed ⟨st.errorMessages ++ [generalError e], some st.dataArray, none, some st.db⟩
      | .ok excel =>
        match W.pool.close st.db with
        | some e =>
          .completed ⟨st.errorMessages ++ [generalError e], some st.dataArray, some excel,
            some st.db⟩
        | none => .completed ⟨st.errorMessages, some st.dataArray, some excel, some st.db⟩

/-! ## Auxiliary definitions of the statements -/

/-- An engine whose tables leave every code point outside ASCII as it is. The examples
below are ASCII texts and are evaluated with it. -/
def asciiEngine : Engine :=
  { lowerOther := fun _ c _ => [c]
    upperOther := fun c => [c]
    nfdOther := fun s => s
    toStringOther := fun _ => [] }

/-- Whether the row has a non-empty text in the column of the registry entry. -/
def hasField (data : Row) (header : Header) : Bool :=
  match data.lookup header.name with
  | some (_ :: _) => true
  | _ => false

/-- Whether the row has a non-empty text for every registry field. -/
def hasAllFields (data : Row) : Bool := HEADERS.all (hasField data)

/-- The raw text of a column of a row, empty when the column is absent. -/
def Row.text (data : Row) (key : String) : JSString := (data.lookup key).getD []

/-- The record of a row that has every registry field, given the results of the month
and date transforms. -/
def recordWith (E : Engine) (data : Row) (month_and_year : MonthAndYear) (fecha : JSString) :
    Record :=
  [("Temporada", .str (data.text "Temporada")),
   ("Fruta", .str (normalizeAndSanitize E (data.text "Fruta") none none)),
   ("Centro_acopio", .str (normalizeAndSanitize E (data.text "Centro_acopio") none none)),
   ("Estado", .str (normalizeAndSanitize E (data.text "Estado") none none)),
   ("PR_Productor", .str (normalizeAndSanitize E (data.text "PR_Productor") none none)),
   ("Nombre_Productor", .str (normalizeAndSanitize E (data.text "Nombre_Productor") none none)),
   ("Nombre_Huerto", .str (normalizeAndSanitize E (data.text "Nombre_Huerto") none none)),
   ("Codigo_Huerto", transformAndValidateDecimal (data.text "Codigo_Huerto")),
   ("Hectareas", transformAndValidateDecimal (data.text "Hectareas")),
   ("Mes", month_and_year.month),
   ("Anio", month_and_year.year),
   ("Semana", .str (data.text "Semana")),
   ("Cajas_proyectadas", transformAndValidateDecimal (data.text "Cajas_proyectadas")),
   ("Variedad", .str (normalizeAndSanitize E (data.text "Variedad") none none)),
   ("Fecha_Update", .str fecha)]

/-- The record the listener builds from a row, if it builds one. -/
def recordOf (E : Engine) (data : Row) : Option Record :=
  match processRow E data HEADERS [] with
  | .ok (some record) => some record
  | _ => none

/-- The results of the enrichment of the records in row order, from the state `db` of
the enrichment source. -/
def lookups {σ : Type} (pool : Pool σ) : σ → List Record → List (Except JSString Record)
  | _, [] => []
  | db, data :: rest =>
    (enrichEntry pool db data).1 :: lookups pool (enrichEntry pool db data).2 rest

/-- What `dataArray` holds after the loop: a record whose enrichment succeeded carries its
new fields, one whose enrichment failed is as it was. -/
def afterLookups (records : List Record) (results : List (Except JSString Record)) :
    List Record :=
  List.zipWith (fun data result =>
    match result with
    | .ok enriched => enriched
    | .error _ => data) records results

/-- The entries the loop pushes for the results met from index `i` on. -/
def entriesFrom (i : ℕ) : List (Except JSString Record) → List JSString
  | [] => []
  | .ok _ :: rest => entriesFrom (i + 1) rest
  | .error message :: rest =>
    (if includes message "Date record already exists".toList then
        "Entry ".toList ++ (toString (i + 1)).toList ++ ": ".toList ++ message
      else
        "Error processing entry ".toList ++ (toString (i + 1)).toList ++ ": ".toList ++ message) ::
      entriesFrom (i + 1) rest

/-- The grouping key of a record: its `Nombre_Productor` as a property key. -/
def keyOf (E : Engine) (data : Record) : JSString := propertyKey E (data.get "Nombre_Productor")

/-- The distinct elements of a list, in order of first appearance. -/
def firstSeen : List JSString → List JSString
  | [] => []
  | k :: ks => k :: (firstSeen ks).filter (fun x => x ≠ k)

/-- The partitions of the records by grouping key: the keys in order of first
appearance, each with the records of that key in their original order. -/
def partitionsOf (E : Engine) (records : List Record) : Grouped :=
  (firstSeen (records.map (keyOf E))).map
    (fun k => (k, records.filter (fun r => keyOf E r = k)))

/-- The outcome of a run, when the function completed. -/
def RunResult.outcome {σ : Type} : RunResult σ → Option (Outcome σ)
  | .completed o => some o
  | .crashed _ => none

/-- An enrichment source that counts its queries and rejects every week that is not the
text `12`. -/
def samplePool : Pool ℕ :=
  { query := fun db semana _ _ =>
      (if semana = .str "12".toList then
          .ok [{ ReceptionTotal := .num (.finite 40), ReceptionAceptada := .num (.finite 30) }]
        else .error "Invalid number.".toList, db + 1)
    close := fun _ => none }

/-- A record with a producer and a week. -/
def sampleRecord (productor semana : String) : Record :=
  [("Nombre_Productor", .str productor.toList), ("Semana", .str semana.toList)]

/-- A row with every registry field, for the given producer, week, month token and
update date. -/
def sampleRow (productor semana mes fecha : String) : Row :=
  [("Temporada", "2022-2023".toList), ("Fruta", "Berry".toList),
   ("Centro_acopio", "Los Reyes".toList), ("Estado", "Mich.".toList),
   ("PR_Productor", "PR-1".toList), ("Nombre_Productor", productor.toList),
   ("Nombre_Huerto", "Rancho El Sol.".toList), ("Codigo_Huerto", "1234".toList),
   ("Hectareas", "1,5".toList), ("Mes", mes.toList), ("Semana", semana.toList),
   ("Cajas_proyectadas", "250".toList), ("Variedad", "Sweet".toList),
   ("Fecha_Update", fecha.toList)]

/-- Three rows: a full one, one without the `Semana` column, and one with an empty
`Nombre_Productor`. -/
def sampleBatch : List Row :=
  [sampleRow "B" "12" "jun-23" "1/2/2023",
   (sampleRow "B" "12" "jun-23" "1/2/2023").filter (fun column => column.1 != "Semana"),
   sampleRow "" "12" "jun-23" "1/2/2023"]

/-- Three full rows, of which the second has a week that the enrichment source of
`samplePool` rejects. -/
def sampleRun : List Row :=
  [sampleRow "B" "12" "jun-23" "1/2/2023", sampleRow "A" "x" "jun-23" "1/2/2023",
   sampleRow "B" "12" "jun-23" "1/2/2023"]

/-- A world in which the file gives the rows, the connection is made, the enrichment
source is `samplePool` and the report is written and uploaded. -/
def sampleWorld (rows : List Row) : World ℕ :=
  { csv := ⟨rows, none⟩, connect := .ok 0, pool := samplePool, writer := fun _ => none }

/-- The property names of a record built from a row, in creation order. -/
def builtKeys : List String :=
  ["Temporada", "Fruta", "Centro_acopio", "Estado", "PR_Productor", "Nombre_Productor",
   "Nombre_Huerto", "Codigo_Huerto", "Hectareas", "Mes", "Anio", "Semana", "Cajas_proyectadas",
   "Variedad", "Fecha_Update"]

/-- The property names of an enriched record. -/
def enrichedKeys : List String := builtKeys ++ ["ReceptionTotal", "ReceptionAceptada"]

/-- Every array of `groupedData` is non-empty and holds records that satisfy `P`. -/
def GroupsOf (P : Record → Prop) (g : Grouped) : Prop :=
  ∀ p ∈ g, p.2 ≠ [] ∧ ∀ r ∈ p.2, P r

/-- The outcome of the run over `sampleRun`. -/
def sampleOutcome : Outcome ℕ :=
  ((comparative_projection_vs_real_2022_2023 asciiEngine (sampleWorld sampleRun)).outcome).getD
    ⟨[], none, none, none⟩

/-- The sheets of the run over `sampleRun`. -/
def sampleSheets : List Sheet :=
  match sampleOutcome.excel with
  | some (.uploaded sheets) => sheets
  | _ => []

/-- Each maximal run of white space replaced by one underscore: a white-space code point
stands for the whole run that starts there. -/
def collapseSpaceRuns : JSString → JSString
  | [] => []
  | c :: cs =>
    if isWhiteSpace c then '_' :: collapseSpaceRuns (cs.dropWhile isWhiteSpace)
    else c :: collapseSpaceRuns cs
termination_by s => s.length
decreasing_by
  all_goals simp_wf
  exact Nat.lt_succ_of_le (List.dropWhile_sublist _).length_le

/-- The steps of the text normalization, in their order: decompose, strip punctuation,
upper-case, collapse white space, strip diacritics and line breaks. -/
def normalizeSteps (E : Engine) (text : JSString) (replaceSpaces replaceDots : Bool) : JSString :=
  let decomposed := nfd E text
  let unpunctuated :=
    if replaceDots then decomposed.filter (fun c => decide (c ≠ '.' ∧ c ≠ ',')) else decomposed
  let upper := toUpperCase E unpunctuated
  let collapsed := if replaceSpaces then collapseSpaceRuns upper else upper
  let unmarked := collapsed.filter (fun c => decide (¬(0x300 ≤ c.toNat ∧ c.toNat ≤ 0x36F)))
  unmarked.filter (fun c => decide (c ≠ '\n' ∧ c ≠ '\r'))

/-- A full row whose `Nombre_Huerto` is the given text. -/
def sampleRowOfHuerto (huerto : String) : Row :=
  (sampleRow "B" "12" "jun-23" "1/2/2023").map
    (fun column => if column.1 = "Nombre_Huerto" then (column.1, huerto.toList) else column)

/-- The natural number that a string of decimal digits denotes. -/
def decimalValue (digits : JSString) : ℕ :=
  digits.foldl (fun acc c => acc * 10 + digitValue c) 0

/-- Whether a tail stops a decimal literal: it is empty, or starts with a code point that
is neither a digit nor an exponent indicator. -/
def stopsLiteral (t : JSString) : Bool :=
  match t with
  | [] => true
  | c :: _ => !(isDecimalDigit c || c == 'e' || c == 'E')

/-- The Number of the decimal `a.b`: the binary64 nearest to it. -/
def decimalNumber (a b : JSString) : JSNumber :=
  roundToDouble (decimalValue (a ++ b)) (10 ^ b.length)

/-- A text without its leading sign, if it has one. -/
def dropSign (t : JSString) : JSString :=
  match t with
  | '+' :: r => r
  | '-' :: r => r
  | _ => t

/-- Whether a text starts with numeric text: after leading white space and an optional
sign, a decimal digit, or a dot followed by a decimal digit. -/
def startsWithNumber (s : JSString) : Bool :=
  match dropSign (s.dropWhile isWhiteSpace) with
  | [] => false
  | c :: rest =>
    isDecimalDigit c ||
      (c == '.' &&
        match rest with
        | [] => false
        | d :: _ => isDecimalDigit d)

/-- The value that stands for a parsed number: the number when it is finite, else `null`. -/
def finiteOrNull (n : JSNumber) : Value :=
  match n with
  | .finite x => .num (.finite x)
  | _ => .null

/-- The message of the error that opening a missing file raises. -/
def missingFileMessage : JSString :=
  "ENOENT: no such file or directory, open \x27proyeccion.csv\x27".toList

/-- A world as `sampleWorld` in which saving or uploading the workbook fails. -/
def failingWriterWorld (rows : List Row) : World ℕ :=
  { sampleWorld rows with writer := fun _ => some "Access Denied".toList }

/-! ## Lemmas on strings -/

theorem isDecimalDigit_iff (c : Char) :
    isDecimalDigit c = true ↔ 48 ≤ c.toNat ∧ c.toNat ≤ 57 := by
  simp [isDecimalDigit]

theorem digit_ne_slash {c : Char} (h : isDecimalDigit c = true) : c ≠ '/' := by
  rintro rfl; revert h; decide

theorem digit_ne_hyphen {c : Char} (h : isDecimalDigit c = true) : c ≠ '-' := by
  rintro rfl; revert h; decide

theorem digit_codeUnits {c : Char} (h : isDecimalDigit c = true) : codeUnits c = 1 := by
  rw [isDecimalDigit_iff] at h
  unfold codeUnits
  rw [if_pos (by omega)]

theorem digit_zero : isDecimalDigit '0' = true := by decide

theorem digit_cases {c : Char} (h : isDecimalDigit c = true) : c ∈ "0123456789".toList := by
  rw [isDecimalDigit_iff] at h
  obtain ⟨h1, h2⟩ := h
  have hc : c = Char.ofNat c.toNat := (Char.ofNat_toNat c).symm
  rw [hc]
  generalize c.toNat = n at *
  interval_cases n <;> decide

theorem split_of_not_mem (sep : Char) (s : JSString) (h : sep ∉ s) : split sep s = [s] := by
  induction s with
  | nil => rfl
  | cons c cs ih =>
    have hc : c ≠ sep := fun e => h (e ▸ List.mem_cons_self _ _)
    have hcs : sep ∉ cs := fun e => h (List.mem_cons_of_mem _ e)
    simp [split, hc, ih hcs]

theorem split_append (sep : Char) (s t : JSString) (h : sep ∉ s) :
    split sep (s ++ sep :: t) = s :: split sep t := by
  induction s with
  | nil => simp [split]
  | cons c cs ih =>
    have hc : c ≠ sep := fun e => h (e ▸ List.mem_cons_self _ _)
    have hcs : sep ∉ cs := fun e => h (List.mem_cons_of_mem _ e)
    simp [split, hc, ih hcs]

theorem toLowerCaseFrom_ascii (E : Engine) (s : JSString) (h : ∀ c ∈ s, c.toNat < 128) :
    ∀ before, toLowerCaseFrom E before s = s.map asciiLower := by
  induction s with
  | nil => intro _; rfl
  | cons c cs ih =>
    intro before
    have hc : c.toNat < 128 := h c (List.mem_cons_self _ _)
    simp [toLowerCaseFrom, hc, ih (fun x hx => h x (List.mem_cons_of_mem _ hx))]

theorem toLowerCase_ascii (E : Engine) (s : JSString) (h : ∀ c ∈ s, c.toNat < 128) :
    toLowerCase E s = s.map asciiLower :=
  toLowerCaseFrom_ascii E s h []

theorem asciiLower_eq (c : Char) : asciiLower c = c.toLower := rfl

theorem lt_of_toLower_lt {c : Char} (h : c.toLower.toNat < 128) : c.toNat < 128 := by
  unfold Char.toLower at h
  by_cases hc : c.toNat ≥ 65 ∧ c.toNat ≤ 90
  · omega
  · simpa [hc] using h

/-! ## `transformDateFormat` -/

/-- On `d/m/y` with one or two digits for `d` and `m` and four for `y`, the result is
`y-mm-dd`, and it has the ISO form. -/
theorem transformDateFormat_of_dmy (d m y : JSString)
    (hd : d.all isDecimalDigit = true) (hdl : d.length = 1 ∨ d.length = 2)
    (hm : m.all isDecimalDigit = true) (hml : m.length = 1 ∨ m.length = 2)
    (hy : y.all isDecimalDigit = true) (hyl : y.length = 4) :
    transformDateFormat (d ++ '/' :: m ++ '/' :: y) =
        .ok (y ++ '-' :: (List.replicate (2 - m.length) '0' ++ m) ++
          '-' :: (List.replicate (2 - d.length) '0' ++ d)) ∧
      matchesIsoDate (y ++ '-' :: (List.replicate (2 - m.length) '0' ++ m) ++
          '-' :: (List.replicate (2 - d.length) '0' ++ d)) = true := by
  obtain ⟨y1, y2, y3, y4, rfl⟩ : ∃ a b c e, y = [a, b, c, e] := by
    match y, hyl with
    | [a, b, c, e], _ => exact ⟨a, b, c, e, rfl⟩
  have hD : ∃ a, d = [a] ∨ ∃ b, d = [a, b] := by
    match d, hdl with
    | [a], _ => exact ⟨a, Or.inl rfl⟩
    | [a, b], _ => exact ⟨a, Or.inr ⟨b, rfl⟩⟩
  have hM : ∃ a, m = [a] ∨ ∃ b, m = [a, b] := by
    match m, hml with
    | [a], _ => exact ⟨a, Or.inl rfl⟩
    | [a, b], _ => exact ⟨a, Or.inr ⟨b, rfl⟩⟩
  simp only [List.all_cons, List.all_nil, Bool.and_true, Bool.and_eq_true] at hy
  obtain ⟨h1, h2, h3, h4⟩ := hy
  have n1 := digit_ne_slash h1
  have n2 := digit_ne_slash h2
  have n3 := digit_ne_slash h3
  have n4 := digit_ne_slash h4
  have e : isDecimalDigit '/' = false := by decide
  obtain ⟨d1, rfl | ⟨d2, rfl⟩⟩ := hD <;> obtain ⟨m1, rfl | ⟨m2, rfl⟩⟩ := hM <;>
    simp only [List.all_cons, List.all_nil, Bool.and_true, Bool.and_eq_true] at hd hm
  · have := digit_ne_slash hd; have := digit_ne_slash hm
    simp [transformDateFormat, matchesIsoDate, split, padStart, jsLength, digit_codeUnits,
      digit_zero, *]
  · have := digit_ne_slash hd; have := digit_ne_slash hm.1; have := digit_ne_slash hm.2
    simp [transformDateFormat, matchesIsoDate, split, padStart, jsLength, digit_codeUnits,
      digit_zero, *]
  · have := digit_ne_slash hd.1; have := digit_ne_slash hd.2; have := digit_ne_slash hm
    simp [transformDateFormat, matchesIsoDate, split, padStart, jsLength, digit_codeUnits,
      digit_zero, *]
  · have := digit_ne_slash hd.1; have := digit_ne_slash hd.2
    have := digit_ne_slash hm.1; have := digit_ne_slash hm.2
    simp [transformDateFormat, matchesIsoDate, split, padStart, jsLength, digit_codeUnits,
      digit_zero, *]

/-- A text that passes the ISO test is returned as it is. -/
theorem transformDateFormat_of_iso (s : JSString) (h : matchesIsoDate s = true) :
    transformDateFormat s = .ok s := by
  simp [transformDateFormat, h]

/-- C7. For every input `d/m/y`, where `d` and `m` are one or two decimal digits and `y`
is four decimal digits, `transformDateFormat` returns `y-mm-dd`, with `mm` and `dd` the
texts `m` and `d` left-padded with `0` to two characters, and that result matches four
digits, `-`, two digits, `-`, two digits. -/
theorem transformDateFormat_dmy (d m y : JSString)
    (hd : d.all isDecimalDigit = true) (hdl : d.length = 1 ∨ d.length = 2)
    (hm : m.all isDecimalDigit = true) (hml : m.length = 1 ∨ m.length = 2)
    (hy : y.all isDecimalDigit = true) (hyl : y.length = 4) :
    transformDateFormat (d ++ '/' :: m ++ '/' :: y) =
        .ok (y ++ '-' :: (List.replicate (2 - m.length) '0' ++ m) ++
          '-' :: (List.replicate (2 - d.length) '0' ++ d)) ∧
      ∃ y1 y2 y3 y4 m1 m2 d1 d2 : Char,
        [y1, y2, y3, y4, m1, m2, d1, d2].all isDecimalDigit = true ∧
        y ++ '-' :: (List.replicate (2 - m.length) '0' ++ m) ++
          '-' :: (List.replicate (2 - d.length) '0' ++ d) =
          [y1, y2, y3, y4, '-', m1, m2, '-', d1, d2] := by
  refine ⟨(transformDateFormat_of_dmy d m y hd hdl hm hml hy hyl).1, ?_⟩
  have hiso := (transformDateFormat_of_dmy d m y hd hdl hm hml hy hyl).2
  generalize y ++ '-' :: (List.replicate (2 - m.length) '0' ++ m) ++
    '-' :: (List.replicate (2 - d.length) '0' ++ d) = r at hiso
  match r, hiso with
  | [a1, a2, a3, a4, h1, b1, b2, h2, c1, c2], hiso =>
    simp only [matchesIsoDate, Bool.and_eq_true, beq_iff_eq] at hiso
    obtain ⟨⟨⟨⟨⟨⟨⟨⟨⟨p1, p2⟩, p3⟩, p4⟩, rfl⟩, p5⟩, p6⟩, rfl⟩, p7⟩, p8⟩ := hiso
    exact ⟨a1, a2, a3, a4, b1, b2, c1, c2, by simp [*], rfl⟩

/-- The theorem `transformDateFormat_dmy` at `5/3/2023`. -/
theorem transformDateFormat_dmy_witness :
    transformDateFormat "5/3/2023".toList = .ok "2023-03-05".toList ∧
      ∃ y1 y2 y3 y4 m1 m2 d1 d2 : Char,
        [y1, y2, y3, y4, m1, m2, d1, d2].all isDecimalDigit = true ∧
        "2023-03-05".toList = [y1, y2, y3, y4, '-', m1, m2, '-', d1, d2] :=
  transformDateFormat_dmy "5".toList "3".toList "2023".toList (by decide) (by decide)
    (by decide) (by decide) (by decide) (by decide)

/-- C8. `transformDateFormat` returns unchanged every input made of four digits, `-`,
two digits, `-`, two digits, and it is idempotent on the valid `dd/mm/yyyy` inputs: it
succeeds on them and maps its result to itself. -/
theorem transformDateFormat_iso_fixed_idempotent
    (y1 y2 y3 y4 m1 m2 d1 d2 : Char)
    (hiso : [y1, y2, y3, y4, m1, m2, d1, d2].all isDecimalDigit = true)
    (d m y : JSString)
    (hd : d.all isDecimalDigit = true) (hdl : d.length = 1 ∨ d.length = 2)
    (hm : m.all isDecimalDigit = true) (hml : m.length = 1 ∨ m.length = 2)
    (hy : y.all isDecimalDigit = true) (hyl : y.length = 4) :
    transformDateFormat [y1, y2, y3, y4, '-', m1, m2, '-', d1, d2] =
        .ok [y1, y2, y3, y4, '-', m1, m2, '-', d1, d2] ∧
      ∃ r, transformDateFormat (d ++ '/' :: m ++ '/' :: y) = .ok r ∧
        transformDateFormat r = .ok r := by
  constructor
  · simp only [List.all_cons, List.all_nil, Bool.and_true, Bool.and_eq_true] at hiso
    simp [transformDateFormat, matchesIsoDate, hiso]
  · obtain ⟨h1, h2⟩ := transformDateFormat_of_dmy d m y hd hdl hm hml hy hyl
    exact ⟨_, h1, transformDateFormat_of_iso _ h2⟩

/-- The theorem `transformDateFormat_iso_fixed_idempotent` at `2023-06-15` and
`15/6/2023`. -/
theorem transformDateFormat_iso_fixed_idempotent_witness :
    transformDateFormat "2023-06-15".toList = .ok "2023-06-15".toList ∧
      ∃ r, transformDateFormat "15/6/2023".toList = .ok r ∧ transformDateFormat r = .ok r :=
  transformDateFormat_iso_fixed_idempotent '2' '0' '2' '3' '0' '6' '1' '5' (by decide)
    "15".toList "6".toList "2023".toList (by decide) (by decide) (by decide) (by decide)
    (by decide) (by decide)

/-- C9, as stated, fails: `2023-06-15` does not split into three segments on `/`, and
`transformDateFormat` returns it instead of failing. -/
theorem transformDateFormat_iso_not_three_segments :
    (split '/' "2023-06-15".toList).length ≠ 3 ∧
      transformDateFormat "2023-06-15".toList = .ok "2023-06-15".toList := by
  decide

/-- C9, amended. For every input that is not already of the form `yyyy-mm-dd` and does
not split into exactly three segments on `/`, `transformDateFormat` fails with the
invalid-date-format error. -/
theorem transformDateFormat_fails_not_three (s : JSString) (hiso : matchesIsoDate s = false)
    (h : (split '/' s).length ≠ 3) :
    transformDateFormat s = .error "Formato de fecha inválido. Debe ser dd/mm/yyyy.".toList := by
  simp [transformDateFormat, hiso, h, invalidDateMessage]

/-- The theorem `transformDateFormat_fails_not_three` at `1-2-2023`. -/
theorem transformDateFormat_fails_not_three_witness :
    matchesIsoDate "1-2-2023".toList = false ∧ (split '/' "1-2-2023".toList).length ≠ 3 ∧
      transformDateFormat "1-2-2023".toList =
        .error "Formato de fecha inválido. Debe ser dd/mm/yyyy.".toList :=
  ⟨by decide, by decide,
    transformDateFormat_fails_not_three "1-2-2023".toList (by decide) (by decide)⟩

/-! ## `separate_month_and_year` -/

theorem year_of_digits (a b : Char) (ha : isDecimalDigit a = true)
    (hb : isDecimalDigit b = true) :
    isNaN (toNumber (some [a, b])) = false ∧ jsLength [a, b] = 2 ∧
      parseInt ('2' :: '0' :: [a, b]) =
        .finite ((2000 + 10 * digitValue a + digitValue b : ℕ) : ℚ) := by
  have ha := digit_cases ha
  have hb := digit_cases hb
  simp only [String.toList, List.mem_cons, List.mem_singleton, List.not_mem_nil,
    or_false] at ha hb
  rcases ha with rfl | rfl | rfl | rfl | rfl | rfl | rfl | rfl | rfl | rfl <;>
    rcases hb with rfl | rfl | rfl | rfl | rfl | rfl | rfl | rfl | rfl | rfl <;> decide

/-- C10. For the abbreviation at position `k + 1` of the table `ene`, ..., `dic`,
written in any letter case, and any two decimal digits `a b`, `separate_month_and_year`
on `<abbr>-<ab>` succeeds with month `k + 1` and year `2000 + ab`. -/
theorem separate_month_and_year_table (E : Engine) (k : ℕ) (hk : k < 12) (w : JSString)
    (a b : Char)
    (hw : w.map Char.toLower =
      (["ene".toList, "feb".toList, "mar".toList, "abr".toList, "may".toList, "jun".toList,
        "jul".toList, "ago".toList, "sep".toList, "oct".toList, "nov".toList,
        "dic".toList] : List JSString).getD k [])
    (ha : isDecimalDigit a = true) (hb : isDecimalDigit b = true) :
    separate_month_and_year E (w ++ '-' :: [a, b]) =
      .ok { month := .num (.finite ((k + 1 : ℕ) : ℚ))
            year := .num (.finite ((2000 + 10 * digitValue a + digitValue b : ℕ) : ℚ)) } := by
  obtain ⟨y1, y2, y3⟩ := year_of_digits a b ha hb
  have na := digit_ne_hyphen ha
  have nb := digit_ne_hyphen hb
  generalize hn : (["ene".toList, "feb".toList, "mar".toList, "abr".toList, "may".toList,
    "jun".toList, "jul".toList, "ago".toList, "sep".toList, "oct".toList, "nov".toList,
    "dic".toList] : List JSString).getD k [] = name at hw
  have hascii : ∀ c ∈ w ++ '-' :: [a, b], c.toNat < 128 := by
    intro c hc
    rcases List.mem_append.1 hc with h | h
    · apply lt_of_toLower_lt
      have hmem : c.toLower ∈ name := hw ▸ List.mem_map_of_mem _ h
      revert hmem
      generalize c.toLower = x
      subst hn
      interval_cases k <;> (simp; rintro (rfl | rfl | rfl) <;> decide)
    · simp only [List.mem_cons, List.mem_singleton, List.not_mem_nil, or_false] at h
      rw [isDecimalDigit_iff] at ha hb
      rcases h with rfl | rfl | rfl
      · decide
      · omega
      · omega
  have hlow : toLowerCase E (w ++ '-' :: [a, b]) = name ++ '-' :: [a, b] := by
    rw [toLowerCase_ascii E _ hascii, List.map_append, ← hw]
    have fa : asciiLower a = a := by
      rw [isDecimalDigit_iff] at ha; unfold asciiLower; rw [if_neg (by omega)]
    have fb : asciiLower b = b := by
      rw [isDecimalDigit_iff] at hb; unfold asciiLower; rw [if_neg (by omega)]
    simp [fa, fb, asciiLower_eq]
  have hsplit : split '-' (name ++ '-' :: [a, b]) = [name, [a, b]] := by
    rw [split_append, split_of_not_mem]
    · simp [na.symm, nb.symm]
    · subst hn; interval_cases k <;> decide
  unfold separate_month_and_year
  rw [hlow, hsplit]
  simp only [List.getD_cons_zero, List.get?_cons_succ, List.get?_cons_zero, Option.map_some',
    Option.getD_some, y1, y2]
  have y3' : parseInt ("20".toList ++ [a, b]) = _ := y3
  rw [y3']
  subst hn
  interval_cases k <;> rfl

/-- The theorem `separate_month_and_year_table` at `jun-23` and at `JuN-23`: month 6 and
year 2023. -/
theorem separate_month_and_year_table_witness :
    separate_month_and_year asciiEngine "jun-23".toList =
        .ok { month := .num (.finite 6), year := .num (.finite 2023) } ∧
      separate_month_and_year asciiEngine "JuN-23".toList =
        .ok { month := .num (.finite 6), year := .num (.finite 2023) } :=
  ⟨separate_month_and_year_table asciiEngine 5 (by decide) "jun".toList '2' '3' (by decide)
      (by decide) (by decide),
    separate_month_and_year_table asciiEngine 5 (by decide) "JuN".toList '2' '3' (by decide)
      (by decide) (by decide)⟩

/-! ## Record builder -/

theorem processRow_of_missing (E : Engine) (data : Row) (hs : List Header)
    (hreq : ∀ h ∈ hs, h.required = true) (hmiss : hs.all (hasField data) = false) :
    ∀ acc, (∃ e, processRow E data hs acc = .error e) ∨ processRow E data hs acc = .ok none := by
  induction hs with
  | nil => simp at hmiss
  | cons h rest ih =>
    intro acc
    have hr : h.required = true := hreq h (List.mem_cons_self _ _)
    unfold processRow
    cases hl : data.lookup h.name with
    | none => simp [hr]
    | some v =>
      cases v with
      | nil => simp [hr]
      | cons c cs =>
        have hf : hasField data h = true := by simp [hasField, hl]
        have hmiss' : rest.all (hasField data) = false := by
          simpa [List.all_cons, hf] using hmiss
        simp only []
        cases hp : processField E h (c :: cs) acc with
        | error e => exact Or.inl ⟨e, rfl⟩
        | ok acc' => exact ih (fun x hx => hreq x (List.mem_cons_of_mem _ hx)) hmiss' acc'

theorem processRow_of_all (E : Engine) (data : Row) (hs : List Header)
    (hall : hs.all (hasField data) = true) :
    ∀ acc, (∃ e, processRow E data hs acc = .error e) ∨
      ∃ r, processRow E data hs acc = .ok (some r) := by
  induction hs with
  | nil => intro acc; exact Or.inr ⟨acc, rfl⟩
  | cons h rest ih =>
    intro acc
    simp only [List.all_cons, Bool.and_eq_true] at hall
    obtain ⟨hf, hrest⟩ := hall
    unfold processRow
    cases hl : data.lookup h.name with
    | none => simp [hasField, hl] at hf
    | some v =>
      cases v with
      | nil => simp [hasField, hl] at hf
      | cons c cs =>
        simp only []
        cases hp : processField E h (c :: cs) acc with
        | error e => exact Or.inl ⟨e, rfl⟩
        | ok acc' => exact ih hrest acc'

theorem HEADERS_required : ∀ h ∈ HEADERS, h.required = true := by decide

theorem recordOf_of_missing (E : Engine) (data : Row) (h : hasAllFields data = false) :
    recordOf E data = none := by
  unfold recordOf
  rcases processRow_of_missing E data HEADERS HEADERS_required h [] with ⟨e, he⟩ | he <;>
    rw [he]

theorem recordOf_of_all (E : Engine) (data : Row) (h : hasAllFields data = true)
    (hno : ∀ e, processRow E data HEADERS [] ≠ .error e) :
    ∃ r, processRow E data HEADERS [] = .ok (some r) ∧ recordOf E data = some r := by
  rcases processRow_of_all E data HEADERS h [] with ⟨e, he⟩ | ⟨r, hr⟩
  · exact absurd he (hno e)
  · exact ⟨r, hr, by simp [recordOf, hr]⟩

theorem readRows_of_no_throw (E : Engine) (error : Option StreamError) (rows : List Row)
    (hno : ∀ data ∈ rows, ∀ e, processRow E data HEADERS [] ≠ .error e) :
    ∀ acc, readRows E error rows acc =
      readRows E error [] (acc ++ rows.filterMap (recordOf E)) := by
  induction rows with
  | nil => intro acc; simp
  | cons d rest ih =>
    intro acc
    have hd := hno d (List.mem_cons_self _ _)
    have hrest : ∀ data ∈ rest, ∀ e, processRow E data HEADERS [] ≠ .error e :=
      fun x hx => hno x (List.mem_cons_of_mem _ hx)
    rw [readRows]
    unfold onData
    cases hp : processRow E d HEADERS [] with
    | error e => exact absurd hp (hd e)
    | ok o =>
      cases o with
      | none =>
        simp only []
        rw [ih hrest]
        simp [List.filterMap_cons, recordOf, hp]
      | some r =>
        simp only []
        rw [ih hrest]
        simp [List.filterMap_cons, recordOf, hp]

theorem filterMap_recordOf_filter (E : Engine) (rows : List Row) :
    (rows.filter hasAllFields).filterMap (recordOf E) = rows.filterMap (recordOf E) := by
  induction rows with
  | nil => rfl
  | cons d rest ih =>
    cases h : hasAllFields d with
    | true => simp [List.filter_cons, h, List.filterMap_cons, ih]
    | false => simp [List.filter_cons, h, List.filterMap_cons, ih, recordOf_of_missing E d h]

theorem forall₂_recordOf (E : Engine) (rows : List Row)
    (hno : ∀ data ∈ rows, ∀ e, processRow E data HEADERS [] ≠ .error e) :
    List.Forall₂ (fun data record => processRow E data HEADERS [] = .ok (some record))
      (rows.filter hasAllFields) (rows.filterMap (recordOf E)) := by
  induction rows with
  | nil => exact List.Forall₂.nil
  | cons d rest ih =>
    have hrest : ∀ data ∈ rest, ∀ e, processRow E data HEADERS [] ≠ .error e :=
      fun x hx => hno x (List.mem_cons_of_mem _ hx)
    cases h : hasAllFields d with
    | true =>
      obtain ⟨r, hr, hr'⟩ := recordOf_of_all E d h (hno d (List.mem_cons_self _ _))
      simp only [List.filter_cons, h, List.filterMap_cons, hr', if_true]
      exact List.Forall₂.cons hr (ih hrest)
    | false =>
      simp only [List.filter_cons, h, List.filterMap_cons, recordOf_of_missing E d h]
      exact ih hrest

theorem readCsvFile_of_no_throw (E : Engine) (error : Option StreamError) (rows : List Row)
    (hno : ∀ data ∈ rows, ∀ e, processRow E data HEADERS [] ≠ .error e) :
    readCsvFile E ⟨rows, error⟩ = readRows E error [] (rows.filterMap (recordOf E)) := by
  simpa [readCsvFile] using readRows_of_no_throw E error rows hno []

theorem ne_error_of_isOk {ε α : Type} (x : Except ε α) (h : x.isOk = true) :
    ∀ e, x ≠ .error e := by
  intro e he
  rw [he] at h
  cases h

/-- C1. Every registry field is required. For every batch of `N` rows on which the
listener throws for no row (no field transform fails), `K` of which have some registry
field absent or empty, `readCsvFile` resolves with exactly `N - K` records: the records
of the other rows, in source order. The dropped rows leave no trace in the run, so no
error entry either: the run is the one of the batch without them. -/
theorem readCsvFile_drops_incomplete_rows (E : Engine) (rows : List Row) (N K : ℕ)
    (hno : ∀ data ∈ rows, ∀ e, processRow E data HEADERS [] ≠ .error e)
    (hN : rows.length = N)
    (hK : (rows.filter (fun data => !hasAllFields data)).length = K) :
    (∀ header ∈ HEADERS, header.required = true) ∧
      ∃ records, readCsvFile E ⟨rows, none⟩ = .resolved records ∧
        records.length = N - K ∧
        List.Forall₂ (fun data record => processRow E data HEADERS [] = .ok (some record))
          (rows.filter hasAllFields) records ∧
        ∀ (σ : Type) (W : World σ), W.csv = ⟨rows, none⟩ →
          comparative_projection_vs_real_2022_2023 E W =
            comparative_projection_vs_real_2022_2023 E
              { W with csv := ⟨rows.filter hasAllFields, none⟩ } := by
  have hfa := forall₂_recordOf E rows hno
  refine ⟨HEADERS_required, rows.filterMap (recordOf E), ?_, ?_, hfa, ?_⟩
  · rw [readCsvFile_of_no_throw E none rows hno]; rfl
  · rw [← hfa.length_eq, ← hN, ← hK]
    have := List.length_eq_length_filter_add (l := rows) hasAllFields
    omega
  · intro σ W hW
    have hno' : ∀ data ∈ rows.filter hasAllFields, ∀ e,
        processRow E data HEADERS [] ≠ .error e :=
      fun d hd => hno d (List.mem_of_mem_filter hd)
    unfold comparative_projection_vs_real_2022_2023
    simp only [hW]
    rw [readCsvFile_of_no_throw E none rows hno,
      readCsvFile_of_no_throw E none _ hno', filterMap_recordOf_filter]

/-- The theorem `readCsvFile_drops_incomplete_rows` on three rows, of which the second
has no `Semana` column and the third an empty `Nombre_Productor`: one record is left. -/
theorem readCsvFile_drops_incomplete_rows_witness :
    (∀ data ∈ sampleBatch, ∀ e, processRow asciiEngine data HEADERS [] ≠ .error e) ∧
      (sampleBatch.filter (fun data => !hasAllFields data)).length = 2 ∧
      ∃ records, readCsvFile asciiEngine ⟨sampleBatch, none⟩ = .resolved records ∧
        records.length = 3 - 2 :=
  have hno : ∀ data ∈ sampleBatch, ∀ e, processRow asciiEngine data HEADERS [] ≠ .error e := by
    have h : ∀ data ∈ sampleBatch, (processRow asciiEngine data HEADERS []).isOk = true := by
      decide
    exact fun data hd => ne_error_of_isOk _ (h data hd)
  ⟨hno, by decide,
    (readCsvFile_drops_incomplete_rows asciiEngine sampleBatch 3 2 hno (by decide)
      (by decide)).2.imp (fun _ h => ⟨h.1, h.2.1⟩)⟩

theorem hasField_iff (data : Row) (h : Header) :
    hasField data h = true ↔ ∃ c cs, data.lookup h.name = some (c :: cs) := by
  unfold hasField
  cases hl : data.lookup h.name with
  | none => simp
  | some v => cases v <;> simp

theorem transformDateFormat_error (s e : JSString) (h : transformDateFormat s = .error e) :
    e = invalidDateMessage := by
  unfold transformDateFormat at h
  split at h
  · cases h
  · simp only [] at h
    split at h
    · cases h; rfl
    · cases h

theorem separate_month_and_year_error (E : Engine) (s e : JSString)
    (h : separate_month_and_year E s = .error e) : e = invalidMonthMessage := by
  unfold separate_month_and_year at h
  simp only [] at h
  split at h
  · cases h; rfl
  · cases h

theorem processRow_of_complete (E : Engine) (data : Row) (hall : hasAllFields data = true) :
    processRow E data HEADERS [] =
      match separate_month_and_year E (data.text "Mes") with
      | .error e => .error e
      | .ok month_and_year =>
        match transformDateFormat (data.text "Fecha_Update") with
        | .error e => .error e
        | .ok fecha => .ok (some (recordWith E data month_and_year fecha)) := by
  simp only [hasAllFields, HEADERS, List.all_cons, List.all_nil, Bool.and_true,
    Bool.and_eq_true, hasField_iff] at hall
  obtain ⟨⟨c1, s1, h1⟩, ⟨c2, s2, h2⟩, ⟨c3, s3, h3⟩, ⟨c4, s4, h4⟩, ⟨c5, s5, h5⟩, ⟨c6, s6, h6⟩,
    ⟨c7, s7, h7⟩, ⟨c8, s8, h8⟩, ⟨c9, s9, h9⟩, ⟨c10, s10, h10⟩, ⟨c11, s11, h11⟩,
    ⟨c12, s12, h12⟩, ⟨c13, s13, h13⟩, ⟨c14, s14, h14⟩⟩ := hall
  simp only [HEADERS, processRow, h1, h2, h3, h4, h5, h6, h7, h8, h9, h10, h11, h12, h13, h14,
    processField, Row.text, recordWith, Option.getD_some]
  simp only [String.reduceEq, if_true, if_false, reduceIte, Option.getD_none]
  cases hm : separate_month_and_year E (c10 :: s10) with
  | error e => rfl
  | ok my =>
    simp only []
    cases hf : transformDateFormat (c14 :: s14) with
    | error e => rfl
    | ok f =>
      simp [Record.set]

theorem processRow_error_of_transform (E : Engine) (data : Row)
    (hall : hasAllFields data = true)
    (hfail : (∃ e, separate_month_and_year E (data.text "Mes") = .error e) ∨
      (∃ e, transformDateFormat (data.text "Fecha_Update") = .error e)) :
    ∃ e, processRow E data HEADERS [] = .error e ∧
      (e = invalidMonthMessage ∨ e = invalidDateMessage) := by
  rw [processRow_of_complete E data hall]
  cases hm : separate_month_and_year E (data.text "Mes") with
  | error e => exact ⟨e, rfl, Or.inl (separate_month_and_year_error E _ e hm)⟩
  | ok my =>
    rcases hfail with ⟨e, he⟩ | ⟨e, he⟩
    · rw [hm] at he; cases he
    · rw [he]
      exact ⟨e, rfl, Or.inr (transformDateFormat_error _ e he)⟩

theorem readRows_throw (E : Engine) (error : Option StreamError) (data : Row) (after : List Row)
    (e : JSString) (hfail : processRow E data HEADERS [] = .error e) (acc : List Record) :
    readRows E error (data :: after) acc = .uncaught e := by
  simp [readRows, onData, hfail]

/-- C2. A format failure of a transform is not contained by the builder. Of three full
rows the second has the invalid date `1-2-2023`: `readCsvFile` does not resolve with the
records of the other two, the exception of `transformDateFormat` leaves the listener
uncaught. The same row with an empty date is dropped and the other two are built. -/
theorem readCsvFile_invalid_date_not_dropped :
    readCsvFile asciiEngine
        ⟨[sampleRow "B" "12" "jun-23" "1/2/2023", sampleRow "B" "12" "jun-23" "1-2-2023",
          sampleRow "A" "12" "jun-23" "1/2/2023"], none⟩ =
        .uncaught "Formato de fecha inválido. Debe ser dd/mm/yyyy.".toList ∧
      readCsvFile asciiEngine
        ⟨[sampleRow "B" "12" "jun-23" "1/2/2023", sampleRow "B" "12" "jun-23" "",
          sampleRow "A" "12" "jun-23" "1/2/2023"], none⟩ =
        .resolved ([sampleRow "B" "12" "jun-23" "1/2/2023",
          sampleRow "A" "12" "jun-23" "1/2/2023"].filterMap (recordOf asciiEngine)) := by
  decide

/-- A format failure raised by a field transform on a row that has every registry field
(an invalid month and year token in `Mes`, or an invalid date in `Fecha_Update`) leaves
the listener: the row is not dropped as a row with a missing field is, the rows after it
are not built, `readCsvFile` does not resolve, and the exception, which nothing catches,
ends the run. -/
theorem readCsvFile_transform_failure_escapes (E : Engine) (before after : List Row)
    (data : Row) (error : Option StreamError)
    (hbefore : ∀ d ∈ before, ∀ e, processRow E d HEADERS [] ≠ .error e)
    (hall : hasAllFields data = true)
    (hfail : (∃ e, separate_month_and_year E (data.text "Mes") = .error e) ∨
      (∃ e, transformDateFormat (data.text "Fecha_Update") = .error e)) :
    ∃ e, (e = "Invalid date format. Expected format: \"mon-yy\".".toList ∨
        e = "Formato de fecha inválido. Debe ser dd/mm/yyyy.".toList) ∧
      processRow E data HEADERS [] = .error e ∧
      readCsvFile E ⟨before ++ data :: after, error⟩ = .uncaught e ∧
      ∀ (σ : Type) (W : World σ), W.csv = ⟨before ++ data :: after, error⟩ →
        comparative_projection_vs_real_2022_2023 E W = .crashed e := by
  obtain ⟨e, he, hmsg⟩ := processRow_error_of_transform E data hall hfail
  have hread : readCsvFile E ⟨before ++ data :: after, error⟩ = .uncaught e := by
    have h1 : ∀ acc, readRows E error (before ++ data :: after) acc = .uncaught e := by
      induction before with
      | nil => intro acc; exact readRows_throw E error data after e he acc
      | cons d rest ih =>
        intro acc
        have hd := hbefore d (List.mem_cons_self _ _)
        simp only [List.cons_append, readRows, onData]
        cases hp : processRow E d HEADERS [] with
        | error e' => exact absurd hp (hd e')
        | ok o =>
          cases o <;> simp only [] <;>
            exact ih (fun x hx => hbefore x (List.mem_cons_of_mem _ hx)) _
    exact h1 []
  refine ⟨e, hmsg, he, hread, ?_⟩
  intro σ W hW
  unfold comparative_projection_vs_real_2022_2023
  rw [hW, hread]

/-- The theorem `readCsvFile_transform_failure_escapes` on a full row with the month
token `jun-2023`, between two valid rows. -/
theorem readCsvFile_transform_failure_escapes_witness :
    hasAllFields (sampleRow "B" "12" "jun-2023" "1/2/2023") = true ∧
      ∃ e, readCsvFile asciiEngine
        ⟨[sampleRow "B" "12" "jun-23" "1/2/2023"] ++
          sampleRow "B" "12" "jun-2023" "1/2/2023" ::
          [sampleRow "A" "12" "jun-23" "1/2/2023"], none⟩ = .uncaught e :=
  ⟨by decide,
    (readCsvFile_transform_failure_escapes asciiEngine [sampleRow "B" "12" "jun-23" "1/2/2023"]
      [sampleRow "A" "12" "jun-23" "1/2/2023"] (sampleRow "B" "12" "jun-2023" "1/2/2023") none
      (fun d hd => ne_error_of_isOk _
        ((by decide : ∀ d ∈ [sampleRow "B" "12" "jun-23" "1/2/2023"],
          (processRow asciiEngine d HEADERS []).isOk = true) d hd))
      (by decide) (Or.inl ⟨invalidMonthMessage, by decide⟩)).imp (fun _ h => h.2.2.1)⟩

/-! ## Enrichment loop -/

theorem lookups_length {σ : Type} (pool : Pool σ) (records : List Record) :
    ∀ db, (lookups pool db records).length = records.length := by
  induction records with
  | nil => intro _; rfl
  | cons d rest ih => intro db; simp [lookups, ih]

theorem enrichFrom_eq {σ : Type} (pool : Pool σ) (records : List Record) :
    ∀ (i : ℕ) (st : LoopState σ),
      enrichFrom pool i records st =
        { dataArray := st.dataArray ++ afterLookups records (lookups pool st.db records)
          errorMessages := st.errorMessages ++ entriesFrom i (lookups pool st.db records)
          db := records.foldl (fun db data => (enrichEntry pool db data).2) st.db } := by
  induction records with
  | nil => intro i st; simp [enrichFrom, lookups, afterLookups, entriesFrom]
  | cons d rest ih =>
    intro i st
    rw [enrichFrom]
    cases h : enrichEntry pool st.db d with
    | mk res db' =>
      cases res with
      | ok r =>
        simp only [ih, lookups, h, afterLookups, entriesFrom, List.zipWith_cons_cons,
          List.foldl_cons, List.append_assoc, List.singleton_append]
      | error m =>
        simp only [ih, lookups, h, afterLookups, entriesFrom, List.zipWith_cons_cons,
          List.foldl_cons, List.append_assoc, List.singleton_append, entryError]

theorem entriesFrom_eq_filterMap (results : List (Except JSString Record)) :
    ∀ i, entriesFrom i results =
      (results.enumFrom i).filterMap (fun p =>
        match p.2 with
        | .ok _ => none
        | .error message =>
          some (if includes message "Date record already exists".toList then
              "Entry ".toList ++ (toString (p.1 + 1)).toList ++ ": ".toList ++ message
            else
              "Error processing entry ".toList ++ (toString (p.1 + 1)).toList ++
                ": ".toList ++ message)) := by
  induction results with
  | nil => intro _; rfl
  | cons r rest ih =>
    intro i
    cases r with
    | ok _ => simp [entriesFrom, List.enumFrom_cons, List.filterMap_cons, ih]
    | error m => simp [entriesFrom, List.enumFrom_cons, List.filterMap_cons, ih]

/-- C3. For every enrichment source and every sequence of records, the loop queries
every record, in row order, and `errorMessages` ends with exactly one entry per failed
record and none for the others, in row order: `Entry i: <message>` when the message
contains `Date record already exists`, else `Error processing entry i: <message>`, with
`i` the 1-based index of the record. For `[ok, fails, ok]` there is one entry, for index
2, and the third record is queried. -/
theorem enrichFrom_collects_errors {σ : Type} (pool : Pool σ) (db : σ) (records : List Record) :
    (enrichFrom pool 0 records ⟨[], [], db⟩).errorMessages =
        ((lookups pool db records).enum).filterMap (fun p =>
          match p.2 with
          | .ok _ => none
          | .error message =>
            some (if includes message "Date record already exists".toList then
                "Entry ".toList ++ (toString (p.1 + 1)).toList ++ ": ".toList ++ message
              else
                "Error processing entry ".toList ++ (toString (p.1 + 1)).toList ++
                  ": ".toList ++ message)) ∧
      (lookups pool db records).length = records.length ∧
      (enrichFrom pool 0 records ⟨[], [], db⟩).dataArray.length = records.length ∧
      (enrichFrom pool 0 records ⟨[], [], db⟩).db =
        records.foldl (fun db data => (enrichEntry pool db data).2) db ∧
      (enrichFrom samplePool 0
          [sampleRecord "B" "12", sampleRecord "A" "x", sampleRecord "B" "12"]
          ⟨[], [], 0⟩).errorMessages =
        ["Error processing entry 2: Invalid number.".toList] ∧
      (enrichFrom samplePool 0
          [sampleRecord "B" "12", sampleRecord "A" "x", sampleRecord "B" "12"]
          ⟨[], [], 0⟩).db = 3 := by
  refine ⟨?_, lookups_length pool records db, ?_, ?_, by decide, by decide⟩
  · rw [enrichFrom_eq, List.enum, ← entriesFrom_eq_filterMap]; rfl
  · rw [enrichFrom_eq]
    simp [afterLookups, lookups_length]
  · rw [enrichFrom_eq]

theorem lookup_set_self (r : Record) (k : String) (v : Value) :
    (r.set k v).lookup k = some v := by
  induction r with
  | nil => simp [Record.set, List.lookup]
  | cons p rest ih =>
    obtain ⟨k', w⟩ := p
    by_cases h : k' = k
    · subst h; simp [Record.set, List.lookup]
    · have h' : (k == k') = false := by simpa using fun e => h e.symm
      simp [Record.set, h, List.lookup, h', ih]

theorem lookup_set_of_ne (r : Record) (k k' : String) (v : Value) (h : k' ≠ k) :
    (r.set k v).lookup k' = r.lookup k' := by
  induction r with
  | nil =>
    have : (k' == k) = false := by simpa using h
    simp [Record.set, List.lookup, this]
  | cons p rest ih =>
    obtain ⟨k₀, w⟩ := p
    by_cases h0 : k₀ = k
    · subst h0
      have : (k' == k₀) = false := by simpa using h
      simp [Record.set, List.lookup, this]
    · simp only [Record.set, h0, if_false, List.lookup]
      cases k' == k₀ <;> simp [ih]

theorem enrichEntry_ok {σ : Type} (pool : Pool σ) (db : σ) (data enriched : Record)
    (h : (enrichEntry pool db data).1 = .ok enriched) :
    ∃ receptions : Receptions,
      enriched = (data.set "ReceptionTotal" receptions.ReceptionTotal).set
        "ReceptionAceptada" receptions.ReceptionAceptada := by
  unfold enrichEntry at h
  simp only [] at h
  split at h
  · cases h
  · split at h
    · cases h
    · next receptions _ => exact ⟨receptions, by cases h; rfl⟩

theorem mem_lookups_ok {σ : Type} (pool : Pool σ) (records : List Record) :
    ∀ (db : σ) (enriched : Record), .ok enriched ∈ lookups pool db records →
      ∃ data ∈ records, ∃ receptions : Receptions,
        enriched = (data.set "ReceptionTotal" receptions.ReceptionTotal).set
          "ReceptionAceptada" receptions.ReceptionAceptada := by
  induction records with
  | nil => intro db r h; simp [lookups] at h
  | cons d rest ih =>
    intro db r h
    simp only [lookups, List.mem_cons] at h
    rcases h with h | h
    · obtain ⟨rc, hrc⟩ := enrichEntry_ok pool db d r h.symm
      exact ⟨d, List.mem_cons_self _ _, rc, hrc⟩
    · obtain ⟨d', hd', rc, hrc⟩ := ih _ r h
      exact ⟨d', List.mem_cons_of_mem _ hd', rc, hrc⟩

/-- C4, as stated, fails: in the run over `[ok, fails, ok]` three records reach
`generateExcel`, and the second, whose enrichment failed, has no `ReceptionTotal`. -/
theorem report_receives_failed_record :
    ((comparative_projection_vs_real_2022_2023 asciiEngine (sampleWorld sampleRun)).outcome.bind
        (fun o => o.reportInput)).map
        (fun records => records.map (fun r => (r.lookup "ReceptionTotal").isSome)) =
      some [true, false, true] := by
  decide

/-- C4, amended. The records handed to `generateExcel` at the end of a run are all the
normalized records, in row order: a record whose enrichment succeeded is passed with both
reception fields, a record whose enrichment failed is passed as it was built. For
`[ok, fails, ok]` three records reach the report. -/
theorem report_receives_every_record {σ : Type} (E : Engine) (W : World σ)
    (records : List Record) (db : σ)
    (hread : readCsvFile E W.csv = .resolved records) (hconn : W.connect = .ok db) :
    ∃ o, comparative_projection_vs_real_2022_2023 E W = .completed o ∧
      o.reportInput = some (List.zipWith (fun data result =>
        match result with
        | .ok enriched => enriched
        | .error _ => data) records (lookups W.pool db records)) ∧
      (lookups W.pool db records).length = records.length ∧
      ∀ enriched, .ok enriched ∈ lookups W.pool db records →
        (enriched.lookup "ReceptionTotal").isSome = true ∧
          (enriched.lookup "ReceptionAceptada").isSome = true := by
  have hin : (enrichFrom W.pool 0 records ⟨[], [], db⟩).dataArray =
      afterLookups records (lookups W.pool db records) := by
    rw [enrichFrom_eq]; simp
  have hlast : ∀ enriched, .ok enriched ∈ lookups W.pool db records →
      (enriched.lookup "ReceptionTotal").isSome = true ∧
        (enriched.lookup "ReceptionAceptada").isSome = true := by
    intro r hr
    obtain ⟨d, _, rc, rfl⟩ := mem_lookups_ok W.pool records db r hr
    rw [lookup_set_self, lookup_set_of_ne _ _ _ _ (by decide), lookup_set_self]
    exact ⟨rfl, rfl⟩
  unfold comparative_projection_vs_real_2022_2023
  rw [hread, hconn]
  simp only []
  cases hg : generateExcel E W.writer (enrichFrom W.pool 0 records ⟨[], [], db⟩).dataArray with
  | error e => exact ⟨_, rfl, by rw [hin]; rfl, lookups_length _ _ _, hlast⟩
  | ok x =>
    simp only []
    cases hc : W.pool.close (enrichFrom W.pool 0 records ⟨[], [], db⟩).db with
    | some e => exact ⟨_, rfl, by rw [hin]; rfl, lookups_length _ _ _, hlast⟩
    | none => exact ⟨_, rfl, by rw [hin]; rfl, lookups_length _ _ _, hlast⟩

/-- The theorem `report_receives_every_record` on the run over `[ok, fails, ok]`: three
records reach the report. -/
theorem report_receives_every_record_witness :
    ∃ o, comparative_projection_vs_real_2022_2023 asciiEngine (sampleWorld sampleRun) =
        .completed o ∧ o.reportInput.map List.length = some 3 :=
  (report_receives_every_record asciiEngine (sampleWorld sampleRun)
    (sampleRun.filterMap (recordOf asciiEngine)) 0 (by decide) rfl).imp
    (fun _ h => ⟨h.1, by rw [h.2.1]; simp [List.length_zipWith, h.2.2.1]; decide⟩)

/-! ## Grouping -/

theorem mem_firstSeen (l : List JSString) (a : JSString) : a ∈ firstSeen l ↔ a ∈ l := by
  induction l with
  | nil => simp [firstSeen]
  | cons k ks ih =>
    simp only [firstSeen, List.mem_cons, List.mem_filter, ih, decide_eq_true_eq]
    constructor
    · rintro (h | ⟨h, _⟩)
      · exact Or.inl h
      · exact Or.inr h
    · rintro (h | h)
      · exact Or.inl h
      · by_cases e : a = k
        · exact Or.inl e
        · exact Or.inr ⟨h, e⟩

theorem firstSeen_snoc (l : List JSString) (a : JSString) :
    firstSeen (l ++ [a]) = if a ∈ l then firstSeen l else firstSeen l ++ [a] := by
  induction l with
  | nil => simp [firstSeen]
  | cons k ks ih =>
    show firstSeen (k :: (ks ++ [a])) = _
    rw [firstSeen, ih]
    by_cases e : a = k
    · subst e
      by_cases m : a ∈ ks <;> simp [m, List.filter_append, firstSeen]
    · by_cases m : a ∈ ks <;> simp [m, e, List.filter_append, firstSeen]

theorem groupFrom_snoc (E : Engine) (records : List Record) (r : Record) :
    ∀ g, groupFrom E (records ++ [r]) g =
      match groupFrom E records g with
      | .ok g' => groupStep E g' r
      | .error e => .error e := by
  induction records with
  | nil =>
    intro g
    simp only [List.nil_append, groupFrom]
    cases groupStep E g r <;> rfl
  | cons d rest ih =>
    intro g
    simp only [List.cons_append, groupFrom]
    cases groupStep E g d with
    | error e => rfl
    | ok g' => exact ih g'

theorem lookup_map_key (ks : List JSString) (f : JSString → List Record) (k : JSString) :
    (ks.map (fun k => (k, f k))).lookup k = if k ∈ ks then some (f k) else none := by
  induction ks with
  | nil => simp
  | cons a rest ih =>
    simp only [List.map_cons, List.lookup, List.mem_cons]
    by_cases e : k = a
    · subst e; simp
    · have : (k == a) = false := by simpa using e
      simp [this, ih, e]

theorem nodup_firstSeen (l : List JSString) : (firstSeen l).Nodup := by
  induction l with
  | nil => simp [firstSeen]
  | cons k ks ih =>
    rw [firstSeen, List.nodup_cons]
    exact ⟨by simp [List.mem_filter], ih.filter _⟩

theorem pushInto_map (ks : List JSString) (hks : ks.Nodup) (f : JSString → List Record)
    (k : JSString) (r : Record) :
    pushInto k r (ks.map (fun x => (x, f x))) =
      ks.map (fun x => (x, if x = k then f x ++ [r] else f x)) := by
  induction ks with
  | nil => rfl
  | cons a rest ih =>
    rw [List.nodup_cons] at hks
    simp only [List.map_cons, pushInto, ih hks.2]
    by_cases e : a = k
    · subst e
      simp only [if_true, List.cons.injEq, true_and]
      apply List.map_congr_left
      intro x hx
      have : x ≠ a := fun h => hks.1 (h ▸ hx)
      simp [this]
    · simp [e]

theorem groupStep_partitionsOf (E : Engine) (records : List Record) (r : Record)
    (hr : keyOf E r ∉ objectPrototypeNames) :
    groupStep E (partitionsOf E records) r = .ok (partitionsOf E (records ++ [r])) := by
  unfold groupStep
  simp only []
  change (match (partitionsOf E records).lookup (keyOf E r) with
    | some _ => Except.ok (pushInto (keyOf E r) r (partitionsOf E records))
    | none => if keyOf E r ∈ objectPrototypeNames then Except.error pushTypeErrorMessage
        else Except.ok (partitionsOf E records ++ [(keyOf E r, [r])])) = _
  unfold partitionsOf
  rw [lookup_map_key]
  simp only [List.map_append, List.map_cons, List.map_nil]
  rw [firstSeen_snoc]
  by_cases m : keyOf E r ∈ records.map (keyOf E)
  · have m' : keyOf E r ∈ firstSeen (records.map (keyOf E)) := (mem_firstSeen _ _).2 m
    simp only [m', m, if_true, List.map_cons, List.map_nil]
    rw [pushInto_map _ (nodup_firstSeen _)]
    congr 1
    apply List.map_congr_left
    intro k _
    by_cases e : keyOf E r = k
    · simp [e, List.filter_append]
    · have e' : ¬ k = keyOf E r := fun h => e h.symm
      simp [e, e', List.filter_append]
  · have m' : keyOf E r ∉ firstSeen (records.map (keyOf E)) :=
      fun h => m ((mem_firstSeen _ _).1 h)
    simp only [m', m, if_false, hr, List.map_append, List.map_cons, List.map_nil]
    have hnone : records.filter (fun x => keyOf E x = keyOf E r) = [] := by
      rw [List.filter_eq_nil_iff]
      intro x hx
      have : keyOf E x ≠ keyOf E r := fun h => m (h ▸ List.mem_map_of_mem _ hx)
      simpa using this
    have hleft : (firstSeen (records.map (keyOf E))).map
          (fun k => (k, records.filter (fun r => keyOf E r = k))) =
        (firstSeen (records.map (keyOf E))).map
          (fun k => (k, (records ++ [r]).filter (fun r => keyOf E r = k))) := by
      apply List.map_congr_left
      intro k hk
      have e : ¬ keyOf E r = k := fun h => m' (h ▸ hk)
      simp [List.filter_append, e]
    rw [hleft]
    simp [List.filter_append, hnone]

theorem groupFrom_partitionsOf (E : Engine) (records : List Record)
    (hproto : ∀ r ∈ records, keyOf E r ∉ objectPrototypeNames) :
    groupFrom E records [] = .ok (partitionsOf E records) := by
  induction records using List.reverseRecOn with
  | nil => rfl
  | append_singleton rest r ih =>
    rw [groupFrom_snoc, ih (fun x hx => hproto x (List.mem_append_left _ hx))]
    exact groupStep_partitionsOf E rest r (hproto r (by simp))

theorem forIn_of_no_index (g : Grouped) (h : ∀ p ∈ g, arrayIndex p.1 = none) : forIn g = g := by
  unfold forIn
  have h1 : g.filter (fun p => (arrayIndex p.1).isSome) = [] := by
    rw [List.filter_eq_nil_iff]
    intro p hp
    simp [h p hp]
  have h2 : g.filter (fun p => (arrayIndex p.1).isNone) = g := by
    rw [List.filter_eq_self]
    intro p hp
    simp [h p hp]
  rw [h1, h2]
  rfl

theorem forIn_perm (g : Grouped) : (forIn g).Perm g := by
  unfold forIn
  refine ((List.perm_insertionSort _ _).append_right _).trans ?_
  have e : (fun p : JSString × List Record => (arrayIndex p.1).isNone) =
      (fun p => !(arrayIndex p.1).isSome) := by
    funext p; cases arrayIndex p.1 <;> rfl
  rw [e]
  exact List.filter_append_perm _ _

theorem forIn_sorted (g : Grouped) :
    ((g.filter (fun p => (arrayIndex p.1).isSome)).insertionSort
      (fun a b => (arrayIndex a.1).getD 0 ≤ (arrayIndex b.1).getD 0)).Pairwise
      (fun a b => (arrayIndex a.1).getD 0 ≤ (arrayIndex b.1).getD 0) := by
  have : IsTotal (JSString × List Record)
      (fun a b => (arrayIndex a.1).getD 0 ≤ (arrayIndex b.1).getD 0) :=
    ⟨fun _ _ => Nat.le_total _ _⟩
  have : IsTrans (JSString × List Record)
      (fun a b => (arrayIndex a.1).getD 0 ≤ (arrayIndex b.1).getD 0) :=
    ⟨fun _ _ _ h1 h2 => Nat.le_trans h1 h2⟩
  exact List.sorted_insertionSort _ _

/-- A record whose key is `constructor` makes the grouping throw: `groupedData[key]` is
then the inherited member, which has no `push`. -/
theorem grouping_inherited_key_throws :
    groupFrom asciiEngine [sampleRecord "B" "1", sampleRecord "constructor" "2"] [] =
      .error "groupedData[data.Nombre_Productor].push is not a function".toList := by
  decide

/-- C5, as stated, fails: for the key sequence `2, 1, 2, 1` the first appearances are
in the order `2, 1`, and the partitions are visited in the order `1, 2`. -/
theorem grouping_numeric_keys_reordered :
    firstSeen ([sampleRecord "2" "1", sampleRecord "1" "2", sampleRecord "2" "3",
        sampleRecord "1" "4"].map (keyOf asciiEngine)) = ["2".toList, "1".toList] ∧
      (groupFrom asciiEngine [sampleRecord "2" "1", sampleRecord "1" "2", sampleRecord "2" "3",
        sampleRecord "1" "4"] []).map (fun g => (forIn g).map Prod.fst) =
        .ok ["1".toList, "2".toList] := by
  decide

/-- C5, amended. For every input record sequence in which no key names a member that
objects inherit from `Object.prototype`, the grouping step of `generateExcel` creates the
partitions in order of first appearance of each `Nombre_Productor` value, each holding
exactly the input records with that key in their original relative order. They are
visited in that order when no key is an array index; in general every partition is
visited once, those whose key is an array index first, in ascending numeric order, then
the others in order of first appearance. -/
theorem grouping_by_first_appearance (E : Engine) (records : List Record)
    (hproto : ∀ r ∈ records, keyOf E r ∉ objectPrototypeNames) :
    groupFrom E records [] = .ok (partitionsOf E records) ∧
      ((∀ r ∈ records, arrayIndex (keyOf E r) = none) →
        forIn (partitionsOf E records) = partitionsOf E records) ∧
      (forIn (partitionsOf E records)).Perm (partitionsOf E records) ∧
      ∃ first, forIn (partitionsOf E records) =
          first ++ (partitionsOf E records).filter (fun p => (arrayIndex p.1).isNone) ∧
        (∀ p ∈ first, (arrayIndex p.1).isSome = true) ∧
        first.Pairwise (fun a b => (arrayIndex a.1).getD 0 ≤ (arrayIndex b.1).getD 0) := by
  refine ⟨groupFrom_partitionsOf E records hproto, ?_, forIn_perm _, _, rfl, ?_,
    forIn_sorted _⟩
  · intro h
    apply forIn_of_no_index
    intro p hp
    simp only [partitionsOf, List.mem_map, mem_firstSeen] at hp
    obtain ⟨k, ⟨r, hr, rfl⟩, rfl⟩ := hp
    exact h r hr
  · intro p hp
    have := (List.perm_insertionSort _ _).subset hp
    exact (List.mem_filter.1 this).2

/-- The theorem `grouping_by_first_appearance` on the key sequence `B, A, B, A`: the
partitions are `B, A`, with two records each. -/
theorem grouping_by_first_appearance_witness :
    (∀ r ∈ [sampleRecord "B" "1", sampleRecord "A" "2", sampleRecord "B" "3",
        sampleRecord "A" "4"], keyOf asciiEngine r ∉ objectPrototypeNames) ∧
      (groupFrom asciiEngine [sampleRecord "B" "1", sampleRecord "A" "2", sampleRecord "B" "3",
          sampleRecord "A" "4"] []).map forIn =
        .ok [("B".toList, [sampleRecord "B" "1", sampleRecord "B" "3"]),
          ("A".toList, [sampleRecord "A" "2", sampleRecord "A" "4"])] := by
  have h : ∀ r ∈ [sampleRecord "B" "1", sampleRecord "A" "2", sampleRecord "B" "3",
      sampleRecord "A" "4"], keyOf asciiEngine r ∉ objectPrototypeNames := by decide
  refine ⟨h, ?_⟩
  rw [(grouping_by_first_appearance asciiEngine _ h).1]
  decide

/-! ## Report sheets -/

theorem processRow_keys (E : Engine) (data : Row) (r : Record)
    (h : processRow E data HEADERS [] = .ok (some r)) : r.map Prod.fst = builtKeys := by
  have hall : hasAllFields data = true := by
    cases hc : hasAllFields data with
    | true => rfl
    | false =>
      rcases processRow_of_missing E data HEADERS HEADERS_required hc [] with ⟨e, he⟩ | he
      · rw [he] at h; cases h
      · rw [he] at h; cases h
  rw [processRow_of_complete E data hall] at h
  split at h
  · cases h
  · split at h
    · cases h
    · cases h; rfl

theorem readRows_resolved (E : Engine) (error : Option StreamError) (rows : List Row) :
    ∀ (acc records : List Record), readRows E error rows acc = .resolved records →
      ∀ r ∈ records, r ∈ acc ∨ ∃ data, processRow E data HEADERS [] = .ok (some r) := by
  induction rows with
  | nil =>
    intro acc records h r hr
    unfold readRows at h
    cases error with
    | none => cases h; exact Or.inl hr
    | some e => cases e <;> cases h
  | cons d rest ih =>
    intro acc records h r hr
    rw [readRows] at h
    unfold onData at h
    cases hp : processRow E d HEADERS [] with
    | error e => rw [hp] at h; cases h
    | ok o =>
      rw [hp] at h
      cases o with
      | none => exact ih acc records h r hr
      | some r' =>
        rcases ih _ records h r hr with h1 | h1
        · rcases List.mem_append.1 h1 with h2 | h2
          · exact Or.inl h2
          · simp only [List.mem_singleton] at h2
            exact Or.inr ⟨d, h2 ▸ hp⟩
        · exact Or.inr h1

theorem keys_set_of_not_mem (r : Record) (k : String) (v : Value)
    (h : k ∉ r.map Prod.fst) : (r.set k v).map Prod.fst = r.map Prod.fst ++ [k] := by
  induction r with
  | nil => rfl
  | cons p rest ih =>
    obtain ⟨k', w⟩ := p
    simp only [List.map_cons, List.mem_cons, not_or] at h
    have hne : ¬ k' = k := fun e => h.1 e.symm
    simp [Record.set, hne, ih h.2]

theorem mem_afterLookups {σ : Type} (pool : Pool σ) (records : List Record) :
    ∀ (db : σ), ∀ r ∈ afterLookups records (lookups pool db records),
      ∃ data ∈ records, r = data ∨ ∃ receptions : Receptions,
        r = (data.set "ReceptionTotal" receptions.ReceptionTotal).set
          "ReceptionAceptada" receptions.ReceptionAceptada := by
  induction records with
  | nil => intro db r hr; simp [afterLookups, lookups] at hr
  | cons d rest ih =>
    intro db r hr
    simp only [afterLookups, lookups, List.zipWith_cons_cons, List.mem_cons] at hr
    rcases hr with hr | hr
    · cases hres : (enrichEntry pool db d).1 with
      | error e =>
        rw [hres] at hr
        exact ⟨d, List.mem_cons_self _ _, Or.inl hr⟩
      | ok r' =>
        rw [hres] at hr
        obtain ⟨rc, hrc⟩ := enrichEntry_ok pool db d r' hres
        exact ⟨d, List.mem_cons_self _ _, Or.inr ⟨rc, hr.trans hrc⟩⟩
    · obtain ⟨d', hd', h'⟩ := ih _ r hr
      exact ⟨d', List.mem_cons_of_mem _ hd', h'⟩

theorem mem_pushInto (key : JSString) (data : Record) (g : Grouped) :
    ∀ p ∈ pushInto key data g, p ∈ g ∨ ∃ q ∈ g, p = (q.1, q.2 ++ [data]) := by
  induction g with
  | nil => intro p hp; simp [pushInto] at hp
  | cons q rest ih =>
    intro p hp
    obtain ⟨k, arr⟩ := q
    by_cases e : k = key
    · simp only [pushInto, e, if_true, List.mem_cons] at hp
      rcases hp with hp | hp
      · exact Or.inr ⟨(k, arr), List.mem_cons_self _ _, by simp [hp, e]⟩
      · exact Or.inl (List.mem_cons_of_mem _ hp)
    · simp only [pushInto, e, if_false, List.mem_cons] at hp
      rcases hp with hp | hp
      · exact Or.inl (hp ▸ List.mem_cons_self _ _)
      · rcases ih p hp with h | ⟨q, hq, h⟩
        · exact Or.inl (List.mem_cons_of_mem _ h)
        · exact Or.inr ⟨q, List.mem_cons_of_mem _ hq, h⟩

theorem groupStep_groupsOf (E : Engine) (P : Record → Prop) (g g' : Grouped) (data : Record)
    (hg : GroupsOf P g) (hd : P data) (h : groupStep E g data = .ok g') : GroupsOf P g' := by
  unfold groupStep at h
  simp only [] at h
  split at h
  · cases h
    intro p hp
    rcases mem_pushInto _ _ _ p hp with h1 | ⟨q, hq, rfl⟩
    · exact hg p h1
    · refine ⟨by simp, ?_⟩
      intro r hr
      rcases List.mem_append.1 hr with h2 | h2
      · exact (hg q hq).2 r h2
      · simp only [List.mem_singleton] at h2
        exact h2 ▸ hd
  · split at h
    · cases h
    · cases h
      intro p hp
      rcases List.mem_append.1 hp with h1 | h1
      · exact hg p h1
      · simp only [List.mem_singleton] at h1
        subst h1
        exact ⟨by simp, fun r hr => by simp only [List.mem_singleton] at hr; exact hr ▸ hd⟩

theorem groupFrom_groupsOf (E : Engine) (P : Record → Prop) (records : List Record) :
    ∀ (g g' : Grouped), GroupsOf P g → (∀ r ∈ records, P r) →
      groupFrom E records g = .ok g' → GroupsOf P g' := by
  induction records with
  | nil => intro g g' hg _ h; cases h; exact hg
  | cons d rest ih =>
    intro g g' hg hP h
    rw [groupFrom] at h
    cases hs : groupStep E g d with
    | error e => rw [hs] at h; cases h
    | ok g₁ =>
      rw [hs] at h
      exact ih g₁ g' (groupStep_groupsOf E P g g₁ d hg (hP d (List.mem_cons_self _ _)) hs)
        (fun r hr => hP r (List.mem_cons_of_mem _ hr)) h

theorem get_of_nodup (r : Record) (hnd : (r.map Prod.fst).Nodup) :
    ∀ (j : ℕ) (h1 : j < (r.map Prod.snd).length) (h2 : j < (r.map Prod.fst).length),
      (r.map Prod.snd)[j] = r.get ((r.map Prod.fst)[j]) := by
  induction r with
  | nil => intro j h1; simp at h1
  | cons p rest ih =>
    obtain ⟨k, v⟩ := p
    simp only [List.map_cons, List.nodup_cons] at hnd
    intro j h1 h2
    cases j with
    | zero => simp [Record.get, List.lookup]
    | succ j =>
      simp only [List.map_cons, List.getElem_cons_succ]
      simp only [List.map_cons, List.length_cons, Nat.add_lt_add_iff_right] at h1 h2
      rw [ih hnd.2 j h1 h2]
      have hne : ((rest.map Prod.fst)[j] == k) = false := by
        have : (rest.map Prod.fst)[j] ≠ k := fun e => hnd.1 (e ▸ List.getElem_mem _)
        simpa using this
      simp only [List.getElem_map] at hne
      simp [Record.get, List.lookup, hne]

theorem lookup_none_of_keys (r : Record) (k : String) (h : k ∉ r.map Prod.fst) :
    r.lookup k = none := by
  induction r with
  | nil => rfl
  | cons p rest ih =>
    obtain ⟨k', v⟩ := p
    simp only [List.map_cons, List.mem_cons, not_or] at h
    have : (k == k') = false := by simpa using h.1
    simp [List.lookup, this, ih h.2]

theorem lookup_some_of_keys (r : Record) (k : String) (h : k ∈ r.map Prod.fst) :
    (r.lookup k).isSome = true := by
  induction r with
  | nil => simp at h
  | cons p rest ih =>
    obtain ⟨k', v⟩ := p
    by_cases e : k = k'
    · subst e; simp [List.lookup]
    · have : (k == k') = false := by simpa using e
      simp only [List.map_cons, List.mem_cons, e, false_or] at h
      simp [List.lookup, this, ih h]

theorem aligned_of_keys (first r : Record)
    (hf : first.map Prod.fst = builtKeys ∨ first.map Prod.fst = enrichedKeys)
    (hr : r.map Prod.fst = builtKeys ∨ r.map Prod.fst = enrichedKeys) :
    (∀ (j : ℕ) (h1 : j < (r.map Prod.snd).length) (h2 : j < (first.map Prod.fst).length),
        (r.map Prod.snd)[j] = r.get ((first.map Prod.fst)[j])) ∧
      ((r.lookup "ReceptionTotal").isSome = (first.lookup "ReceptionTotal").isSome →
        (r.map Prod.snd).length = (first.map Prod.fst).length) := by
  have hnd : (r.map Prod.fst).Nodup := by
    rcases hr with h | h <;> rw [h] <;> decide
  have hlen : (r.map Prod.snd).length = (r.map Prod.fst).length := by simp
  have hlook : ∀ x : Record, (x.map Prod.fst = builtKeys → (x.lookup "ReceptionTotal").isSome = false) ∧
      (x.map Prod.fst = enrichedKeys → (x.lookup "ReceptionTotal").isSome = true) := by
    intro x
    constructor
    · intro h
      rw [lookup_none_of_keys x _ (by rw [h]; decide)]; rfl
    · intro h
      exact lookup_some_of_keys x _ (by rw [h]; decide)
  constructor
  · intro j h1 h2
    have h1' : j < (r.map Prod.fst).length := hlen ▸ h1
    rw [get_of_nodup r hnd j h1 h1']
    congr 1
    rcases hf with hf | hf <;> rcases hr with hr | hr
    · simp only [hf, hr]
    · simp only [hf, hr, enrichedKeys] at h2 ⊢
      exact List.getElem_append_left h2
    · simp only [hf, hr, enrichedKeys] at h1' ⊢
      exact (List.getElem_append_left h1').symm
    · simp only [hf, hr]
  · intro hsame
    rw [hlen]
    rcases hf with hf | hf <;> rcases hr with hr | hr
    · rw [hf, hr]
    · rw [(hlook r).2 hr, (hlook first).1 hf] at hsame; cases hsame
    · rw [(hlook r).1 hr, (hlook first).2 hf] at hsame; cases hsame
    · rw [hf, hr]

theorem keys_of_run_record {σ : Type} (E : Engine) (stream : CsvStream) (pool : Pool σ)
    (db : σ) (records : List Record) (hread : readCsvFile E stream = .resolved records) :
    ∀ r ∈ afterLookups records (lookups pool db records),
      r.map Prod.fst = builtKeys ∨ r.map Prod.fst = enrichedKeys := by
  intro r hr
  obtain ⟨data, hdata, h⟩ := mem_afterLookups pool records db r hr
  have hk : data.map Prod.fst = builtKeys := by
    rcases readRows_resolved E stream.error stream.rows [] records hread data hdata with h1 | h1
    · simp at h1
    · obtain ⟨row, hrow⟩ := h1
      exact processRow_keys E row data hrow
  rcases h with rfl | ⟨rc, rfl⟩
  · exact Or.inl hk
  · right
    rw [keys_set_of_not_mem, keys_set_of_not_mem, hk]
    · rfl
    · rw [hk]; decide
    · rw [keys_set_of_not_mem _ _ _ (by rw [hk]; decide), hk]; decide

/-- C6, as stated, fails: in a run over two rows of one producer, the first enriched
and the second not, the sheet has a header of 17 cells and a second data row of 15. -/
theorem sheet_row_shorter_than_header :
    ((comparative_projection_vs_real_2022_2023 asciiEngine
        (sampleWorld [sampleRow "B" "12" "jun-23" "1/2/2023",
          sampleRow "B" "x" "jun-23" "1/2/2023"])).outcome.bind (fun o => o.excel)).map
        (fun excel =>
          match excel with
          | .uploaded sheets => sheets.map (fun s => (s.headers.length, s.rows.map List.length))
          | .logged _ => []) =
      some [(17, [17, 15])] := by
  decide

/-- C6, amended. For every partition emitted by `generateExcel` in a run, the header
row is the key list of the first record of the partition, every data row holds the values
of its record in key order, and every cell under a header cell holds the value of that
record for that header field. A data row has as many cells as the header whenever the
enrichment of its record ended as that of the first record did (both have the reception
fields or both lack them). -/
theorem sheet_rows_follow_header {σ : Type} (E : Engine) (W : World σ) (o : Outcome σ)
    (sheets : List Sheet)
    (hrun : comparative_projection_vs_real_2022_2023 E W = .completed o)
    (hex : o.excel = some (.uploaded sheets)) :
    ∀ s ∈ sheets, ∃ first rest,
      (∃ input, o.reportInput = some input ∧ ∀ r ∈ first :: rest, r ∈ input) ∧
      s.headers = first.map Prod.fst ∧
      s.rows = (first :: rest).map (fun r => r.map Prod.snd) ∧
      ∀ r ∈ first :: rest,
        (∀ (j : ℕ) (h1 : j < (r.map Prod.snd).length) (h2 : j < s.headers.length),
            (r.map Prod.snd)[j] = r.get (s.headers[j])) ∧
        ((r.lookup "ReceptionTotal").isSome = (first.lookup "ReceptionTotal").isSome →
            (r.map Prod.snd).length = s.headers.length) := by
  unfold comparative_projection_vs_real_2022_2023 at hrun
  cases hread : readCsvFile E W.csv with
  | uncaught e => rw [hread] at hrun; cases hrun
  | rejected e =>
    rw [hread] at hrun; cases hrun; cases hex
  | resolved records =>
    rw [hread] at hrun
    simp only [] at hrun
    cases hconn : W.connect with
    | error e => rw [hconn] at hrun; cases hrun; cases hex
    | ok db =>
      rw [hconn] at hrun
      simp only [] at hrun
      have hin : (enrichFrom W.pool 0 records ⟨[], [], db⟩).dataArray =
          afterLookups records (lookups W.pool db records) := by
        rw [enrichFrom_eq]; simp
      rw [hin] at hrun
      generalize hdata : afterLookups records (lookups W.pool db records) = dataArray at hrun
      have hkeys : ∀ r ∈ dataArray,
          r.map Prod.fst = builtKeys ∨ r.map Prod.fst = enrichedKeys :=
        hdata ▸ keys_of_run_record E W.csv W.pool db records hread
      have key : generateExcel E W.writer dataArray = .ok (.uploaded sheets) ∧
          o.reportInput = some dataArray := by
        cases hg : generateExcel E W.writer dataArray with
        | error e => rw [hg] at hrun; cases hrun; cases hex
        | ok x =>
          rw [hg] at hrun
          simp only [] at hrun
          split at hrun <;> (cases hrun; cases hex; exact ⟨rfl, rfl⟩)
      obtain ⟨hgen, hinput⟩ := key
      unfold generateExcel at hgen
      cases hgr : groupFrom E dataArray [] with
      | error e => rw [hgr] at hgen; cases hgen
      | ok g =>
        rw [hgr] at hgen
        simp only [] at hgen
        have hsheets : sheets = (forIn g).map sheetOf := by
          split at hgen
          · cases hgen; rfl
          · cases hgen
        have hG : GroupsOf (fun r => r ∈ dataArray ∧
            (r.map Prod.fst = builtKeys ∨ r.map Prod.fst = enrichedKeys)) g :=
          groupFrom_groupsOf E _ dataArray [] g (by intro p hp; simp at hp)
            (fun r hr => ⟨hr, hkeys r hr⟩) hgr
        intro s hs
        rw [hsheets] at hs
        obtain ⟨p, hp, rfl⟩ := List.mem_map.1 hs
        have hpg : p ∈ g := (forIn_perm g).subset hp
        obtain ⟨hne, hall⟩ := hG p hpg
        obtain ⟨key, part⟩ := p
        cases part with
        | nil => exact absurd rfl hne
        | cons first rest =>
          refine ⟨first, rest, ⟨dataArray, hinput, fun r hr => (hall r hr).1⟩, rfl, rfl, ?_⟩
          intro r hr
          exact aligned_of_keys first r (hall first (List.mem_cons_self _ _)).2 (hall r hr).2

/-- The theorem `sheet_rows_follow_header` on the run over `[ok, fails, ok]`. -/
theorem sheet_rows_follow_header_witness :
    comparative_projection_vs_real_2022_2023 asciiEngine (sampleWorld sampleRun) =
        .completed sampleOutcome ∧
      sampleOutcome.excel = some (.uploaded sampleSheets) ∧
      sampleSheets.length = 2 ∧
      ∀ s ∈ sampleSheets, ∃ (first : Record) (rest : List Record),
        s.headers = first.map Prod.fst ∧
          s.rows = (first :: rest).map (fun r => r.map Prod.snd) :=
  have hrun : comparative_projection_vs_real_2022_2023 asciiEngine (sampleWorld sampleRun) =
      .completed sampleOutcome := rfl
  have hex : sampleOutcome.excel = some (.uploaded sampleSheets) := by decide
  ⟨hrun, hex, by decide, fun s hs =>
    let ⟨first, rest, h⟩ := sheet_rows_follow_header asciiEngine (sampleWorld sampleRun)
      sampleOutcome sampleSheets hrun hex s hs
    ⟨first, rest, h.2.1, h.2.2.1⟩⟩

/-! ## Malformed month and year tokens -/

theorem separate_month_and_year_fails (E : Engine) (s : JSString)
    (h : monthsGet ((split '-' (toLowerCase E s)).getD 0 []) = .undefined ∨
      (split '-' (toLowerCase E s)).get? 1 = none ∨
      toNumber ((split '-' (toLowerCase E s)).get? 1) = .nan ∨
      ((split '-' (toLowerCase E s)).get? 1).map jsLength ≠ some 2) :
    separate_month_and_year E s = .error invalidMonthMessage := by
  unfold separate_month_and_year
  simp only []
  rw [if_pos]
  rcases h with h | h | h | h
  · rw [h]; rfl
  · rw [h]; simp [toNumber, isNaN]
  · rw [h]; simp [isNaN]
  · simp only [Bool.or_eq_true, decide_eq_true_eq]
    exact Or.inr h

/-- The theorem `separate_month_and_year_fails` on 'xyz-23', whose first token is no
property of the table. -/
theorem separate_month_and_year_fails_witness :
    monthsGet ((split '-' (toLowerCase asciiEngine "xyz-23".toList)).getD 0 []) = .undefined ∧
      separate_month_and_year asciiEngine "xyz-23".toList = .error invalidMonthMessage :=
  ⟨by decide, separate_month_and_year_fails asciiEngine "xyz-23".toList (Or.inl (by decide))⟩

/-- C11 at malformed tokens. 'xyz-23' and 'jun-2023' fail with the invalid-format error,
but 'constructor-23', whose first token is none of the 12 abbreviations, succeeds with a
member that the table inherits from `Object.prototype` as its month, and 'jun- 5', whose
second token is not two decimal digits, succeeds with the year 20, which is not between
2000 and 2099. -/
theorem separate_month_and_year_accepts_malformed :
    separate_month_and_year asciiEngine "xyz-23".toList =
        .error "Invalid date format. Expected format: \"mon-yy\".".toList ∧
      separate_month_and_year asciiEngine "jun-2023".toList =
        .error "Invalid date format. Expected format: \"mon-yy\".".toList ∧
      separate_month_and_year asciiEngine "constructor-23".toList =
        .ok { month := .builtin "constructor".toList, year := .num (.finite 2023) } ∧
      separate_month_and_year asciiEngine "jun- 5".toList =
        .ok { month := .num (.finite 6), year := .num (.finite 20) } := by
  decide

theorem processRow_ok (E : Engine) (data : Row) (r : Record)
    (h : processRow E data HEADERS [] = .ok (some r)) :
    hasAllFields data = true ∧ ∃ month_and_year fecha,
      separate_month_and_year E (data.text "Mes") = .ok month_and_year ∧
      transformDateFormat (data.text "Fecha_Update") = .ok fecha ∧
      r = recordWith E data month_and_year fecha := by
  have hall : hasAllFields data = true := by
    cases hc : hasAllFields data with
    | true => rfl
    | false =>
      rcases processRow_of_missing E data HEADERS HEADERS_required hc [] with ⟨e, he⟩ | he
      · rw [he] at h; cases h
      · rw [he] at h; cases h
  refine ⟨hall, ?_⟩
  rw [processRow_of_complete E data hall] at h
  cases hm : separate_month_and_year E (data.text "Mes") with
  | error e => rw [hm] at h; cases h
  | ok my =>
    rw [hm] at h
    simp only [] at h
    cases hf : transformDateFormat (data.text "Fecha_Update") with
    | error e => rw [hf] at h; cases h
    | ok fecha =>
      rw [hf] at h
      simp only [Except.ok.injEq, Option.some.injEq] at h
      exact ⟨my, fecha, rfl, rfl, h.symm⟩

/-- Every record of a resolved read is the record of one of the rows of the stream. -/
theorem readRows_resolved_mem (E : Engine) (error : Option StreamError) (rows : List Row) :
    ∀ (acc records : List Record), readRows E error rows acc = .resolved records →
      ∀ r ∈ records, r ∈ acc ∨ ∃ data ∈ rows, processRow E data HEADERS [] = .ok (some r) := by
  induction rows with
  | nil =>
    intro acc records h r hr
    unfold readRows at h
    cases error with
    | none => cases h; exact Or.inl hr
    | some e => cases e <;> cases h
  | cons d rest ih =>
    intro acc records h r hr
    rw [readRows] at h
    unfold onData at h
    cases hp : processRow E d HEADERS [] with
    | error e => rw [hp] at h; cases h
    | ok o =>
      rw [hp] at h
      cases o with
      | none =>
        rcases ih acc records h r hr with h1 | ⟨x, hx, h1⟩
        · exact Or.inl h1
        · exact Or.inr ⟨x, List.mem_cons_of_mem _ hx, h1⟩
      | some r' =>
        rcases ih _ records h r hr with h1 | ⟨x, hx, h1⟩
        · rcases List.mem_append.1 h1 with h2 | h2
          · exact Or.inl h2
          · simp only [List.mem_singleton] at h2
            exact Or.inr ⟨d, List.mem_cons_self _ _, h2 ▸ hp⟩
        · exact Or.inr ⟨x, List.mem_cons_of_mem _ hx, h1⟩

/-- The part of C15 that holds for every stream. Each record that `readCsvFile` resolves
with has exactly the 14 registry fields and `Anio`, in creation order, and comes from a
row that has every registry field; its `Mes` and `Anio` are the month and the year that
`separate_month_and_year` returned for the `Mes` token of that row. -/
theorem built_record_fields (E : Engine) (stream : CsvStream) (records : List Record)
    (hread : readCsvFile E stream = .resolved records) :
    ∀ r ∈ records, r.map Prod.fst = builtKeys ∧
      (∀ header ∈ HEADERS, header.name ∈ r.map Prod.fst) ∧
      ∃ data ∈ stream.rows, hasAllFields data = true ∧
        ∃ month_and_year, separate_month_and_year E (data.text "Mes") = .ok month_and_year ∧
          r.get "Mes" = month_and_year.month ∧ r.get "Anio" = month_and_year.year := by
  intro r hr
  rcases readRows_resolved_mem E stream.error stream.rows [] records hread r hr with h | h
  · simp at h
  · obtain ⟨data, hdata, hp⟩ := h
    obtain ⟨hall, my, fecha, hm, _, rfl⟩ := processRow_ok E data r hp
    have hk : (recordWith E data my fecha).map Prod.fst = builtKeys := rfl
    refine ⟨hk, ?_, data, hdata, hall, my, hm, rfl, rfl⟩
    rw [hk]
    decide

/-- The theorem `built_record_fields` on the stream of `sampleBatch`: the one record has
the 15 property names, the month 6 and the year 2023. -/
theorem built_record_fields_witness :
    readCsvFile asciiEngine ⟨sampleBatch, none⟩ =
        .resolved (sampleBatch.filterMap (recordOf asciiEngine)) ∧
      ∀ r ∈ sampleBatch.filterMap (recordOf asciiEngine),
        r.map Prod.fst = builtKeys ∧ r.get "Mes" = .num (.finite 6) ∧
          r.get "Anio" = .num (.finite 2023) :=
  have h : readCsvFile asciiEngine ⟨sampleBatch, none⟩ =
      .resolved (sampleBatch.filterMap (recordOf asciiEngine)) := by decide
  ⟨h, fun r hr =>
    ⟨(built_record_fields asciiEngine ⟨sampleBatch, none⟩ _ h r hr).1, by
      revert r
      decide⟩⟩

/-- C15 at rows with a malformed month token. The row whose `Mes` is 'jun- 5' is built
into a record whose `Anio` is 20, not a year 2000 + yy, and the row whose `Mes` is
'constructor-23' into a record whose `Mes` is not a month number; `readCsvFile` resolves
with such a record. Both come from the acceptance test of `separate_month_and_year`. -/
theorem built_record_malformed_month :
    (recordOf asciiEngine (sampleRow "B" "12" "jun- 5" "1/2/2023")).map
        (fun r => (r.get "Mes", r.get "Anio")) =
        some (.num (.finite 6), .num (.finite 20)) ∧
      (recordOf asciiEngine (sampleRow "B" "12" "constructor-23" "1/2/2023")).map
        (fun r => (r.get "Mes", r.get "Anio")) =
        some (.builtin "constructor".toList, .num (.finite 2023)) ∧
      readCsvFile asciiEngine ⟨[sampleRow "B" "12" "jun- 5" "1/2/2023"], none⟩ =
        .resolved ([sampleRow "B" "12" "jun- 5" "1/2/2023"].filterMap (recordOf asciiEngine)) := by
  decide

/-! ## `normalizeAndSanitize` -/

theorem replaceSpaceRunsFrom_true (s : JSString) :
    replaceSpaceRunsFrom true s = replaceSpaceRunsFrom false (s.dropWhile isWhiteSpace) := by
  induction s with
  | nil => rfl
  | cons c cs ih =>
    by_cases h : isWhiteSpace c = true
    · simp [replaceSpaceRunsFrom, h, List.dropWhile_cons, ih]
    · simp [replaceSpaceRunsFrom, h, List.dropWhile_cons]

theorem replaceSpaceRuns_eq_collapse (s : JSString) :
    replaceSpaceRuns s = collapseSpaceRuns s := by
  unfold replaceSpaceRuns
  generalize hn : s.length = n
  induction n using Nat.strong_induction_on generalizing s with
  | _ n ih =>
    cases s with
    | nil => simp [replaceSpaceRunsFrom, collapseSpaceRuns]
    | cons c cs =>
      rw [collapseSpaceRuns]
      by_cases h : isWhiteSpace c = true
      · have hlt : (cs.dropWhile isWhiteSpace).length < n := by
          rw [← hn]
          exact Nat.lt_succ_of_le (List.dropWhile_sublist _).length_le
        rw [if_pos h, ← ih _ hlt _ rfl, ← replaceSpaceRunsFrom_true]
        simp [replaceSpaceRunsFrom, h]
      · have hlt : cs.length < n := by rw [← hn]; exact Nat.lt_succ_self _
        rw [if_neg h, ← ih _ hlt _ rfl]
        simp [replaceSpaceRunsFrom, h]

theorem normalizeAndSanitize_eq_steps (E : Engine) (text : JSString) (rs rd : Bool) :
    normalizeAndSanitize E text (some rs) (some rd) = normalizeSteps E text rs rd := by
  unfold normalizeAndSanitize normalizeSteps
  simp only [Option.getD_some]
  have f1 : (fun c : Char => !(c == '.' || c == ',')) = (fun c => decide (c ≠ '.' ∧ c ≠ ',')) := by
    funext c; by_cases h1 : c = '.' <;> by_cases h2 : c = ',' <;> simp [h1, h2]
  have f2 : (fun c : Char => !decide (0x300 ≤ c.toNat ∧ c.toNat ≤ 0x36F)) =
      (fun c => decide (¬(0x300 ≤ c.toNat ∧ c.toNat ≤ 0x36F))) := by
    funext c
    by_cases h1 : 0x300 ≤ c.toNat <;> by_cases h2 : c.toNat ≤ 0x36F <;> simp [h1, h2]
  have f3 : (fun c : Char => !(c == '\n' || c == '\r')) = (fun c => decide (c ≠ '\n' ∧ c ≠ '\r')) := by
    funext c; by_cases h1 : c = '\n' <;> by_cases h2 : c = '\r' <;> simp [h1, h2]
  rw [f1, f2, f3]
  cases rs <;> cases rd <;> simp only [if_true, if_false, Bool.false_eq_true, replaceSpaceRuns_eq_collapse]

theorem mem_replaceSpaceRunsFrom (b : Bool) (s : JSString) :
    ∀ c ∈ replaceSpaceRunsFrom b s, isWhiteSpace c = false ∧ (c = '_' ∨ c ∈ s) := by
  induction s generalizing b with
  | nil => intro c hc; simp [replaceSpaceRunsFrom] at hc
  | cons x xs ih =>
    intro c hc
    by_cases h : isWhiteSpace x = true
    · simp only [replaceSpaceRunsFrom, h, if_true, List.mem_append] at hc
      rcases hc with hc | hc
      · have hu : c = '_' := by
          cases b
          · simpa using hc
          · simp at hc
        exact ⟨by rw [hu]; decide, Or.inl hu⟩
      · obtain ⟨h1, h2⟩ := ih true c hc
        exact ⟨h1, h2.imp id (List.mem_cons_of_mem _)⟩
    · have hx : isWhiteSpace x = false := by simpa using h
      rw [replaceSpaceRunsFrom, if_neg h, List.mem_cons] at hc
      rcases hc with hc | hc
      · rw [hc]
        exact ⟨hx, Or.inr (List.mem_cons_self _ _)⟩
      · obtain ⟨h1, h2⟩ := ih false c hc
        exact ⟨h1, h2.imp id (List.mem_cons_of_mem _)⟩

theorem lower_cases {c : Char} (h : 97 ≤ c.toNat ∧ c.toNat ≤ 122) :
    c ∈ "abcdefghijklmnopqrstuvwxyz".toList := by
  obtain ⟨h1, h2⟩ := h
  have hc : c = Char.ofNat c.toNat := (Char.ofNat_toNat c).symm
  rw [hc]
  generalize c.toNat = n at *
  interval_cases n <;> decide

theorem asciiUpper_not_lower (c : Char) :
    ¬(97 ≤ (asciiUpper c).toNat ∧ (asciiUpper c).toNat ≤ 122) := by
  by_cases hc : 97 ≤ c.toNat ∧ c.toNat ≤ 122
  · have key : ∀ y ∈ "abcdefghijklmnopqrstuvwxyz".toList,
        ¬(97 ≤ (asciiUpper y).toNat ∧ (asciiUpper y).toNat ≤ 122) := by decide
    exact key c (lower_cases hc)
  · unfold asciiUpper
    rw [if_neg hc]; exact hc

theorem asciiUpper_eq_of_mem (c : Char) (x : Char) (hx : x ∈ ['.', ',', '\n', '\r'])
    (h : asciiUpper c = x) : c = x := by
  by_cases hc : 97 ≤ c.toNat ∧ c.toNat ≤ 122
  · have key : ∀ y ∈ "abcdefghijklmnopqrstuvwxyz".toList, ∀ z ∈ ['.', ',', '\n', '\r'],
        asciiUpper y ≠ z := by decide
    exact absurd h (key c (lower_cases hc) x hx)
  · unfold asciiUpper at h
    rw [if_neg hc] at h; exact h

theorem asciiUpper_lt (c : Char) (h : c.toNat < 128) : (asciiUpper c).toNat < 128 := by
  by_cases hc : 97 ≤ c.toNat ∧ c.toNat ≤ 122
  · have key : ∀ y ∈ "abcdefghijklmnopqrstuvwxyz".toList, (asciiUpper y).toNat < 128 := by
      decide
    exact key c (lower_cases hc)
  · unfold asciiUpper
    rw [if_neg hc]; exact h

theorem nfdFrom_ascii (E : Engine) (s : JSString) (h : ∀ c ∈ s, c.toNat < 128) :
    nfdFrom E [] s = s := by
  induction s with
  | nil => rfl
  | cons c cs ih =>
    have hc : c.toNat < 128 := h c (List.mem_cons_self _ _)
    simp [nfdFrom, hc, ih (fun x hx => h x (List.mem_cons_of_mem _ hx))]

theorem toUpperCase_ascii (E : Engine) (s : JSString) (h : ∀ c ∈ s, c.toNat < 128) :
    toUpperCase E s = s.map asciiUpper := by
  unfold toUpperCase
  induction s with
  | nil => rfl
  | cons c cs ih =>
    have hc : c.toNat < 128 := h c (List.mem_cons_self _ _)
    simp only [List.flatMap_cons, List.map_cons, hc, if_true, List.singleton_append]
    rw [ih (fun x hx => h x (List.mem_cons_of_mem _ hx))]

theorem normalizeAndSanitize_ascii (E : Engine) (text : JSString) (rs rd : Option Bool)
    (h : ∀ c ∈ text, c.toNat < 128) :
    normalizeAndSanitize E text rs rd = normalizeAndSanitize asciiEngine text rs rd := by
  unfold normalizeAndSanitize nfd
  rw [nfdFrom_ascii E text h, nfdFrom_ascii asciiEngine text h]
  have hf : ∀ c ∈ (if rd.getD true then text.filter (fun c => !(c == '.' || c == ','))
      else text), c.toNat < 128 := by
    intro c hc
    split at hc
    · exact h c (List.mem_of_mem_filter hc)
    · exact h c hc
  simp only []
  rw [toUpperCase_ascii E _ hf, toUpperCase_ascii asciiEngine _ hf]

theorem mem_toUpperCase (E : Engine) (s : JSString)
    (hE : ∀ c : Char, 128 ≤ c.toNat → ∀ x ∈ E.upperOther c,
      x ≠ '.' ∧ x ≠ ',' ∧ ¬(97 ≤ x.toNat ∧ x.toNat ≤ 122))
    (hs : ∀ c ∈ s, c ≠ '.' ∧ c ≠ ',') :
    ∀ x ∈ toUpperCase E s, x ≠ '.' ∧ x ≠ ',' ∧ ¬(97 ≤ x.toNat ∧ x.toNat ≤ 122) := by
  intro x hx
  unfold toUpperCase at hx
  rw [List.mem_flatMap] at hx
  obtain ⟨c, hc, hxc⟩ := hx
  by_cases h : c.toNat < 128
  · rw [if_pos h, List.mem_singleton] at hxc
    subst hxc
    refine ⟨fun e => (hs c hc).1 (asciiUpper_eq_of_mem c _ (by decide) e),
      fun e => (hs c hc).2 (asciiUpper_eq_of_mem c _ (by decide) e), asciiUpper_not_lower c⟩
  · rw [if_neg h] at hxc
    exact hE c (by omega) x hxc

/-- C14. For every text and both flags, `normalizeAndSanitize` equals the steps in their
order: NFD, removal of every '.' and ',' (if `replaceDots`), upper-casing, each maximal
run of white space replaced by one '_' (if `replaceSpaces`), removal of the combining
marks U+0300..U+036F and of line feeds and carriage returns. With both flags true the
result has no '.', ',', white space, combining mark or letter a-z, and 'Rancho El Sol.'
gives 'RANCHO_EL_SOL'. The hypothesis is the fact of the Unicode tables that upper-casing
a code point outside ASCII yields no '.', ',' or a-z. -/
theorem normalizeAndSanitize_steps (E : Engine) (text : JSString)
    (replaceSpaces replaceDots : Bool)
    (hE : ∀ c : Char, 128 ≤ c.toNat → ∀ x ∈ E.upperOther c,
      x ≠ '.' ∧ x ≠ ',' ∧ ¬(97 ≤ x.toNat ∧ x.toNat ≤ 122)) :
    normalizeAndSanitize E text (some replaceSpaces) (some replaceDots) =
        normalizeSteps E text replaceSpaces replaceDots ∧
      (∀ c ∈ normalizeAndSanitize E text (some true) (some true),
        c ≠ '.' ∧ c ≠ ',' ∧ isWhiteSpace c = false ∧
          ¬(0x300 ≤ c.toNat ∧ c.toNat ≤ 0x36F) ∧ ¬(97 ≤ c.toNat ∧ c.toNat ≤ 122)) ∧
      normalizeAndSanitize E "Rancho El Sol.".toList (some true) (some true) =
        "RANCHO_EL_SOL".toList := by
  refine ⟨normalizeAndSanitize_eq_steps E text replaceSpaces replaceDots, ?_, ?_⟩
  · intro c hc
    unfold normalizeAndSanitize at hc
    simp only [Option.getD_some, if_true] at hc
    have h1 := List.mem_of_mem_filter hc
    have h2 := List.mem_of_mem_filter h1
    have hcomb := (List.mem_filter.1 h1).2
    obtain ⟨hws, hmem⟩ := mem_replaceSpaceRunsFrom false _ c h2
    have hD : ∀ d ∈ (nfd E text).filter (fun c => !(c == '.' || c == ',')),
        d ≠ '.' ∧ d ≠ ',' := by
      intro d hd
      have := (List.mem_filter.1 hd).2
      simpa using this
    have hchar : c ≠ '.' ∧ c ≠ ',' ∧ ¬(97 ≤ c.toNat ∧ c.toNat ≤ 122) := by
      rcases hmem with hu | hu
      · rw [hu]; decide
      · exact mem_toUpperCase E _ hE hD c hu
    refine ⟨hchar.1, hchar.2.1, hws, ?_, hchar.2.2⟩
    intro hrange
    simp [hrange] at hcomb
  · rw [normalizeAndSanitize_ascii E _ _ _ (by decide)]
    decide

/-- The theorem `normalizeAndSanitize_steps` on the text 'a', space, tab, line feed,
space, 'b.,c' with both flags true: the result is 'A_BC'. -/
theorem normalizeAndSanitize_steps_witness :
    (∀ c : Char, 128 ≤ c.toNat → ∀ x ∈ asciiEngine.upperOther c,
      x ≠ '.' ∧ x ≠ ',' ∧ ¬(97 ≤ x.toNat ∧ x.toNat ≤ 122)) ∧
      normalizeAndSanitize asciiEngine "a \t\n b.,c".toList (some true) (some true) =
        normalizeSteps asciiEngine "a \t\n b.,c".toList true true ∧
      normalizeAndSanitize asciiEngine "a \t\n b.,c".toList (some true) (some true) =
        "A_BC".toList :=
  have hE : ∀ c : Char, 128 ≤ c.toNat → ∀ x ∈ asciiEngine.upperOther c,
      x ≠ '.' ∧ x ≠ ',' ∧ ¬(97 ≤ x.toNat ∧ x.toNat ≤ 122) := by
    intro c hc x hx
    have hxc : x = c := by simpa [asciiEngine] using hx
    subst hxc
    refine ⟨?_, ?_, by omega⟩
    · rintro rfl; revert hc; decide
    · rintro rfl; revert hc; decide
  ⟨hE, (normalizeAndSanitize_steps asciiEngine "a \t\n b.,c".toList true true hE).1, by decide⟩

/-! ## Decimal fields -/

theorem takeWhile_append_cons (p : Char → Bool) (a : JSString) (c : Char) (t : JSString)
    (ha : ∀ x ∈ a, p x = true) (hc : p c = false) :
    (a ++ c :: t).takeWhile p = a ∧ (a ++ c :: t).dropWhile p = c :: t := by
  induction a with
  | nil => simp [List.takeWhile, List.dropWhile, hc]
  | cons x xs ih =>
    have hx : p x = true := ha x (List.mem_cons_self _ _)
    have := ih (fun y hy => ha y (List.mem_cons_of_mem _ hy))
    simp [List.takeWhile, List.dropWhile, hx, this]

theorem takeWhile_all (p : Char → Bool) (a : JSString) (ha : ∀ x ∈ a, p x = true) :
    a.takeWhile p = a ∧ a.dropWhile p = [] := by
  induction a with
  | nil => simp
  | cons x xs ih =>
    have hx : p x = true := ha x (List.mem_cons_self _ _)
    have := ih (fun y hy => ha y (List.mem_cons_of_mem _ hy))
    simp [List.takeWhile, List.dropWhile, hx, this]

theorem parseFloat_of_digit_head (c : Char) (rest : JSString) (hc : isDecimalDigit c = true) :
    parseFloat (c :: rest) =
      (let u := c :: rest
       let ip := u.takeWhile isDecimalDigit
       let r1 := u.dropWhile isDecimalDigit
       let fp := match r1 with
         | '.' :: r => r.takeWhile isDecimalDigit
         | _ => []
       let r2 := match r1 with
         | '.' :: r => r.dropWhile isDecimalDigit
         | _ => r1
       if ip.isEmpty && fp.isEmpty then .nan
       else
         let n : ℕ := (ip ++ fp).foldl (fun acc c => acc * 10 + digitValue c) 0
         let e10 : ℤ := exponentValue r2 - (fp.length : ℤ)
         let sn : ℤ := (n : ℤ)
         if 0 ≤ e10 then roundToDouble (sn * 10 ^ e10.toNat) 1
         else roundToDouble sn (10 ^ (-e10).toNat)) := by
  have h := digit_cases hc
  simp only [String.toList, List.mem_cons, List.mem_singleton, List.not_mem_nil,
    or_false] at h
  rcases h with rfl | rfl | rfl | rfl | rfl | rfl | rfl | rfl | rfl | rfl <;> rfl

theorem exponentValue_of_stops (t : JSString) (h : stopsLiteral t = true) :
    exponentValue t = 0 := by
  cases t with
  | nil => rfl
  | cons c cs =>
    simp only [stopsLiteral, Bool.not_eq_true', Bool.or_eq_false_iff] at h
    unfold exponentValue
    simp [h.1.2, h.2]

theorem head_not_digit_of_stops (t : JSString) (h : stopsLiteral t = true) :
    t = [] ∨ ∃ c cs, t = c :: cs ∧ isDecimalDigit c = false := by
  cases t with
  | nil => exact Or.inl rfl
  | cons c cs =>
    simp only [stopsLiteral, Bool.not_eq_true', Bool.or_eq_false_iff] at h
    exact Or.inr ⟨c, cs, rfl, h.1.1⟩

theorem span_digits (b t : JSString) (hb : ∀ x ∈ b, isDecimalDigit x = true)
    (ht : stopsLiteral t = true) :
    (b ++ t).takeWhile isDecimalDigit = b ∧ (b ++ t).dropWhile isDecimalDigit = t := by
  rcases head_not_digit_of_stops t ht with rfl | ⟨c, cs, rfl, hc⟩
  · simpa using takeWhile_all isDecimalDigit b hb
  · exact takeWhile_append_cons isDecimalDigit b c cs hb hc

theorem parseFloat_decimal (a b t : JSString) (ha : a ≠ [])
    (had : ∀ x ∈ a, isDecimalDigit x = true) (hb : b ≠ [])
    (hbd : ∀ x ∈ b, isDecimalDigit x = true) (ht : stopsLiteral t = true) :
    parseFloat (a ++ '.' :: (b ++ t)) = decimalNumber a b := by
  obtain ⟨a0, a', rfl⟩ := List.exists_cons_of_ne_nil ha
  have hdot : isDecimalDigit '.' = false := by decide
  rw [List.cons_append, parseFloat_of_digit_head a0 _ (had a0 (List.mem_cons_self _ _))]
  obtain ⟨h1, h2⟩ := takeWhile_append_cons isDecimalDigit (a0 :: a') '.' (b ++ t) had hdot
  obtain ⟨h3, h4⟩ := span_digits b t hbd ht
  simp only [List.cons_append] at h1 h2
  simp only [h1, h2, h3, h4, exponentValue_of_stops t ht]
  have hbl : 0 < b.length := List.length_pos.2 hb
  have hneg : ¬ (0 : ℤ) ≤ 0 - (b.length : ℤ) := by omega
  simp only [List.isEmpty_cons, Bool.false_and, Bool.false_eq_true, if_false, hneg]
  have he : (-(0 - (b.length : ℤ))).toNat = b.length := by omega
  rw [he]
  rfl

theorem parseFloat_integer (a t : JSString) (ha : a ≠ [])
    (had : ∀ x ∈ a, isDecimalDigit x = true) (ht : stopsLiteral t = true)
    (hdot : t.head? ≠ some '.') :
    parseFloat (a ++ t) = roundToDouble (decimalValue a) 1 := by
  obtain ⟨a0, a', rfl⟩ := List.exists_cons_of_ne_nil ha
  rw [List.cons_append, parseFloat_of_digit_head a0 _ (had a0 (List.mem_cons_self _ _))]
  obtain ⟨h3, h4⟩ := span_digits (a0 :: a') t had ht
  simp only [List.cons_append] at h3 h4
  simp only [h3, h4]
  cases t with
  | nil =>
    simp only [exponentValue]
    simp [decimalValue]
  | cons c cs =>
    have hc : c ≠ '.' := fun e => hdot (by rw [e]; rfl)
    have hm1 : (match c :: cs with
        | '.' :: r => List.takeWhile isDecimalDigit r
        | _ => []) = [] := by
      split
      · rename_i heq
        exact absurd (List.cons.inj heq).1 hc
      · rfl
    have hm2 : (match c :: cs with
        | '.' :: r => List.dropWhile isDecimalDigit r
        | _ => c :: cs) = c :: cs := by
      split
      · rename_i heq
        exact absurd (List.cons.inj heq).1 hc
      · rfl
    rw [hm1, hm2, exponentValue_of_stops _ ht]
    simp [decimalValue]

theorem transformAndValidateDecimal_of_not_finite (value : JSString)
    (h : isFinite (parseFloat (replaceFirst ',' '.' value)) = false) :
    transformAndValidateDecimal value = .null := by
  unfold transformAndValidateDecimal
  simp [h]

theorem transformAndValidateDecimal_cases (value : JSString) :
    transformAndValidateDecimal value = .null ∨
      ∃ x, transformAndValidateDecimal value = .num (.finite x) := by
  unfold transformAndValidateDecimal
  simp only []
  cases h : parseFloat (replaceFirst ',' '.' value) with
  | nan => left; simp [isNaN, isFinite]
  | posInf => left; simp [isNaN, isFinite]
  | negInf => left; simp [isNaN, isFinite]
  | finite x => right; exact ⟨x, by simp [isNaN, isFinite]⟩

theorem parseFloat_eq (s : JSString) :
    parseFloat s =
      (let t := s.dropWhile isWhiteSpace
       let neg : Bool := t.head? == some '-'
       let u := dropSign t
       if "Infinity".toList.isPrefixOf u then (if neg then .negInf else .posInf)
       else
         let ip := u.takeWhile isDecimalDigit
         let r1 := u.dropWhile isDecimalDigit
         let fp := match r1 with
           | '.' :: r => r.takeWhile isDecimalDigit
           | _ => []
         let r2 := match r1 with
           | '.' :: r => r.dropWhile isDecimalDigit
           | _ => r1
         if ip.isEmpty && fp.isEmpty then .nan
         else
           let n : ℕ := (ip ++ fp).foldl (fun acc c => acc * 10 + digitValue c) 0
           let e10 : ℤ := exponentValue r2 - (fp.length : ℤ)
           let sn : ℤ := if neg then -(n : ℤ) else (n : ℤ)
           if 0 ≤ e10 then roundToDouble (sn * 10 ^ e10.toNat) 1
           else roundToDouble sn (10 ^ (-e10).toNat)) := rfl

theorem parseFloat_of_no_digits (s : JSString)
    (hinf : "Infinity".toList.isPrefixOf (dropSign (s.dropWhile isWhiteSpace)) = false)
    (hip : (dropSign (s.dropWhile isWhiteSpace)).takeWhile isDecimalDigit = [])
    (hfp : (match (dropSign (s.dropWhile isWhiteSpace)).dropWhile isDecimalDigit with
      | '.' :: r => r.takeWhile isDecimalDigit
      | _ => []) = []) :
    parseFloat s = .nan := by
  rw [parseFloat_eq]
  simp only [hinf, hip, hfp]
  rfl

theorem parseFloat_of_infinity (s : JSString)
    (hinf : "Infinity".toList.isPrefixOf (dropSign (s.dropWhile isWhiteSpace)) = true) :
    isFinite (parseFloat s) = false := by
  rw [parseFloat_eq]
  simp only [hinf, if_true]
  split <;> rfl

theorem parseFloat_of_not_startsWithNumber (s : JSString) (h : startsWithNumber s = false) :
    isFinite (parseFloat s) = false := by
  cases hinf : "Infinity".toList.isPrefixOf (dropSign (s.dropWhile isWhiteSpace)) with
  | true => exact parseFloat_of_infinity s hinf
  | false =>
    unfold startsWithNumber at h
    have hnan : parseFloat s = .nan := by
      apply parseFloat_of_no_digits s hinf
      · generalize dropSign (s.dropWhile isWhiteSpace) = u at h
        cases u with
        | nil => rfl
        | cons c rest =>
          simp only [Bool.or_eq_false_iff] at h
          simp [List.takeWhile, h.1]
      · generalize dropSign (s.dropWhile isWhiteSpace) = u at h
        cases u with
        | nil => rfl
        | cons c rest =>
          simp only [Bool.or_eq_false_iff, Bool.and_eq_false_iff] at h
          obtain ⟨hc, hdot⟩ := h
          have hr1 : (c :: rest).dropWhile isDecimalDigit = c :: rest := by
            simp [List.dropWhile, hc]
          rw [hr1]
          split
          · rename_i r heq
            obtain ⟨h1, h2⟩ := List.cons.inj heq
            subst h1; subst h2
            rcases hdot with hd | hd
            · simp at hd
            · cases rest with
              | nil => rfl
              | cons d ds =>
                simp only [] at hd
                simp [List.takeWhile, hd]
          · rfl
    rw [hnan]; rfl

/-! ## Binary64 rounding -/

theorem toDigitsCore_two_length (fuel : ℕ) : ∀ (n : ℕ) (ds : List Char), n < fuel →
    (Nat.toDigitsCore 2 fuel n ds).length = ds.length + (Nat.log 2 n + 1) := by
  induction fuel with
  | zero => intro n ds h; omega
  | succ fuel ih =>
    intro n ds h
    simp only [Nat.toDigitsCore]
    by_cases h0 : n / 2 = 0
    · have hn : n < 2 := by omega
      simp [h0, Nat.log_of_lt hn]
    · have hn : 2 ≤ n := by omega
      rw [if_neg h0, ih (n / 2) _ (by omega), Nat.log_of_one_lt_of_le (by norm_num) hn]
      simp only [List.length_cons]
      omega

theorem bitLength_eq (n : ℕ) (h : n ≠ 0) : bitLength n = Nat.log 2 n + 1 := by
  unfold bitLength
  rw [if_neg h, Nat.toDigits, toDigitsCore_two_length (n + 1) n [] (Nat.lt_succ_self n)]
  simp

theorem bitLength_bounds (n : ℕ) (h : n ≠ 0) :
    2 ^ (bitLength n - 1) ≤ n ∧ n < 2 ^ bitLength n := by
  rw [bitLength_eq n h]
  exact ⟨Nat.pow_log_le_self 2 h, Nat.lt_pow_succ_log_self (by norm_num) n⟩

theorem floorLog2_bounds (n d : ℕ) (hn : 0 < n) (hd : 0 < d) :
    (2 : ℚ) ^ floorLog2 n d ≤ (n : ℚ) / d ∧ (n : ℚ) / d < 2 ^ (floorLog2 n d + 1) := by
  obtain ⟨hn1, hn2⟩ := bitLength_bounds n (by omega)
  obtain ⟨hd1, hd2⟩ := bitLength_bounds d (by omega)
  have hbn : 0 < bitLength n := by rw [bitLength_eq n (by omega)]; omega
  have hbd : 0 < bitLength d := by rw [bitLength_eq d (by omega)]; omega
  have hdq : (0 : ℚ) < d := by exact_mod_cast hd
  have hnq : (0 : ℚ) < n := by exact_mod_cast hn
  have hn1q : (2 : ℚ) ^ ((bitLength n : ℤ) - 1) ≤ n := by
    have : ((bitLength n : ℤ) - 1) = ((bitLength n - 1 : ℕ) : ℤ) := by omega
    rw [this, zpow_natCast]
    exact_mod_cast hn1
  have hn2q : (n : ℚ) < (2 : ℚ) ^ (bitLength n : ℤ) := by
    rw [zpow_natCast]; exact_mod_cast hn2
  have hd1q : (2 : ℚ) ^ ((bitLength d : ℤ) - 1) ≤ d := by
    have : ((bitLength d : ℤ) - 1) = ((bitLength d - 1 : ℕ) : ℤ) := by omega
    rw [this, zpow_natCast]
    exact_mod_cast hd1
  have hd2q : (d : ℚ) < (2 : ℚ) ^ (bitLength d : ℤ) := by
    rw [zpow_natCast]; exact_mod_cast hd2
  have h2 : (0 : ℚ) < 2 := by norm_num
  -- the quotient lies strictly between 2 ^ (e0 - 1) and 2 ^ (e0 + 1)
  have hlow : (2 : ℚ) ^ ((bitLength n : ℤ) - (bitLength d : ℤ) - 1) < (n : ℚ) / d := by
    rw [lt_div_iff₀ hdq]
    calc (2 : ℚ) ^ ((bitLength n : ℤ) - (bitLength d : ℤ) - 1) * d
        < 2 ^ ((bitLength n : ℤ) - (bitLength d : ℤ) - 1) * 2 ^ (bitLength d : ℤ) :=
          mul_lt_mul_of_pos_left hd2q (zpow_pos h2 _)
      _ = 2 ^ ((bitLength n : ℤ) - 1) := by
          rw [← zpow_add₀ (by norm_num : (2 : ℚ) ≠ 0)]; congr 1; ring
      _ ≤ n := hn1q
  have hhigh : (n : ℚ) / d < (2 : ℚ) ^ ((bitLength n : ℤ) - (bitLength d : ℤ) + 1) := by
    rw [div_lt_iff₀ hdq]
    calc (n : ℚ) < 2 ^ (bitLength n : ℤ) := hn2q
      _ = 2 ^ ((bitLength n : ℤ) - (bitLength d : ℤ) + 1) * 2 ^ ((bitLength d : ℤ) - 1) := by
          rw [← zpow_add₀ (by norm_num : (2 : ℚ) ≠ 0)]; congr 1; ring
      _ ≤ 2 ^ ((bitLength n : ℤ) - (bitLength d : ℤ) + 1) * d :=
          mul_le_mul_of_nonneg_left hd1q (le_of_lt (zpow_pos h2 _))
  -- the test of floorLog2 compares the quotient with 2 ^ e0
  have hbelow : ∀ e0 : ℤ,
      ((if 0 ≤ e0 then decide (n < d * 2 ^ e0.toNat) else decide (n * 2 ^ (-e0).toNat < d))
        = true) ↔ (n : ℚ) / d < 2 ^ e0 := by
    intro e0
    by_cases he : 0 ≤ e0
    · rw [if_pos he, decide_eq_true_iff, div_lt_iff₀ hdq]
      obtain ⟨m, rfl⟩ := Int.eq_ofNat_of_zero_le he
      rw [Int.toNat_natCast, zpow_natCast, mul_comm]
      exact_mod_cast Iff.rfl
    · rw [if_neg he, decide_eq_true_iff, div_lt_iff₀ hdq]
      obtain ⟨m, hm⟩ := Int.eq_ofNat_of_zero_le (by omega : 0 ≤ -e0)
      have he0 : e0 = -(m : ℤ) := by omega
      rw [hm, Int.toNat_natCast, he0, zpow_neg, zpow_natCast]
      have hp : (0 : ℚ) < 2 ^ m := pow_pos h2 m
      rw [inv_mul_eq_div, lt_div_iff₀ hp]
      exact_mod_cast Iff.rfl
  unfold floorLog2
  simp only []
  by_cases hb : (n : ℚ) / d < 2 ^ ((bitLength n : ℤ) - (bitLength d : ℤ))
  · rw [if_pos ((hbelow _).2 hb)]
    refine ⟨le_of_lt hlow, ?_⟩
    have : (bitLength n : ℤ) - (bitLength d : ℤ) - 1 + 1 = (bitLength n : ℤ) - (bitLength d : ℤ) := by
      ring
    rw [this]; exact hb
  · rw [if_neg (fun h => hb ((hbelow _).1 h))]
    exact ⟨not_lt.1 hb, hhigh⟩

theorem roundHalfEven_error (n d : ℕ) (hd : 0 < d) :
    |((roundHalfEven n d : ℕ) : ℚ) - (n : ℚ) / d| ≤ 1 / 2 := by
  have hdq : (0 : ℚ) < d := by exact_mod_cast hd
  have hsplit : (n : ℚ) / d = ((n / d : ℕ) : ℚ) + ((n % d : ℕ) : ℚ) / d := by
    have h := Nat.div_add_mod n d
    have hq : (n : ℚ) = (d : ℚ) * ((n / d : ℕ) : ℚ) + ((n % d : ℕ) : ℚ) := by exact_mod_cast h.symm
    field_simp
    linarith
  have hr0 : (0 : ℚ) ≤ ((n % d : ℕ) : ℚ) / d := by positivity
  have hr1 : ((n % d : ℕ) : ℚ) / d < 1 := by
    rw [div_lt_one hdq]
    exact_mod_cast Nat.mod_lt n hd
  have hhalf : ∀ r : ℕ, (2 * r < d ↔ ((r : ℚ) / d < 1 / 2)) ∧ (d < 2 * r ↔ (1 / 2 < (r : ℚ) / d)) := by
    intro r
    constructor
    · rw [div_lt_iff₀ hdq]
      constructor
      · intro h
        have : ((2 * r : ℕ) : ℚ) < d := by exact_mod_cast h
        push_cast at this; linarith
      · intro h
        have : ((2 * r : ℕ) : ℚ) < d := by push_cast; linarith
        exact_mod_cast this
    · rw [lt_div_iff₀ hdq]
      constructor
      · intro h
        have : (d : ℚ) < ((2 * r : ℕ) : ℚ) := by exact_mod_cast h
        push_cast at this; linarith
      · intro h
        have : (d : ℚ) < ((2 * r : ℕ) : ℚ) := by push_cast; linarith
        exact_mod_cast this
  unfold roundHalfEven
  simp only []
  rw [hsplit, abs_le]
  by_cases h1 : 2 * (n % d) < d
  · rw [if_pos h1]
    have := ((hhalf (n % d)).1).1 h1
    constructor <;> linarith
  · rw [if_neg h1]
    by_cases h2 : d < 2 * (n % d)
    · rw [if_pos h2]
      have := ((hhalf (n % d)).2).1 h2
      push_cast
      constructor <;> linarith
    · rw [if_neg h2]
      have h3 : ¬ ((n % d : ℕ) : ℚ) / d < 1 / 2 := fun h => h1 (((hhalf (n % d)).1).2 h)
      have h4 : ¬ 1 / 2 < ((n % d : ℕ) : ℚ) / d := fun h => h2 (((hhalf (n % d)).2).2 h)
      have h5 : ((n % d : ℕ) : ℚ) / d = 1 / 2 := le_antisymm (not_lt.1 h4) (not_lt.1 h3)
      split
      · constructor <;> linarith
      · push_cast
        constructor <;> linarith

theorem roundMagnitude_error (n d : ℕ) (_hn : 0 < n) (hd : 0 < d) (r : ℚ)
    (h : roundMagnitude n d = some r) :
    |r - (n : ℚ) / d| ≤ 2 ^ (max (floorLog2 n d) (-1022) - 53) := by
  have hdq : (0 : ℚ) < d := by exact_mod_cast hd
  have h2 : (0 : ℚ) < 2 := by norm_num
  unfold roundMagnitude at h
  simp only [] at h
  by_cases hk : 0 ≤ max (floorLog2 n d) (-1022) - 52
  · rw [if_pos hk] at h
    obtain ⟨K, hK⟩ := Int.eq_ofNat_of_zero_le hk
    rw [hK, Int.toNat_natCast] at h
    split at h
    · cases h
    · have hr : r = ((roundHalfEven n (d * 2 ^ K) : ℕ) : ℚ) * 2 ^ K := by
        rw [← Option.some.inj h]; push_cast; ring
      have he := roundHalfEven_error n (d * 2 ^ K) (by positivity)
      have hp : (0 : ℚ) < 2 ^ K := pow_pos h2 K
      have hexp : max (floorLog2 n d) (-1022) - 53 = (K : ℤ) - 1 := by omega
      rw [hexp, zpow_sub₀ (by norm_num : (2 : ℚ) ≠ 0), zpow_natCast, zpow_one, hr]
      have hmul : ((roundHalfEven n (d * 2 ^ K) : ℕ) : ℚ) * 2 ^ K - (n : ℚ) / d =
          (((roundHalfEven n (d * 2 ^ K) : ℕ) : ℚ) - (n : ℚ) / ((d * 2 ^ K : ℕ) : ℚ)) * 2 ^ K := by
        push_cast
        field_simp
        ring
      rw [hmul, abs_mul, abs_of_pos hp]
      calc |((roundHalfEven n (d * 2 ^ K) : ℕ) : ℚ) - (n : ℚ) / ((d * 2 ^ K : ℕ) : ℚ)| * 2 ^ K
          ≤ 1 / 2 * 2 ^ K := mul_le_mul_of_nonneg_right he (le_of_lt hp)
        _ = 2 ^ K / 2 := by ring
  · rw [if_neg hk] at h
    obtain ⟨K, hK⟩ := Int.eq_ofNat_of_zero_le
      (by omega : 0 ≤ -(max (floorLog2 n d) (-1022) - 52))
    rw [hK, Int.toNat_natCast] at h
    have hp : (0 : ℚ) < 2 ^ K := pow_pos h2 K
    have hr : r = ((roundHalfEven (n * 2 ^ K) d : ℕ) : ℚ) / 2 ^ K := by
      rw [← Option.some.inj h, Rat.mkRat_eq_div]; push_cast; ring
    have he := roundHalfEven_error (n * 2 ^ K) d hd
    have hexp : max (floorLog2 n d) (-1022) - 53 = -(K : ℤ) - 1 := by omega
    rw [hexp, zpow_sub₀ (by norm_num : (2 : ℚ) ≠ 0), zpow_neg, zpow_natCast, zpow_one, hr]
    have hmul : ((roundHalfEven (n * 2 ^ K) d : ℕ) : ℚ) / 2 ^ K - (n : ℚ) / d =
        (((roundHalfEven (n * 2 ^ K) d : ℕ) : ℚ) - ((n * 2 ^ K : ℕ) : ℚ) / d) / 2 ^ K := by
      push_cast
      field_simp
      ring
    rw [hmul, abs_div, abs_of_pos hp]
    calc |((roundHalfEven (n * 2 ^ K) d : ℕ) : ℚ) - ((n * 2 ^ K : ℕ) : ℚ) / d| / 2 ^ K
        ≤ 1 / 2 / 2 ^ K := div_le_div_of_nonneg_right he (le_of_lt hp)
      _ = (2 ^ K)⁻¹ / 2 := by field_simp; ring

theorem scaled_round_error (n d K : ℕ) (hd : 0 < d) :
    |((roundHalfEven n (d * 2 ^ K) * 2 ^ K : ℕ) : ℚ) - (n : ℚ) / d| ≤ 2 ^ K / 2 := by
  have hdq : (0 : ℚ) < d := by exact_mod_cast hd
  have hp : (0 : ℚ) < 2 ^ K := pow_pos (by norm_num) K
  have he := roundHalfEven_error n (d * 2 ^ K) (by positivity)
  have hmul : ((roundHalfEven n (d * 2 ^ K) * 2 ^ K : ℕ) : ℚ) - (n : ℚ) / d =
      (((roundHalfEven n (d * 2 ^ K) : ℕ) : ℚ) - (n : ℚ) / ((d * 2 ^ K : ℕ) : ℚ)) * 2 ^ K := by
    push_cast
    field_simp
    ring
  rw [hmul, abs_mul, abs_of_pos hp]
  calc |((roundHalfEven n (d * 2 ^ K) : ℕ) : ℚ) - (n : ℚ) / ((d * 2 ^ K : ℕ) : ℚ)| * 2 ^ K
      ≤ 1 / 2 * 2 ^ K := mul_le_mul_of_nonneg_right he (le_of_lt hp)
    _ = 2 ^ K / 2 := by ring

theorem two_zpow_lt (a b : ℤ) (h : (2 : ℚ) ^ a < 2 ^ b) : a < b := by
  by_contra hc
  have : (2 : ℚ) ^ b ≤ 2 ^ a := zpow_le_zpow_right₀ (by norm_num) (not_lt.1 hc)
  exact absurd h (not_lt.2 this)

theorem not_two_pow_le (k m : ℕ) (hm : (m : ℚ) < 2 ^ k) : ¬ 2 ^ k ≤ m := by
  intro hc
  have hq : ((2 ^ k : ℕ) : ℚ) ≤ (m : ℚ) := Nat.cast_le.2 hc
  rw [Nat.cast_pow, Nat.cast_two] at hq
  linarith

theorem roundMagnitude_some_of_small (n d : ℕ) (hn : 0 < n) (hd : 0 < d)
    (h : (n : ℚ) / d < 2 ^ 1024 - 2 ^ 970) : ∃ r, roundMagnitude n d = some r := by
  obtain ⟨hlo, -⟩ := floorLog2_bounds n d hn hd
  have hfl : floorLog2 n d < 1024 := by
    apply two_zpow_lt
    calc (2 : ℚ) ^ floorLog2 n d ≤ (n : ℚ) / d := hlo
      _ < 2 ^ 1024 - 2 ^ 970 := h
      _ < 2 ^ (1024 : ℤ) := by norm_num
  unfold roundMagnitude
  simp only []
  by_cases hk : 0 ≤ max (floorLog2 n d) (-1022) - 52
  · rw [if_pos hk]
    obtain ⟨K, hK⟩ := Int.eq_ofNat_of_zero_le hk
    rw [hK, Int.toNat_natCast]
    have hK971 : K ≤ 971 := by omega
    have he := scaled_round_error n d K hd
    have hpow : (2 : ℚ) ^ K ≤ 2 ^ 971 := pow_le_pow_right₀ (by norm_num) hK971
    have hm : ((roundHalfEven n (d * 2 ^ K) * 2 ^ K : ℕ) : ℚ) < 2 ^ 1024 := by
      have := (abs_le.1 he).2
      have h970 : (2 : ℚ) ^ 971 / 2 = 2 ^ 970 := by norm_num
      linarith
    have hm2 : ¬ 2 ^ 1024 ≤ roundHalfEven n (d * 2 ^ K) * 2 ^ K :=
      not_two_pow_le 1024 _ hm
    rw [if_neg hm2]
    exact ⟨_, rfl⟩
  · rw [if_neg hk]
    exact ⟨_, rfl⟩

theorem roundMagnitude_none_of_large (n d : ℕ) (hn : 0 < n) (hd : 0 < d)
    (h : (2 : ℚ) ^ 1024 ≤ (n : ℚ) / d) : roundMagnitude n d = none := by
  obtain ⟨hlo, hhi⟩ := floorLog2_bounds n d hn hd
  have hdq : (0 : ℚ) < d := by exact_mod_cast hd
  have hfl : 1024 < floorLog2 n d + 1 := by
    apply two_zpow_lt
    calc (2 : ℚ) ^ (1024 : ℤ) = 2 ^ 1024 := by norm_num
      _ ≤ (n : ℚ) / d := h
      _ < 2 ^ (floorLog2 n d + 1) := hhi
  unfold roundMagnitude
  simp only []
  have hk : 0 ≤ max (floorLog2 n d) (-1022) - 52 := by omega
  rw [if_pos hk]
  obtain ⟨K, hK⟩ := Int.eq_ofNat_of_zero_le hk
  rw [hK, Int.toNat_natCast]
  have hfK : floorLog2 n d = ((K + 52 : ℕ) : ℤ) := by omega
  have hK972 : 972 ≤ K := by omega
  rw [hfK, zpow_natCast] at hlo
  -- the quotient by d * 2 ^ K is at least 2 ^ 52
  have hge : 2 ^ 52 * (d * 2 ^ K) ≤ n := by
    have h1 : (2 : ℚ) ^ (K + 52) * d ≤ n := (le_div_iff₀ hdq).1 hlo
    have h2 : ((2 ^ 52 * (d * 2 ^ K) : ℕ) : ℚ) ≤ (n : ℚ) := by
      push_cast
      calc (2 : ℚ) ^ 52 * ((d : ℚ) * 2 ^ K) = 2 ^ (K + 52) * d := by ring
        _ ≤ n := h1
    exact_mod_cast h2
  have hfloor : 2 ^ 52 ≤ n / (d * 2 ^ K) :=
    (Nat.le_div_iff_mul_le (by positivity)).2 hge
  have hround : 2 ^ 52 ≤ roundHalfEven n (d * 2 ^ K) := by
    unfold roundHalfEven
    simp only []
    split
    · exact hfloor
    · split
      · omega
      · split
        · exact hfloor
        · omega
  have hm : 2 ^ 1024 ≤ roundHalfEven n (d * 2 ^ K) * 2 ^ K := by
    calc 2 ^ 1024 = 2 ^ 52 * 2 ^ 972 := by norm_num
      _ ≤ roundHalfEven n (d * 2 ^ K) * 2 ^ K :=
        Nat.mul_le_mul hround (Nat.pow_le_pow_right (by norm_num) hK972)
  rw [if_pos hm]

theorem roundToDouble_nat_overflow (n d : ℕ) (hd : 0 < d)
    (h : (2 : ℚ) ^ 1024 ≤ (n : ℚ) / d) : roundToDouble (n : ℤ) d = .posInf := by
  have hdq : (0 : ℚ) < d := by exact_mod_cast hd
  have hn : 0 < n := by
    rcases Nat.eq_zero_or_pos n with rfl | hp
    · simp at h
      have : (0 : ℚ) < 2 ^ 1024 := by norm_num
      linarith
    · exact hp
  unfold roundToDouble
  have h0 : ¬ ((n : ℤ) = 0 ∨ d = 0) := by omega
  rw [if_neg h0, Int.natAbs_ofNat, roundMagnitude_none_of_large n d hn hd h]
  have : ¬ (n : ℤ) < 0 := by omega
  simp [this]

theorem roundToDouble_nat_finite (n d : ℕ) (hd : 0 < d)
    (h : (n : ℚ) / d < 2 ^ 1024 - 2 ^ 970) :
    ∃ x : ℚ, roundToDouble (n : ℤ) d = .finite x ∧
      |x - (n : ℚ) / d| ≤ max ((n : ℚ) / d / 2 ^ 53) (1 / 2 ^ 1075) := by
  rcases Nat.eq_zero_or_pos n with rfl | hn
  · refine ⟨0, by simp [roundToDouble], ?_⟩
    simp
  · obtain ⟨r, hr⟩ := roundMagnitude_some_of_small n d hn hd h
    have herr := roundMagnitude_error n d hn hd r hr
    obtain ⟨hlo, -⟩ := floorLog2_bounds n d hn hd
    refine ⟨r, ?_, le_trans herr ?_⟩
    · unfold roundToDouble
      have h0 : ¬ ((n : ℤ) = 0 ∨ d = 0) := by omega
      have : ¬ (n : ℤ) < 0 := by omega
      rw [if_neg h0, Int.natAbs_ofNat, hr]
      simp [this]
    · by_cases hc : floorLog2 n d ≤ -1022
      · rw [max_eq_right hc]
        apply le_max_of_le_right
        have : (-1022 - 53 : ℤ) = -((1075 : ℕ) : ℤ) := by norm_num
        rw [this, zpow_neg, zpow_natCast]
        simp
      · rw [max_eq_left (by omega)]
        apply le_max_of_le_left
        rw [zpow_sub₀ (by norm_num : (2 : ℚ) ≠ 0)]
        have h53 : (2 : ℚ) ^ (53 : ℤ) = 2 ^ 53 := by norm_num
        rw [h53]
        exact div_le_div_of_nonneg_right hlo (by positivity)

/-! ## `transformAndValidateDecimal` -/

theorem replaceFirst_not_mem (a b : Char) (s : JSString) (h : a ∉ s) :
    replaceFirst a b s = s := by
  induction s with
  | nil => rfl
  | cons c cs ih =>
    have hc : c ≠ a := fun e => h (by rw [e]; exact List.mem_cons_self _ _)
    have := ih (fun hm => h (List.mem_cons_of_mem _ hm))
    simp [replaceFirst, hc, this]

theorem replaceFirst_append (a b : Char) (s t : JSString) (h : a ∉ s) :
    replaceFirst a b (s ++ a :: t) = s ++ b :: t := by
  induction s with
  | nil => simp [replaceFirst]
  | cons c cs ih =>
    have hc : c ≠ a := fun e => h (by rw [e]; exact List.mem_cons_self _ _)
    have := ih (fun hm => h (List.mem_cons_of_mem _ hm))
    simp [replaceFirst, hc, this]

theorem comma_not_mem_digits (a : JSString) (ha : ∀ x ∈ a, isDecimalDigit x = true) :
    ',' ∉ a := fun h => absurd (ha _ h) (by decide)

theorem replaceFirst_append_of_not_mem (a b : Char) (s t : JSString) (h : a ∉ s) :
    replaceFirst a b (s ++ t) = s ++ replaceFirst a b t := by
  induction s with
  | nil => rfl
  | cons c cs ih =>
    have hc : c ≠ a := fun e => h (by rw [e]; exact List.mem_cons_self _ _)
    have := ih (fun hm => h (List.mem_cons_of_mem _ hm))
    simp [replaceFirst, hc, this]

theorem transformAndValidateDecimal_of_parse (value : JSString) (n : JSNumber)
    (h : parseFloat (replaceFirst ',' '.' value) = n) :
    transformAndValidateDecimal value = finiteOrNull n := by
  unfold transformAndValidateDecimal
  simp only [h]
  cases n <;> simp [isNaN, isFinite, finiteOrNull]

theorem comma_not_mem_decimal (a b : JSString) (had : ∀ x ∈ a, isDecimalDigit x = true)
    (hbd : ∀ x ∈ b, isDecimalDigit x = true) : ',' ∉ a ++ '.' :: b := by
  intro h
  rcases List.mem_append.1 h with h | h
  · exact comma_not_mem_digits a had h
  · rcases List.mem_cons.1 h with h | h
    · exact absurd h (by decide)
    · exact comma_not_mem_digits b hbd h

theorem transformAndValidateDecimal_dot (a b : JSString) (ha : a ≠ [])
    (had : ∀ x ∈ a, isDecimalDigit x = true) (hb : b ≠ [])
    (hbd : ∀ x ∈ b, isDecimalDigit x = true) :
    transformAndValidateDecimal (a ++ '.' :: b) =
      finiteOrNull (decimalNumber a b) := by
  apply transformAndValidateDecimal_of_parse
  rw [replaceFirst_not_mem _ _ _ (comma_not_mem_decimal a b had hbd)]
  have := parseFloat_decimal a b [] ha had hb hbd rfl
  simpa using this

theorem transformAndValidateDecimal_comma_tail (a b t : JSString) (ha : a ≠ [])
    (had : ∀ x ∈ a, isDecimalDigit x = true) (hb : b ≠ [])
    (hbd : ∀ x ∈ b, isDecimalDigit x = true) (ht : stopsLiteral t = true) :
    transformAndValidateDecimal (a ++ ',' :: (b ++ t)) =
      finiteOrNull (decimalNumber a b) := by
  apply transformAndValidateDecimal_of_parse
  rw [replaceFirst_append _ _ _ _ (comma_not_mem_digits a had)]
  exact parseFloat_decimal a b t ha had hb hbd ht

theorem transformAndValidateDecimal_dot_comma (a b t : JSString) (ha : a ≠ [])
    (had : ∀ x ∈ a, isDecimalDigit x = true) (hb : b ≠ [])
    (hbd : ∀ x ∈ b, isDecimalDigit x = true) :
    transformAndValidateDecimal (a ++ '.' :: (b ++ ',' :: t)) =
      finiteOrNull (decimalNumber a b) := by
  apply transformAndValidateDecimal_of_parse
  have h : a ++ '.' :: (b ++ ',' :: t) = (a ++ '.' :: b) ++ ',' :: t := by simp
  rw [h, replaceFirst_append _ _ _ _ (comma_not_mem_decimal a b had hbd)]
  have h2 : (a ++ '.' :: b) ++ '.' :: t = a ++ '.' :: (b ++ '.' :: t) := by simp
  rw [h2]
  exact parseFloat_decimal a b ('.' :: t) ha had hb hbd rfl

theorem stopsLiteral_replaceFirst (c : Char) (t : JSString) (hc : c ≠ ',')
    (h : stopsLiteral (c :: t) = true) :
    replaceFirst ',' '.' (c :: t) = c :: replaceFirst ',' '.' t ∧
      stopsLiteral (c :: replaceFirst ',' '.' t) = true := by
  constructor
  · simp [replaceFirst, hc]
  · exact h

theorem transformAndValidateDecimal_integer_tail (a t : JSString) (c : Char) (ha : a ≠ [])
    (had : ∀ x ∈ a, isDecimalDigit x = true) (hc : stopsLiteral (c :: t) = true)
    (hdot : c ≠ '.') (hcomma : c ≠ ',') :
    transformAndValidateDecimal (a ++ c :: t) =
      finiteOrNull (roundToDouble (decimalValue a) 1) := by
  apply transformAndValidateDecimal_of_parse
  rw [replaceFirst_append_of_not_mem _ _ _ _ (comma_not_mem_digits a had),
    (stopsLiteral_replaceFirst c t hcomma hc).1]
  exact parseFloat_integer a _ ha had (stopsLiteral_replaceFirst c t hcomma hc).2
    (by simpa using hdot)

theorem transformAndValidateDecimal_integer (a : JSString) (ha : a ≠ [])
    (had : ∀ x ∈ a, isDecimalDigit x = true) :
    transformAndValidateDecimal a =
      finiteOrNull (roundToDouble (decimalValue a) 1) := by
  apply transformAndValidateDecimal_of_parse
  rw [replaceFirst_not_mem _ _ _ (comma_not_mem_digits a had)]
  have := parseFloat_integer a [] ha had rfl (by simp)
  simpa using this

theorem decimalValue_append (a b : JSString) :
    decimalValue (a ++ b) = decimalValue a * 10 ^ b.length + decimalValue b := by
  unfold decimalValue
  rw [List.foldl_append]
  generalize List.foldl (fun acc c => acc * 10 + digitValue c) 0 a = x
  induction b generalizing x with
  | nil => simp
  | cons c cs ih =>
    simp only [List.foldl_cons, List.length_cons]
    rw [ih (x * 10 + digitValue c), ih (0 * 10 + digitValue c)]
    ring

theorem digitValue_le (c : Char) (h : isDecimalDigit c = true) : digitValue c ≤ 9 := by
  have h := digit_cases h
  simp only [String.toList, List.mem_cons, List.mem_singleton, List.not_mem_nil,
    or_false] at h
  rcases h with rfl | rfl | rfl | rfl | rfl | rfl | rfl | rfl | rfl | rfl <;> decide

theorem decimalValue_lt (a : JSString) (had : ∀ x ∈ a, isDecimalDigit x = true) :
    decimalValue a < 10 ^ a.length := by
  induction a using List.reverseRecOn with
  | nil => simp [decimalValue]
  | append_singleton cs c ih =>
    have hc := digitValue_le c (had c (by simp))
    have := ih (fun x hx => had x (by simp [hx]))
    rw [decimalValue_append]
    have h1 : decimalValue [c] = digitValue c := by simp [decimalValue]
    rw [h1, List.length_append, List.length_singleton, pow_succ, pow_zero, pow_succ]
    omega

theorem decimal_quotient_lt (a b : JSString) (had : ∀ x ∈ a, isDecimalDigit x = true)
    (hbd : ∀ x ∈ b, isDecimalDigit x = true) :
    ((decimalValue (a ++ b) : ℕ) : ℚ) / ((10 ^ b.length : ℕ) : ℚ) < 10 ^ a.length := by
  have h1 := decimalValue_lt a had
  have h2 := decimalValue_lt b hbd
  have hp : (0 : ℚ) < ((10 ^ b.length : ℕ) : ℚ) := by positivity
  rw [div_lt_iff₀ hp, decimalValue_append]
  have : decimalValue a * 10 ^ b.length + decimalValue b < 10 ^ a.length * 10 ^ b.length := by
    have : (decimalValue a + 1) * 10 ^ b.length ≤ 10 ^ a.length * 10 ^ b.length :=
      Nat.mul_le_mul_right _ h1
    nlinarith
  exact_mod_cast this

theorem decimal_quotient_ge (a b : JSString) :
    ((decimalValue a : ℕ) : ℚ) ≤
      ((decimalValue (a ++ b) : ℕ) : ℚ) / ((10 ^ b.length : ℕ) : ℚ) := by
  have hp : (0 : ℚ) < ((10 ^ b.length : ℕ) : ℚ) := by positivity
  rw [le_div_iff₀ hp, decimalValue_append]
  have : decimalValue a * 10 ^ b.length ≤ decimalValue a * 10 ^ b.length + decimalValue b := by
    omega
  exact_mod_cast this

theorem decimalNumber_finite (a b : JSString) (had : ∀ x ∈ a, isDecimalDigit x = true)
    (hbd : ∀ x ∈ b, isDecimalDigit x = true) (hlen : a.length ≤ 308) :
    ∃ x : ℚ, decimalNumber a b = .finite x ∧
      |x - ((decimalValue (a ++ b) : ℕ) : ℚ) / ((10 ^ b.length : ℕ) : ℚ)| ≤
        max (((decimalValue (a ++ b) : ℕ) : ℚ) / ((10 ^ b.length : ℕ) : ℚ) / 2 ^ 53)
          (1 / 2 ^ 1075) := by
  apply roundToDouble_nat_finite _ _ (by positivity)
  have h1 := decimal_quotient_lt a b had hbd
  have h2 : (10 : ℚ) ^ a.length ≤ 10 ^ 308 := pow_le_pow_right₀ (by norm_num) hlen
  have h3 : (10 : ℚ) ^ 308 < 2 ^ 1024 - 2 ^ 970 := by norm_num
  linarith

theorem decimalNumber_overflow (a b : JSString)
    (h : (2 : ℚ) ^ 1024 ≤ ((decimalValue a : ℕ) : ℚ)) :
    decimalNumber a b = .posInf := by
  apply roundToDouble_nat_overflow _ _ (by positivity)
  exact le_trans h (decimal_quotient_ge a b)

theorem digits_one_zeros (k : ℕ) : (∀ x ∈ '1' :: List.replicate k '0', isDecimalDigit x = true) := by
  intro x hx
  rcases List.mem_cons.1 hx with rfl | h
  · rfl
  · rw [List.eq_of_mem_replicate h]; rfl

theorem decimalValue_one_zeros (k : ℕ) :
    decimalValue ('1' :: List.replicate k '0') = 10 ^ k := by
  have h : ∀ k x, List.foldl (fun acc c => acc * 10 + digitValue c) x (List.replicate k '0')
      = x * 10 ^ k := by
    intro k
    induction k with
    | zero => intro x; simp
    | succ k ih =>
      intro x
      rw [List.replicate_succ, List.foldl_cons, ih]
      have : digitValue '0' = 0 := rfl
      rw [this, pow_succ]; ring
  unfold decimalValue
  rw [List.foldl_cons, h]
  have : digitValue '1' = 1 := rfl
  rw [this]; ring

theorem two_pow_1024_le : (2 : ℚ) ^ 1024 ≤ ((10 ^ 309 : ℕ) : ℚ) := by
  norm_num

theorem huge_integer_null :
    transformAndValidateDecimal ('1' :: List.replicate 309 '0') = .null := by
  rw [transformAndValidateDecimal_integer _ (List.cons_ne_nil _ _) (digits_one_zeros 309),
    decimalValue_one_zeros, roundToDouble_nat_overflow _ 1 Nat.one_pos]
  · rfl
  · rw [Nat.cast_one, div_one]
    exact two_pow_1024_le

theorem huge_decimal_null :
    transformAndValidateDecimal (('1' :: List.replicate 309 '0') ++ ',' :: ['0']) = .null := by
  have h := transformAndValidateDecimal_comma_tail ('1' :: List.replicate 309 '0') ['0'] []
    (List.cons_ne_nil _ _) (digits_one_zeros 309) (List.cons_ne_nil _ _) (by decide) rfl
  rw [List.append_nil] at h
  rw [h, decimalNumber_overflow]
  · rfl
  · rw [decimalValue_one_zeros]
    exact two_pow_1024_le

/-- C12: `transformAndValidateDecimal` is total and returns either `null` or a finite
number; it returns `null` whenever the text, after the comma replacement, does not start
with numeric text (as for 'abc'), and whenever the parsed value is not finite (as for
'Infinity' and for the 310-digit integer 10^309). -/
theorem transformAndValidateDecimal_null_or_finite (value : JSString) :
    (transformAndValidateDecimal value = .null ∨
        ∃ x, transformAndValidateDecimal value = .num (.finite x)) ∧
      (startsWithNumber (replaceFirst ',' '.' value) = false →
        transformAndValidateDecimal value = .null) ∧
      (isFinite (parseFloat (replaceFirst ',' '.' value)) = false →
        transformAndValidateDecimal value = .null) ∧
      transformAndValidateDecimal "abc".toList = .null ∧
      transformAndValidateDecimal "Infinity".toList = .null ∧
      transformAndValidateDecimal ('1' :: List.replicate 309 '0') = .null :=
  ⟨transformAndValidateDecimal_cases value,
    fun h => transformAndValidateDecimal_of_not_finite value
      (parseFloat_of_not_startsWithNumber _ h),
    transformAndValidateDecimal_of_not_finite value, by decide, by decide, huge_integer_null⟩

/-- Example of C12: 'abc' does not start with numeric text and gives `null`. -/
theorem transformAndValidateDecimal_null_or_finite_witness :
    startsWithNumber (replaceFirst ',' '.' "abc".toList) = false ∧
      transformAndValidateDecimal "abc".toList = .null :=
  ⟨by decide, (transformAndValidateDecimal_null_or_finite "abc".toList).2.1 (by decide)⟩

/-- C13, the case that fails: for a = 1 followed by 309 zeros and b = 0, both strings of
decimal digits, the value of a + ',' + b is `null` and not a number, because the decimal
number a.b is beyond the binary64 range. -/
theorem decimal_comma_overflow_null :
    (∀ x ∈ '1' :: List.replicate 309 '0', isDecimalDigit x = true) ∧
      isDecimalDigit '0' = true ∧
      transformAndValidateDecimal (('1' :: List.replicate 309 '0') ++ ',' :: ['0']) = .null ∧
      transformAndValidateDecimal (('1' :: List.replicate 309 '0') ++ '.' :: ['0']) = .null :=
  ⟨digits_one_zeros 309, rfl, huge_decimal_null, by
    rw [transformAndValidateDecimal_dot _ _ (List.cons_ne_nil _ _) (digits_one_zeros 309)
      (List.cons_ne_nil _ _) (by decide), decimalNumber_overflow]
    · rfl
    · rw [decimalValue_one_zeros]
      exact two_pow_1024_le⟩

/-- C13, amended: for non-empty strings of decimal digits a and b,
`transformAndValidateDecimal` returns on a + ',' + b what it returns on a + '.' + b: the
binary64 number nearest to the decimal number a.b when that is finite, and `null` when it
overflows. With at most 308 digits in a the result is a number within half a unit in the
last place of a.b; when a is 2 ^ 1024 or more the result is `null`. '1234,56' gives the
binary64 number 1234.56. -/
theorem transformAndValidateDecimal_comma_decimal (a b : JSString) (ha : a ≠ [])
    (had : ∀ x ∈ a, isDecimalDigit x = true) (hb : b ≠ [])
    (hbd : ∀ x ∈ b, isDecimalDigit x = true) :
    transformAndValidateDecimal (a ++ ',' :: b) = transformAndValidateDecimal (a ++ '.' :: b) ∧
      transformAndValidateDecimal (a ++ ',' :: b) =
        finiteOrNull (roundToDouble (decimalValue (a ++ b)) (10 ^ b.length)) ∧
      (a.length ≤ 308 →
        ∃ x : ℚ, transformAndValidateDecimal (a ++ ',' :: b) = .num (.finite x) ∧
          |x - ((decimalValue (a ++ b) : ℕ) : ℚ) / ((10 ^ b.length : ℕ) : ℚ)| ≤
            max (((decimalValue (a ++ b) : ℕ) : ℚ) / ((10 ^ b.length : ℕ) : ℚ) / 2 ^ 53)
              (1 / 2 ^ 1075)) ∧
      ((2 : ℚ) ^ 1024 ≤ ((decimalValue a : ℕ) : ℚ) →
        transformAndValidateDecimal (a ++ ',' :: b) = .null) ∧
      transformAndValidateDecimal "1234,56".toList =
        .num (.finite (mkRat 2714826150374277 2199023255552)) := by
  have hc := transformAndValidateDecimal_comma_tail a b [] ha had hb hbd rfl
  rw [List.append_nil] at hc
  refine ⟨by rw [hc, transformAndValidateDecimal_dot a b ha had hb hbd], hc, ?_, ?_, by decide⟩
  · intro hlen
    obtain ⟨x, hx, hxe⟩ := decimalNumber_finite a b had hbd hlen
    exact ⟨x, by rw [hc, hx]; rfl, hxe⟩
  · intro hbig
    rw [hc, decimalNumber_overflow a b hbig]
    rfl

/-- Example of C13: '1234,56' and '1234.56' give the same number, within 2 ^ -43 of
1234.56. -/
theorem transformAndValidateDecimal_comma_decimal_witness :
    transformAndValidateDecimal "1234,56".toList = transformAndValidateDecimal "1234.56".toList ∧
      transformAndValidateDecimal "1234,56".toList =
        .num (.finite (mkRat 2714826150374277 2199023255552)) ∧
      |(mkRat 2714826150374277 2199023255552 : ℚ) - 123456 / 100| ≤ 1 / 2 ^ 43 :=
  have h := transformAndValidateDecimal_comma_decimal "1234".toList "56".toList (by decide)
    (by decide) (by decide) (by decide)
  ⟨h.1, h.2.2.2.2, by rw [Rat.mkRat_eq_div]; norm_num [abs_le]⟩

/-- C19: `transformAndValidateDecimal` replaces only the first comma and parses only the
longest leading numeric prefix. For non-empty strings of decimal digits a and b: what
follows a + ',' + b, further commas included, is ignored when it does not continue the
literal; in a + '.' + b + ',' + t the comma and all that follows are ignored; and a
followed by a code point that is no digit, dot, comma or exponent sign gives the number a.
'1.234,56' and '1,234,56' give 1.234 (which '1234.56' does not give) and '12abc' gives
12. -/
theorem transformAndValidateDecimal_first_comma_prefix (a b : JSString) (ha : a ≠ [])
    (had : ∀ x ∈ a, isDecimalDigit x = true) (hb : b ≠ [])
    (hbd : ∀ x ∈ b, isDecimalDigit x = true) :
    (∀ t, stopsLiteral t = true →
        transformAndValidateDecimal (a ++ ',' :: (b ++ t)) =
          transformAndValidateDecimal (a ++ '.' :: b)) ∧
      (∀ t, transformAndValidateDecimal (a ++ '.' :: (b ++ ',' :: t)) =
          transformAndValidateDecimal (a ++ '.' :: b)) ∧
      (∀ c t, stopsLiteral (c :: t) = true → c ≠ '.' → c ≠ ',' →
        transformAndValidateDecimal (a ++ c :: t) = transformAndValidateDecimal a) ∧
      transformAndValidateDecimal "1.234,56".toList =
        .num (.finite (mkRat 694680242521899 562949953421312)) ∧
      transformAndValidateDecimal "1,234,56".toList =
        .num (.finite (mkRat 694680242521899 562949953421312)) ∧
      transformAndValidateDecimal "1.234,56".toList ≠
        transformAndValidateDecimal "1234.56".toList ∧
      transformAndValidateDecimal "12abc".toList = .num (.finite 12) := by
  refine ⟨?_, ?_, ?_, by decide, by decide, by decide, by decide⟩
  · intro t ht
    rw [transformAndValidateDecimal_comma_tail a b t ha had hb hbd ht,
      transformAndValidateDecimal_dot a b ha had hb hbd]
  · intro t
    rw [transformAndValidateDecimal_dot_comma a b t ha had hb hbd,
      transformAndValidateDecimal_dot a b ha had hb hbd]
  · intro c t hc hdot hcomma
    rw [transformAndValidateDecimal_integer_tail a t c ha had hc hdot hcomma,
      transformAndValidateDecimal_integer a ha had]

/-- Example of C19: in '1,234,56' only the first comma becomes a dot and ',56' is
ignored, and in '12abc' the tail 'abc' is ignored. -/
theorem transformAndValidateDecimal_first_comma_prefix_witness :
    transformAndValidateDecimal "1,234,56".toList = transformAndValidateDecimal "1.234".toList ∧
      transformAndValidateDecimal "12abc".toList = transformAndValidateDecimal "12".toList :=
  have h := transformAndValidateDecimal_first_comma_prefix "1".toList "234".toList (by decide)
    (by decide) (by decide) (by decide)
  have h12 := transformAndValidateDecimal_first_comma_prefix "12".toList "0".toList (by decide)
    (by decide) (by decide) (by decide)
  ⟨h.1 ",56".toList (by decide), h12.2.2.1 'a' "bc".toList (by decide) (by decide) (by decide)⟩

/-! ## Sanitized fields of a record -/

theorem filter_decide_cons_pos (p : Char → Prop) [DecidablePred p] (a : Char)
    (l : List Char) (h : p a) :
    (a :: l).filter (fun c => decide (p c)) = a :: l.filter (fun c => decide (p c)) :=
  List.filter_cons_of_pos (decide_eq_true h)

theorem filter_decide_cons_neg (p : Char → Prop) [DecidablePred p] (a : Char)
    (l : List Char) (h : ¬p a) :
    (a :: l).filter (fun c => decide (p c)) = l.filter (fun c => decide (p c)) :=
  List.filter_cons_of_neg (by simpa using h)

theorem normalizeAndSanitize_keeps_spaces (E : Engine) (raw : JSString) :
    normalizeAndSanitize E raw (some false) (some true) =
      ((toUpperCase E ((nfd E raw).filter (fun c => decide (c ≠ '.' ∧ c ≠ ',')))).filter
        (fun c => decide (¬(0x300 ≤ c.toNat ∧ c.toNat ≤ 0x36F)))).filter
        (fun c => decide (c ≠ '\n' ∧ c ≠ '\r')) := by
  rw [normalizeAndSanitize_eq_steps]
  rfl

theorem normalizeAndSanitize_ascii_keeps_spaces (E : Engine) (raw : JSString)
    (h : ∀ c ∈ raw, c.toNat < 128) :
    normalizeAndSanitize E raw (some false) (some true) =
      (raw.filter (fun c => decide (c ∉ ['.', ',', '\n', '\r']))).map Char.toUpper := by
  rw [normalizeAndSanitize_keeps_spaces, nfd, nfdFrom_ascii E raw h,
    toUpperCase_ascii E _ (fun c hc => h c (List.mem_of_mem_filter hc))]
  induction raw with
  | nil => rfl
  | cons c cs ih =>
    have hc : c.toNat < 128 := h c (List.mem_cons_self _ _)
    have ih' := ih (fun x hx => h x (List.mem_cons_of_mem _ hx))
    have hup : asciiUpper c = c.toUpper := rfl
    have hcomb : ¬(0x300 ≤ (asciiUpper c).toNat ∧ (asciiUpper c).toNat ≤ 0x36F) := by
      have := asciiUpper_lt c hc
      omega
    have hnl : (asciiUpper c ≠ '\n' ∧ asciiUpper c ≠ '\r') ↔ (c ≠ '\n' ∧ c ≠ '\r') := by
      constructor
      · rintro ⟨h1, h2⟩
        exact ⟨fun e => h1 (by rw [e]; decide), fun e => h2 (by rw [e]; decide)⟩
      · rintro ⟨h1, h2⟩
        exact ⟨fun e => h1 (asciiUpper_eq_of_mem c _ (by decide) e),
          fun e => h2 (asciiUpper_eq_of_mem c _ (by decide) e)⟩
    by_cases hd : c = '.' ∨ c = ','
    · have h1 : ¬(c ≠ '.' ∧ c ≠ ',') := by
        rcases hd with rfl | rfl <;> simp
      have h2 : ¬(c ∉ ['.', ',', '\n', '\r']) := by
        rcases hd with rfl | rfl <;> simp
      rw [filter_decide_cons_neg (fun c => c ≠ '.' ∧ c ≠ ',') c cs h1,
        filter_decide_cons_neg (fun c => c ∉ ['.', ',', '\n', '\r']) c cs h2]
      exact ih'
    · have h1 : c ≠ '.' ∧ c ≠ ',' := by
        simpa [not_or] using hd
      rw [filter_decide_cons_pos (fun c => c ≠ '.' ∧ c ≠ ',') c cs h1, List.map_cons,
        filter_decide_cons_pos (fun c => ¬(0x300 ≤ c.toNat ∧ c.toNat ≤ 0x36F)) _ _ hcomb]
      by_cases hn : c = '\n' ∨ c = '\r'
      · have h2 : ¬(c ∉ ['.', ',', '\n', '\r']) := by
          rcases hn with rfl | rfl <;> simp
        have h3 : ¬(asciiUpper c ≠ '\n' ∧ asciiUpper c ≠ '\r') := by
          rw [hnl]; rcases hn with rfl | rfl <;> simp
        rw [filter_decide_cons_neg (fun c => c ≠ '\n' ∧ c ≠ '\r') _ _ h3,
          filter_decide_cons_neg (fun c => c ∉ ['.', ',', '\n', '\r']) c cs h2]
        exact ih'
      · have hn' : c ≠ '\n' ∧ c ≠ '\r' := by simpa [not_or] using hn
        have h2 : c ∉ ['.', ',', '\n', '\r'] := by
          simp [h1.1, h1.2, hn'.1, hn'.2]
        have h3 : asciiUpper c ≠ '\n' ∧ asciiUpper c ≠ '\r' := hnl.2 hn'
        rw [filter_decide_cons_pos (fun c => c ≠ '\n' ∧ c ≠ '\r') _ _ h3,
          filter_decide_cons_pos (fun c => c ∉ ['.', ',', '\n', '\r']) c cs h2, List.map_cons,
          ih', hup]

/-- C20, as stated, fails for line breaks, which are white space: the row whose
`Nombre_Huerto` is 'Rancho', line feed, 'El Sol.' is built into a record whose
`Nombre_Huerto` is 'RANCHOEL SOL'. -/
theorem sanitize_field_drops_line_break :
    isWhiteSpace '\n' = true ∧
      (recordOf asciiEngine (sampleRowOfHuerto "Rancho\nEl Sol.")).map
        (fun r => r.get "Nombre_Huerto") = some (.str "RANCHOEL SOL".toList) := by
  decide

/-- C20, amended. In a record built from a row, each of the seven fields that the
registry marks as sanitize is `normalizeAndSanitize(raw, false, true)`, because no
registry entry has `params`: NFD, '.' and ',' removed, upper-cased, combining marks and
line feeds and carriage returns removed, and no white space turned into '_'. On an ASCII
text the result is the text without '.', ',', line feed and carriage return, upper-cased,
so every other white space is kept; 'Rancho El Sol.' gives 'RANCHO EL SOL'. -/
theorem sanitize_fields_keep_spaces (E : Engine) (data : Row) (r : Record)
    (h : processRow E data HEADERS [] = .ok (some r)) :
    (HEADERS.filter (fun header => header.process = "sanitize")).map (fun header => header.name) =
        ["Fruta", "Centro_acopio", "Estado", "PR_Productor", "Nombre_Productor",
          "Nombre_Huerto", "Variedad"] ∧
      (∀ header ∈ HEADERS, header.params.isNone = true) ∧
      (∀ field ∈ ["Fruta", "Centro_acopio", "Estado", "PR_Productor", "Nombre_Productor",
          "Nombre_Huerto", "Variedad"],
        r.get field = .str (normalizeAndSanitize E (data.text field) (some false) (some true))) ∧
      (∀ raw, normalizeAndSanitize E raw (some false) (some true) =
        ((toUpperCase E ((nfd E raw).filter (fun c => decide (c ≠ '.' ∧ c ≠ ',')))).filter
          (fun c => decide (¬(0x300 ≤ c.toNat ∧ c.toNat ≤ 0x36F)))).filter
          (fun c => decide (c ≠ '\n' ∧ c ≠ '\r'))) ∧
      (∀ raw : JSString, (∀ c ∈ raw, c.toNat < 128) →
        normalizeAndSanitize E raw (some false) (some true) =
          (raw.filter (fun c => decide (c ∉ ['.', ',', '\n', '\r']))).map Char.toUpper) ∧
      normalizeAndSanitize E "Rancho El Sol.".toList (some false) (some true) =
        "RANCHO EL SOL".toList := by
  obtain ⟨_, my, fecha, _, _, rfl⟩ := processRow_ok E data r h
  refine ⟨by decide, by decide, ?_, normalizeAndSanitize_keeps_spaces E,
    normalizeAndSanitize_ascii_keeps_spaces E, ?_⟩
  · intro field hf
    simp only [List.mem_cons, List.mem_singleton, List.not_mem_nil, or_false] at hf
    rcases hf with rfl | rfl | rfl | rfl | rfl | rfl | rfl <;> rfl
  · rw [normalizeAndSanitize_ascii_keeps_spaces E _ (by decide)]
    decide

/-- The theorem `sanitize_fields_keep_spaces` on a full row whose `Nombre_Huerto` is
'Rancho El Sol.': the record holds 'RANCHO EL SOL'. -/
theorem sanitize_fields_keep_spaces_witness :
    processRow asciiEngine (sampleRow "B" "12" "jun-23" "1/2/2023") HEADERS [] =
        .ok (some ((recordOf asciiEngine (sampleRow "B" "12" "jun-23" "1/2/2023")).getD [])) ∧
      ((recordOf asciiEngine (sampleRow "B" "12" "jun-23" "1/2/2023")).getD []).get
          "Nombre_Huerto" = .str "RANCHO EL SOL".toList :=
  have h : processRow asciiEngine (sampleRow "B" "12" "jun-23" "1/2/2023") HEADERS [] =
      .ok (some ((recordOf asciiEngine (sampleRow "B" "12" "jun-23" "1/2/2023")).getD [])) := by
    decide
  ⟨h, ((sanitize_fields_keep_spaces asciiEngine _ _ h).2.2.1 "Nombre_Huerto"
    (by decide)).trans (by decide)⟩

/-! ## Setup and report failures -/

theorem run_of_rejected {σ : Type} (E : Engine) (W : World σ) (e : JSString)
    (h : readCsvFile E W.csv = .rejected e) :
    comparative_projection_vs_real_2022_2023 E W =
      .completed ⟨[generalError e], none, none, none⟩ := by
  unfold comparative_projection_vs_real_2022_2023
  rw [h]

theorem run_of_connect_error {σ : Type} (E : Engine) (W : World σ) (dataArray : List Record)
    (e : JSString) (h : readCsvFile E W.csv = .resolved dataArray) (hc : W.connect = .error e) :
    comparative_projection_vs_real_2022_2023 E W =
      .completed ⟨[generalError e], none, none, none⟩ := by
  unfold comparative_projection_vs_real_2022_2023
  rw [h]
  simp only [hc]

theorem run_of_uncaught {σ : Type} (E : Engine) (W : World σ) (e : JSString)
    (h : readCsvFile E W.csv = .uncaught e) :
    comparative_projection_vs_real_2022_2023 E W = .crashed e := by
  unfold comparative_projection_vs_real_2022_2023
  rw [h]

/-- The part of C16 that holds: when `readCsvFile` rejects (an error of the CSV parser),
or resolves and the connection to the enrichment source fails, the run completes with the
single entry 'General processing error: <message>', makes no lookup and calls no
report. -/
theorem setup_failure_single_general_entry {σ : Type} (E : Engine) (W : World σ)
    (e : JSString)
    (h : readCsvFile E W.csv = .rejected e ∨
      ((∃ dataArray, readCsvFile E W.csv = .resolved dataArray) ∧ W.connect = .error e)) :
    comparative_projection_vs_real_2022_2023 E W =
      .completed ⟨[generalError e], none, none, none⟩ := by
  rcases h with h | ⟨⟨dataArray, h⟩, hc⟩
  · exact run_of_rejected E W e h
  · exact run_of_connect_error E W dataArray e h hc

/-- The theorem `setup_failure_single_general_entry` on the world of `sampleRun` in which
the connection is refused: the single entry is the general one. -/
theorem setup_failure_single_general_entry_witness :
    comparative_projection_vs_real_2022_2023 asciiEngine
        { sampleWorld sampleRun with connect := .error "Login failed".toList } =
      .completed ⟨["General processing error: Login failed".toList], none, none, none⟩ :=
  setup_failure_single_general_entry asciiEngine
    { sampleWorld sampleRun with connect := .error "Login failed".toList }
    "Login failed".toList
    (Or.inr ⟨⟨sampleRun.filterMap (recordOf asciiEngine),
      (by decide : readCsvFile asciiEngine ⟨sampleRun, none⟩ =
        .resolved (sampleRun.filterMap (recordOf asciiEngine)))⟩, rfl⟩)

/-- C16 at a source file that cannot be opened: the `'error'` event of the file stream
has no listener, so for every world the run ends with the uncaught error and no error
list holds a 'General processing error' entry; the same error raised by the parser
gives the single entry. -/
theorem unreadable_file_ends_run_uncaught {σ : Type} (E : Engine) (W : World σ)
    (message : JSString) :
    comparative_projection_vs_real_2022_2023 E
        { W with csv := ⟨[], some (.file message)⟩ } = .crashed message ∧
      comparative_projection_vs_real_2022_2023 E
        { W with csv := ⟨[], some (.parser message)⟩ } =
        .completed ⟨[generalError message], none, none, none⟩ ∧
      (comparative_projection_vs_real_2022_2023 asciiEngine
        { sampleWorld [] with csv := ⟨[], some (.file missingFileMessage)⟩ }).outcome = none :=
  ⟨rfl, rfl, rfl⟩

theorem run_of_writer_error {σ : Type} (E : Engine) (W : World σ) (dataArray : List Record)
    (db : σ) (groupedData : Grouped)
    (hread : readCsvFile E W.csv = .resolved dataArray) (hconn : W.connect = .ok db)
    (hgroup : groupFrom E (enrichFrom W.pool 0 dataArray ⟨[], [], db⟩).dataArray [] =
      .ok groupedData)
    (writer : List Sheet → Option JSString) (excel : ExcelResult)
    (hw : excel = match writer ((forIn groupedData).map sheetOf) with
      | none => .uploaded ((forIn groupedData).map sheetOf)
      | some e => .logged e) :
    comparative_projection_vs_real_2022_2023 E { W with writer := writer } =
      .completed
        ⟨(enrichFrom W.pool 0 dataArray ⟨[], [], db⟩).errorMessages ++
            (match W.pool.close (enrichFrom W.pool 0 dataArray ⟨[], [], db⟩).db with
              | some c => [generalError c]
              | none => []),
          some (enrichFrom W.pool 0 dataArray ⟨[], [], db⟩).dataArray, some excel,
          some (enrichFrom W.pool 0 dataArray ⟨[], [], db⟩).db⟩ := by
  unfold comparative_projection_vs_real_2022_2023
  simp only [hread, hconn, generateExcel, hgroup]
  cases hwr : writer ((forIn groupedData).map sheetOf) with
  | none =>
    rw [hwr] at hw
    simp only [hw]
    cases W.pool.close (enrichFrom W.pool 0 dataArray ⟨[], [], db⟩).db <;> simp
  | some e =>
    rw [hwr] at hw
    simp only [hw]
    cases W.pool.close (enrichFrom W.pool 0 dataArray ⟨[], [], db⟩).db <;> simp

/-- C17, as stated, fails: in the run over one full row in which saving or uploading the
workbook raises 'Access Denied', the error list stays empty; the failure is only logged
by `generateExcel`. -/
theorem report_failure_not_in_error_list :
    (comparative_projection_vs_real_2022_2023 asciiEngine
        (failingWriterWorld [sampleRow "B" "12" "jun-23" "1/2/2023"])).outcome.map
        (fun o => (o.errorMessages, o.excel)) =
      some ([], some (.logged "Access Denied".toList)) := by
  decide

/-- C17, amended: a failure of the workbook writer or of the upload inside `generateExcel`
is caught and logged there and adds no entry to the error list: the run completes, the
report result is the logged failure, and the error list holds the entries of the
enrichment loop (plus the general entry of a failing `pool.close`), exactly as in the run
in which the report is written and uploaded. -/
theorem report_failure_only_logged {σ : Type} (E : Engine) (W : World σ)
    (dataArray : List Record) (db : σ) (groupedData : Grouped) (e : JSString)
    (hread : readCsvFile E W.csv = .resolved dataArray) (hconn : W.connect = .ok db)
    (hgroup : groupFrom E (enrichFrom W.pool 0 dataArray ⟨[], [], db⟩).dataArray [] =
      .ok groupedData)
    (hw : W.writer ((forIn groupedData).map sheetOf) = some e) :
    ∃ o, comparative_projection_vs_real_2022_2023 E W = .completed o ∧
      o.excel = some (.logged e) ∧
      o.errorMessages =
        (enrichFrom W.pool 0 dataArray ⟨[], [], db⟩).errorMessages ++
          (match W.pool.close (enrichFrom W.pool 0 dataArray ⟨[], [], db⟩).db with
            | some c => [generalError c]
            | none => []) ∧
      (comparative_projection_vs_real_2022_2023 E
          { W with writer := fun _ => none }).outcome.map (fun o => o.errorMessages) =
        some o.errorMessages := by
  have h1 := run_of_writer_error E W dataArray db groupedData hread hconn hgroup W.writer
    (.logged e) (by rw [hw])
  have h2 := run_of_writer_error E W dataArray db groupedData hread hconn hgroup
    (fun _ => none) (.uploaded ((forIn groupedData).map sheetOf)) rfl
  refine ⟨_, h1, rfl, rfl, ?_⟩
  rw [h2]
  rfl

/-- The theorem `report_failure_only_logged` on the run over one full row with a failing
upload: the report result is the logged failure and the error list is empty. -/
theorem report_failure_only_logged_witness :
    ∃ o, comparative_projection_vs_real_2022_2023 asciiEngine
        (failingWriterWorld [sampleRow "B" "12" "jun-23" "1/2/2023"]) = .completed o ∧
      o.excel = some (.logged "Access Denied".toList) ∧ o.errorMessages = [] := by
  obtain ⟨o, ho, hexcel, herr, -⟩ := report_failure_only_logged asciiEngine
    (failingWriterWorld [sampleRow "B" "12" "jun-23" "1/2/2023"])
    ((recordOf asciiEngine (sampleRow "B" "12" "jun-23" "1/2/2023")).toList) 0
    [("B".toList,
      (enrichFrom samplePool 0
        ((recordOf asciiEngine (sampleRow "B" "12" "jun-23" "1/2/2023")).toList)
        ⟨[], [], 0⟩).dataArray)]
    "Access Denied".toList (by decide) rfl (by decide) rfl
  exact ⟨o, ho, hexcel, herr.trans (by decide)⟩

/-! ## Sheet names -/

theorem jsLength_eq_utf16_length (s : JSString) : jsLength s = (utf16 s).length := by
  unfold jsLength utf16
  induction s with
  | nil => rfl
  | cons c cs ih =>
    simp only [List.map_cons, List.sum_cons, List.flatMap_cons, List.length_append, ih]
    congr 1
    unfold codeUnits
    split <;> rfl

theorem utf16_of_bmp (s : JSString) (h : ∀ c ∈ s, c.toNat < 0x10000) :
    utf16 s = s.map Char.toNat := by
  unfold utf16
  induction s with
  | nil => rfl
  | cons c cs ih =>
    have hc := h c (List.mem_cons_self _ _)
    rw [List.flatMap_cons, List.map_cons, ih (fun x hx => h x (List.mem_cons_of_mem _ hx)),
      if_pos hc]
    rfl

/-- C18: the name of the sheet that `generateExcel` makes for a grouping key is the first
31 characters of the key (UTF-16 code units, as `substring` and `length` count them): it
has at most 31 of them, it is a prefix of the key, and it is the whole key when the key
has at most 31; for a key of code points below U+10000 it is the text of the first 31
code points. All sheets of a report are named so. -/
theorem sheet_name_first_31 (key : JSString) (part : List Record) :
    (sheetOf (key, part)).name = (utf16 key).take 31 ∧
      (sheetOf (key, part)).name.length ≤ 31 ∧
      (sheetOf (key, part)).name <+: utf16 key ∧
      (jsLength key ≤ 31 → (sheetOf (key, part)).name = utf16 key) ∧
      ((∀ c ∈ key, c.toNat < 0x10000) →
        (sheetOf (key, part)).name = utf16 (key.take 31)) ∧
      (∀ groupedData : Grouped, ((forIn groupedData).map sheetOf).map (fun s => s.name) =
        (forIn groupedData).map (fun g => (utf16 g.1).take 31)) := by
  have hname : (sheetOf (key, part)).name = (utf16 key).take 31 := rfl
  refine ⟨hname, ?_, ?_, ?_, ?_, ?_⟩
  · rw [hname, List.length_take]
    exact Nat.min_le_left _ _
  · rw [hname]
    exact ⟨(utf16 key).drop 31, List.take_append_drop 31 _⟩
  · intro h
    rw [hname, List.take_of_length_le]
    rw [← jsLength_eq_utf16_length]
    exact h
  · intro h
    rw [hname, utf16_of_bmp key h,
      utf16_of_bmp (key.take 31) (fun c hc => h c (List.mem_of_mem_take hc)), List.map_take]
  · intro groupedData
    rw [List.map_map]
    rfl

/-- The theorem `sheet_name_first_31` on two keys: a key of 8 characters names its sheet,
and a key of 35 characters is cut after the 31st. -/
theorem sheet_name_first_31_witness :
    jsLength "AGRICOLA".toList ≤ 31 ∧
      (sheetOf ("AGRICOLA".toList, [])).name = utf16 "AGRICOLA".toList ∧
      (sheetOf ("PRODUCTORES UNIDOS DE LOS REYES SPR".toList, [])).name =
        utf16 "PRODUCTORES UNIDOS DE LOS REYES".toList :=
  ⟨by decide, (sheet_name_first_31 "AGRICOLA".toList []).2.2.2.1 (by decide), by decide⟩

end Proyeccion
